import Mathlib

/-!
Verification of the directory-comparison engine of `py_backup`
(`src/py_backup/comparer.py`) against its natural-language specification.

The embedding models the filesystem as a finite graph of nodes (indexed by
natural numbers) so that symbolic links, hard-link identity (`st_dev`,
`st_ino`), unreadable metadata (`OSError` on `stat`) and unreadable
directories (`PermissionError` on `scandir`) are all expressible.
Machine recursion over the directory tree is modelled with explicit fuel;
the Python recursion terminates exactly when the cycle guard or the finite
tree bounds it, and every theorem about a run is stated either for an
arbitrary fuel value or witnessed at a concrete, sufficient fuel.

Python's `enum.Flag` bitmask `FileStatus` is modelled as a `Nat` bitmask
with the same `auto()` values; `x in y` on flags is `Flag.__contains__`,
i.e. `x.value & y.value == x.value`.
-/

set_option synthInstance.maxSize 1024

namespace PyBackup

/-- The `FileType` enum from `comparer.py` (`class FileType(Enum)`). -/
inductive FileType where
  | FILE
  | DIR
  | SYMLINK
  | JUNCTION
  | BLOCK_DEVICE
  | CHARACTER_DEVICE
  | FIFO
  | SOCKET
  | DOOR
  | EVENT_PORT
  | WHITEOUT
  | UNKNOWN
deriving DecidableEq

/- The `FileStatus(Flag)` bitmask values, in `auto()` order. -/
namespace FileStatus

def NOT_COMPARED : Nat := 1
def UNKNOWN : Nat := 2
def EQUAL : Nat := 4
def MISMATCHED : Nat := 8
def UNIQUE : Nat := 16
def CHANGED : Nat := 32
def NEWER : Nat := 64
def OLDER : Nat := 128

/-- Models Python `Flag.__contains__`: `a in s` iff `a.value & s.value == a.value`. -/
def mem (a s : Nat) : Bool := a.land s == a

end FileStatus

/-- The result of a successful `os.stat` call. `st_mtime` is modelled as an
integer timestamp (the comparison tolerance arithmetic only uses ordering,
subtraction and absolute value). -/
structure Stats where
  st_dev : Nat
  st_ino : Nat
  st_mtime : Int
  st_size : Nat
  st_mode : Nat
deriving DecidableEq

/-- The shape of a filesystem node.  A `dir` node carries its entries
(`os.scandir` listing order) and whether `scandir` succeeds on it
(`readable = false` models `PermissionError`).  A `symlink` carries the
node id its target resolves to (`none` for a dangling link). -/
inductive NodeKind where
  | file
  | dir (children : List (String × Nat)) (readable : Bool)
  | symlink (target : Option Nat)
  | junction
  | special
deriving DecidableEq

/-- A filesystem node: its kind plus the result of `os.stat` on it
(`none` models `OSError` when fetching metadata). -/
structure Node where
  kind : NodeKind
  stats : Option Stats
deriving DecidableEq

/-- A filesystem: a finite graph of nodes, node ids are list indices. -/
def FS : Type := List Node

def FS.node (fs : FS) (i : Nat) : Option Node := List.get? fs i

def FS.kindOf (fs : FS) (i : Nat) : Option NodeKind :=
  (fs.node i).map Node.kind

/-- One resolution step of the OS path/symlink resolution: a symlink
resolves to its target (symlink chains are flattened in the model:
targets are non-symlink nodes), anything else resolves to itself. -/
def FS.resolveF (fs : FS) (i : Nat) : Option Nat :=
  match fs.kindOf i with
  | some (NodeKind.symlink t) => t
  | some _ => some i
  | none => none

/-- Models `os.DirEntry.is_file(follow_symlinks=...)`. -/
def FS.isFileE (fs : FS) (follow : Bool) (i : Nat) : Bool :=
  match (if follow then fs.resolveF i else some i) with
  | some j => fs.kindOf j = some NodeKind.file
  | none => false

/-- Models `os.DirEntry.is_dir(follow_symlinks=...)`. -/
def FS.isDirE (fs : FS) (follow : Bool) (i : Nat) : Bool :=
  match (if follow then fs.resolveF i else some i) with
  | some j => match fs.kindOf j with
    | some (NodeKind.dir _ _) => true
    | _ => false
  | none => false

/-- Models `os.DirEntry.is_symlink()`. -/
def FS.isSymlinkE (fs : FS) (i : Nat) : Bool :=
  match fs.kindOf i with
  | some (NodeKind.symlink _) => true
  | _ => false

/-- Models `os.DirEntry.is_junction()` (Python 3.12+; always false on POSIX
unless the node is a reparse point). -/
def FS.isJunctionE (fs : FS) (i : Nat) : Bool :=
  fs.kindOf i = some NodeKind.junction

/-- Models `os.DirEntry.stat(follow_symlinks=...)` / `os.stat`: `none` is an
`OSError` (dangling link when following, or unreadable metadata). -/
def FS.statE (fs : FS) (follow : Bool) (i : Nat) : Option Stats :=
  match (if follow then fs.resolveF i else some i) with
  | some j => match fs.node j with
    | some n => n.stats
    | none => none
  | none => none

/-- Models `os.stat(path)` on an already-resolved node id (path resolution always
follows symlinks; traversal carries resolved ids). -/
def FS.statOf (fs : FS) (i : Nat) : Option Stats :=
  match fs.node i with
  | some n => n.stats
  | none => none

/-- The `(st_dev, st_ino)` identity used by the cycle guard. -/
def FS.identityOf (fs : FS) (i : Nat) : Option (Nat × Nat) :=
  (fs.statOf i).map (fun s => (s.st_dev, s.st_ino))

/-- Models `os.scandir` on a node: succeeds only on a readable directory,
anything else raises an `OSError` (modelled as `none`). -/
def FS.scandirE (fs : FS) (i : Nat) : Option (List (String × Nat)) :=
  match fs.kindOf i with
  | some (NodeKind.dir children readable) => if readable then some children else none
  | _ => none

/-- Table `DirComparator.mode_to_filetype_map` applied to `stat.S_IFMT(st_mode)`,
with the Linux values of the `stat.S_IF*` constants (`S_IFDOOR`, `S_IFPORT`
and `S_IFWHT` are `0` on Linux, so the final binding of key `0` in the
Python dict literal is `FileType.UNKNOWN`). -/
def modeToFiletype (m : Nat) : FileType :=
  if m = 16384 then FileType.DIR
  else if m = 32768 then FileType.FILE
  else if m = 40960 then FileType.SYMLINK
  else if m = 24576 then FileType.BLOCK_DEVICE
  else if m = 8192 then FileType.CHARACTER_DEVICE
  else if m = 4096 then FileType.FIFO
  else if m = 49152 then FileType.SOCKET
  else FileType.UNKNOWN

/-- Method `DirComparator._get_file_type` on a present `os.DirEntry` (the checks in
source order: `is_file`, then the junction check when symlinks are not
followed, `is_dir`, `is_symlink`, then the stat-mode lookup; an `OSError`
during the stat yields `FileType.UNKNOWN`). -/
def getFileTypeSome (fs : FS) (follow : Bool) (i : Nat) : FileType :=
  if fs.isFileE follow i then FileType.FILE
  else if !follow && fs.isJunctionE i then FileType.JUNCTION
  else if fs.isDirE follow i then FileType.DIR
  else if fs.isSymlinkE i then FileType.SYMLINK
  else
    match fs.statE follow i with
    | some st => modeToFiletype (st.st_mode.land 61440)
    | none => FileType.UNKNOWN

/-- Method `DirComparator._get_file_type`: `None` entries map to `None`. -/
def getFileType (fs : FS) (follow : Bool) : Option Nat → Option FileType
  | none => none
  | some i => some (getFileTypeSome fs follow i)

/-- Method `DirComparator._get_regular_file_status`, as a function of the outcomes
of the two `DirEntry.stat()` calls (`none` = `OSError` → `UNKNOWN`).
Mirrors the source: start from `CHANGED`; within tolerance return `EQUAL`
when sizes match, otherwise fall through to `CHANGED`; beyond tolerance
or-in `NEWER` when side 1's mtime is strictly greater, else `OLDER`. -/
def getRegularFileStatus (s1 s2 : Option Stats) (tolerance : Int := 2) : Nat :=
  match s1, s2 with
  | some a, some b =>
    let timeDiff : Int := |a.st_mtime - b.st_mtime|
    let sizeEqual : Bool := a.st_size == b.st_size
    if timeDiff ≤ tolerance then
      if sizeEqual then FileStatus.EQUAL else FileStatus.CHANGED
    else if a.st_mtime > b.st_mtime then
      FileStatus.CHANGED.lor FileStatus.NEWER
    else
      FileStatus.CHANGED.lor FileStatus.OLDER
  | _, _ => FileStatus.UNKNOWN

/-- Method `DirComparator._get_file_status`: only `FILE`-typed pairs are compared
(`DirEntry.stat()` is called with its default `follow_symlinks=True`);
every other type yields `NOT_COMPARED`. -/
def getFileStatus (fs : FS) (i1 i2 : Nat) (ftype : FileType) : Nat :=
  if ftype = FileType.FILE then
    getRegularFileStatus (fs.statE true i1) (fs.statE true i2)
  else FileStatus.NOT_COMPARED

/-- Models `os.path.join(a, b)` for a relative second component on POSIX:
empty first component yields `b`, otherwise the pieces are joined by a
single separator. -/
def pjoin (a b : String) : String := if a = "" then b else a ++ "/" ++ b

/-- Joins relative-path components the way the traversal builds its
`rel_path` strings: the walk starts from `""` and extends with
`os.path.join(rel_path, name)` at each level. -/
def relStr (c : List String) : String := c.foldl pjoin ""

/-- Splits a character list at every `'/'` (the POSIX path separator);
the model of how the OS decomposes a path string during resolution. -/
def splitChars : List Char → List (List Char)
  | [] => [[]]
  | c :: rest =>
    if c = '/' then [] :: splitChars rest
    else
      match splitChars rest with
      | h :: t => (c :: h) :: t
      | [] => [[c]]

/-- Splits a path string into its components. -/
def splitPath (s : String) : List String := (splitChars s.data).map String.mk

/-- Models `fnmatch.fnmatch`-style glob matching as compiled by
`DirComparator._set_exclude_objects` (`re.compile(fnmatch.translate(p))`
then `re_obj.match`, which with `fnmatch.translate`'s trailing anchor is a
full match): `*` matches any run of characters, `?` any single character,
everything else literally (character classes are not used by the claims
and are treated as literals here). -/
def globMatch : List Char → List Char → Bool
  | [], s => s.isEmpty
  | '*' :: ps, s =>
    globMatch ps s ||
      (match s with
       | [] => false
       | _ :: s' => globMatch ('*' :: ps) s')
  | '?' :: _, [] => false
  | '?' :: ps, _ :: s => globMatch ps s
  | _ :: _, [] => false
  | c :: ps, c' :: s => c = c' && globMatch ps s
termination_by p s => (p.length, s.length)

/-- Decides whether a relative path is excluded, mirroring
`any(re_obj.match(entry_path) for re_obj in self._exclude_objects)`
(the `set(excludes)` deduplication in `_set_exclude_objects` does not
change the disjunction). An empty pattern list never matches. -/
def excludedBy (patterns : List String) (path : String) : Bool :=
  patterns.any fun pat => globMatch pat.data path.data

/-- Association-list update with `dict.setdefault` semantics: the first
binding of the key is updated in place, a missing key is appended at the
end (Python dicts preserve insertion order). -/
def updAssoc {α β : Type} [DecidableEq α] (k : α) (f : β → β) (d : β) :
    List (α × β) → List (α × β)
  | [] => [(k, f d)]
  | (k0, v) :: rest => if k0 = k then (k0, f v) :: rest else (k0, v) :: updAssoc k f d rest

/-- Association-list lookup (Python `dict` access / `dict.get`). -/
def alookup {α β : Type} [DecidableEq α] : List (α × β) → α → Option β
  | [], _ => none
  | (k0, v) :: rest, k => if k0 = k then some v else alookup rest k

/-- Association-list removal of a key (Python `dict.pop(name, None)`). -/
def eraseKeyA {α β : Type} [DecidableEq α] : List (α × β) → α → List (α × β)
  | [], _ => []
  | (k0, v) :: rest, k => if k0 = k then rest else (k0, v) :: eraseKeyA rest k

/-- The innermost container of the Result Model is a Python `set`;
adding an element is idempotent. -/
def setAdd (p : String) (s : List String) : List String :=
  if p ∈ s then s else s ++ [p]

/- The Result Model `self._dir_comparison`:
`side name → FileType → FileStatus bitmask → set of relative paths`. -/

abbrev TypeDct : Type := List (Nat × List String)

abbrev MainDct : Type := List (FileType × TypeDct)

abbrev DirComparison : Type := List (String × MainDct)

/-- Method `DirComparator._add_dct_entry`: the two outer levels use
`dict.setdefault`, the innermost level is a `set.add`. -/
def addDctEntry (res : DirComparison) (entry_path dct_name : String)
    (file_type : FileType) (file_status : Nat) : DirComparison :=
  updAssoc dct_name
    (fun m => updAssoc file_type (fun t => updAssoc file_status (setAdd entry_path) [] t) [] m)
    [] res

/-- An entry is recorded in the Result Model under a given side, type and
status bitmask. -/
def ResultHas (res : DirComparison) (side : String) (ft : FileType)
    (σ : Nat) (p : String) : Prop :=
  ∃ m t e, (side, m) ∈ res ∧ (ft, t) ∈ m ∧ (σ, e) ∈ t ∧ p ∈ e

/-- Boolean form of `ResultHas`, for evaluation on concrete states. -/
def resHasB (res : DirComparison) (side : String) (ft : FileType)
    (σ : Nat) (p : String) : Bool :=
  res.any fun sm => decide (sm.1 = side) &&
    sm.2.any fun ftd => decide (ftd.1 = ft) &&
      ftd.2.any fun σe => decide (σe.1 = σ) && σe.2.any fun q => decide (q = p)

/-- The reserved side key `DirComparator._mutual_key`. -/
def mutualKey : String := "mutual"

/-- The immutable part of a `DirComparator` instance: the two normalised
root paths and the two display names (no setters exist for them). -/
structure DirComparator where
  dir1 : String
  dir2 : String
  dir1_name : String
  dir2_name : String
deriving DecidableEq

/-- Ghost instrumentation: the order in which the run checks directory
identities (`_check_visited` recording `(st_dev, st_ino)`) and enumerates
directories (`os.scandir` on side 1, side 2, or during expansion).  The
trace does not influence any computed value. -/
inductive Ev where
  | check (key : Nat × Nat)
  | scan1 (rel : List String) (key : Option (Nat × Nat))
  | scan2 (rel : List String) (key : Option (Nat × Nat))
  | scanX (rel : List String) (key : Option (Nat × Nat))
deriving DecidableEq

/-- The mutable instance state of a `DirComparator` (the attributes set in
`__init__` and reset by `compare_directories` / `expand_dirs`), plus the
ghost trace. -/
structure InstState where
  comparator : DirComparator
  follow_symlinks : Bool
  unilateral_compare : Bool
  include_equal_entries : Bool
  visited : List (Nat × Nat)
  exclude_patterns : List String
  dir_comparison : DirComparison
  trace : List Ev
deriving DecidableEq

/-- Outcomes of `_check_visited`: the `os.stat` call may raise an
`OSError` (caught by the caller), or the identity may already have been
recorded, raising `InfiniteDirTraversalLoopError` (never caught). -/
inductive CheckErr where
  | osError
  | loop
deriving DecidableEq

/-- Method `DirComparator._check_visited` as a function of the `os.stat`
outcome and the current visited set: stat the directory, fail with the
traversal-loop error if its `(st_dev, st_ino)` identity was already
recorded, otherwise record it. -/
def checkVisited (statResult : Option Stats) (visited : List (Nat × Nat)) :
    Except CheckErr (List (Nat × Nat)) :=
  match statResult with
  | none => .error CheckErr.osError
  | some stats =>
    let dirkey := (stats.st_dev, stats.st_ino)
    if dirkey ∈ visited then .error CheckErr.loop
    else .ok (dirkey :: visited)

/-- Resolved node id used when the traversal later opens a directory that
was classified `DIR` (opening a path always resolves a symlink). -/
def rslv (fs : FS) (i : Nat) : Nat := (fs.resolveF i).getD i

/-- The per-entry loop of `DirComparator._compare_dir_entries`: walk the
side-1 listing, pop the same-named side-2 entry, skip excluded paths,
classify both sides and dispatch on the type alignment.  Returns the
updated state, the common subdirectories found (with resolved node ids)
and the not-popped remainder of the side-2 listing. -/
def compareEntriesLoop (fs : FS) (rel : List String) :
    List (String × Nat) → List (String × Nat) → InstState → List (String × Nat × Nat) →
    InstState × List (String × Nat × Nat) × List (String × Nat)
  | [], d2, st, cds => (st, cds, d2)
  | (name, i1) :: rest, d2, st, cds =>
    let e2 := alookup d2 name
    let d2' := eraseKeyA d2 name
    let entry_path := pjoin (relStr rel) name
    if excludedBy st.exclude_patterns entry_path then
      compareEntriesLoop fs rel rest d2' st cds
    else
      let t1 := getFileTypeSome fs st.follow_symlinks i1
      match e2 with
      | some i2 =>
        let t2 := getFileTypeSome fs st.follow_symlinks i2
        if t1 = t2 then
          let cds' := if t1 = FileType.DIR then cds ++ [(name, rslv fs i1, rslv fs i2)] else cds
          let fstatus := getFileStatus fs i1 i2 t1
          if (FileStatus.mem FileStatus.EQUAL fstatus
              || FileStatus.mem FileStatus.NOT_COMPARED fstatus)
              && !st.include_equal_entries then
            compareEntriesLoop fs rel rest d2' st cds'
          else
            compareEntriesLoop fs rel rest d2'
              { st with dir_comparison :=
                  (addDctEntry st.dir_comparison entry_path mutualKey t1 fstatus) } cds'
        else
          let st1 :=
            if !st.unilateral_compare then
              { st with dir_comparison :=
                  (addDctEntry st.dir_comparison entry_path st.comparator.dir2_name t2
                    FileStatus.MISMATCHED) }
            else st
          compareEntriesLoop fs rel rest d2'
            { st1 with dir_comparison :=
                (addDctEntry st1.dir_comparison entry_path st1.comparator.dir1_name t1
                  FileStatus.MISMATCHED) } cds
      | none =>
        compareEntriesLoop fs rel rest d2'
          { st with dir_comparison :=
              (addDctEntry st.dir_comparison entry_path st.comparator.dir1_name t1
                FileStatus.UNIQUE) } cds

/-- The trailing loop of `_compare_dir_entries`: in a bilateral run every
remaining (not popped), non-excluded side-2 entry is recorded `UNIQUE`
under side 2's name. -/
def addUniqueDir2Loop (fs : FS) (rel : List String) :
    List (String × Nat) → InstState → InstState
  | [], st => st
  | (name, i2) :: rest, st =>
    let entry_path := pjoin (relStr rel) name
    if excludedBy st.exclude_patterns entry_path then
      addUniqueDir2Loop fs rel rest st
    else
      let ftype := getFileTypeSome fs st.follow_symlinks i2
      addUniqueDir2Loop fs rel rest
        { st with dir_comparison :=
            (addDctEntry st.dir_comparison entry_path st.comparator.dir2_name ftype
              FileStatus.UNIQUE) }

/-- Method `DirComparator._compare_dir_entries` on the two listings of a
mutual directory pair: the entry loop, then the unique-side-2 loop when
the comparison is bilateral.  Returns the common subdirectories. -/
def compareDirEntries (fs : FS) (rel : List String) (l1 l2 : List (String × Nat))
    (st : InstState) : InstState × List (String × Nat × Nat) :=
  let r := compareEntriesLoop fs rel l1 l2 st []
  let st2 := if !r.1.unilateral_compare then addUniqueDir2Loop fs rel r.2.2 r.1 else r.1
  (st2, r.2.1)

/-- The trailing `for common_dir in common_dirs` loop of
`_recursive_scandir_cmpr`, parametrised by the recursive call: recurse
into each common directory in order; a traversal-loop error aborts the
remainder. -/
def foldCommonDirs (f : List String → Nat → Nat → InstState → Except String InstState)
    (rel : List String) : List (String × Nat × Nat) → InstState → Except String InstState
  | [], st => .ok st
  | (name, j1, j2) :: rest, st =>
    match f (rel ++ [name]) j1 j2 st with
    | .error e => .error e
    | .ok st' => foldCommonDirs f rel rest st'

/-- Method `DirComparator._recursive_scandir_cmpr`: stat side 1's
directory and run the cycle guard (an `OSError` is caught and the pair is
skipped; a traversal loop propagates), open both directories (`OSError` /
`PermissionError` skips the pair), delegate to `_compare_dir_entries`,
then recurse into the returned common directories.  Recursion depth is
bounded by explicit fuel; exhausted fuel returns the state unchanged. -/
def recursiveScandirCmpr (fs : FS) : Nat → List String → Nat → Nat → InstState →
    Except String InstState
  | 0, _, _, _, st => .ok st
  | fuel + 1, rel, i1, i2, st =>
    match fs.statOf i1 with
    | none => .ok st
    | some stats =>
      match checkVisited (some stats) st.visited with
      | .error _ =>
        .error ("Infinite traversal loop detected while traversing directories: "
          ++ pjoin st.comparator.dir1 (relStr rel))
      | .ok visited' =>
        let st := { st with visited := visited',
                            trace := st.trace ++ [Ev.check (stats.st_dev, stats.st_ino)] }
        match fs.scandirE i1 with
        | none => .ok st
        | some l1 =>
          let st := { st with trace := st.trace ++ [Ev.scan1 rel (fs.identityOf i1)] }
          match fs.scandirE i2 with
          | none => .ok st
          | some l2 =>
            let st := { st with trace := st.trace ++ [Ev.scan2 rel (fs.identityOf i2)] }
            let r := compareDirEntries fs rel l1 l2 st
            foldCommonDirs (recursiveScandirCmpr fs fuel) rel r.2 r.1

/-- Method `DirComparator.compare_directories`: reset the per-run state
(result model, visited set, exclusion matchers, flags — and the ghost
trace) and start the recursive comparison at the two roots. -/
def compareDirectories (fs : FS) (root1 root2 : Nat) (fuel : Nat) (st : InstState)
    (unilateral_compare : Bool := false) (include_equal_entries : Bool := false)
    (excludes : List String := []) : Except String InstState :=
  let st := { st with
    unilateral_compare := unilateral_compare,
    include_equal_entries := include_equal_entries,
    dir_comparison := [],
    visited := [],
    exclude_patterns := excludes,
    trace := [] }
  recursiveScandirCmpr fs fuel [] root1 root2 st

/-- OS path resolution of a relative component list below a node: at each
component, look the name up in the directory listing and resolve a
symlink (opening a path follows links in every component). -/
def lookupPathR (fs : FS) : Nat → List String → Option Nat
  | i, [] => some i
  | i, name :: rest =>
    match fs.kindOf i with
    | some (NodeKind.dir children _) =>
      match alookup children name with
      | some c =>
        match fs.resolveF c with
        | some c' => lookupPathR fs c' rest
        | none => none
      | none => none
    | _ => none

/-- The per-entry loop of `DirComparator._expand_dir`: skip excluded
paths, classify, record `UNIQUE` under the base directory's name, and
collect nested directories for recursion. -/
def expandEntriesLoop (fs : FS) (base_dir_name : String) (rel : List String) :
    List (String × Nat) → InstState → List (List String) → InstState × List (List String)
  | [], st, dirs => (st, dirs)
  | (name, i) :: rest, st, dirs =>
    let entry_path := pjoin (relStr rel) name
    if excludedBy st.exclude_patterns entry_path then
      expandEntriesLoop fs base_dir_name rel rest st dirs
    else
      let ftype := getFileTypeSome fs st.follow_symlinks i
      let st' := { st with dir_comparison :=
          (addDctEntry st.dir_comparison entry_path base_dir_name ftype FileStatus.UNIQUE) }
      let dirs' := if ftype = FileType.DIR then dirs ++ [rel ++ [name]] else dirs
      expandEntriesLoop fs base_dir_name rel rest st' dirs'

/-- The trailing `for nested_dir_path in dirs` loop of `_expand_dir`
(also used by `expand_dirs` for its seed directories), parametrised by
the recursive call: expand each directory in order; a traversal-loop
error aborts the remainder. -/
def foldExpandDirs (f : List String → InstState → Except String InstState) :
    List (List String) → InstState → Except String InstState
  | [], st => .ok st
  | relc :: rest, st =>
    match f relc st with
    | .error e => .error e
    | .ok st' => foldExpandDirs f rest st'

/-- Method `DirComparator._expand_dir`: resolve and stat the directory
(`OSError` skips it), run the cycle guard (a traversal loop propagates),
enumerate it (`OSError` / `PermissionError` skips it), record every
non-excluded nested entry as `UNIQUE`, then recurse into nested
directories.  Depth is bounded by explicit fuel. -/
def expandDir (fs : FS) (rootId : Nat) (base_dir base_dir_name : String) :
    Nat → List String → InstState → Except String InstState
  | 0, _, st => .ok st
  | fuel + 1, rel, st =>
    match lookupPathR fs rootId rel with
    | none => .ok st
    | some i =>
      match fs.statOf i with
      | none => .ok st
      | some stats =>
        match checkVisited (some stats) st.visited with
        | .error _ =>
          .error ("Infinite traversal loop detected while traversing directories: "
            ++ pjoin base_dir (relStr rel))
        | .ok visited' =>
          let st := { st with visited := visited',
                              trace := st.trace ++ [Ev.check (stats.st_dev, stats.st_ino)] }
          match fs.scandirE i with
          | none => .ok st
          | some entries =>
            let st := { st with trace := st.trace ++ [Ev.scanX rel (fs.identityOf i)] }
            let r := expandEntriesLoop fs base_dir_name rel entries st []
            foldExpandDirs (expandDir fs rootId base_dir base_dir_name fuel) r.2 r.1

/-- Method `DirComparator.expand_dirs`: collect every directory currently
recorded under each side's `FileType.DIR` bucket (all statuses, in
insertion order), reset the visited set and the exclusion matchers (and
the ghost trace), then expand each side-1 seed and each side-2 seed. -/
def expandDirs (fs : FS) (root1 root2 : Nat) (fuel : Nat) (st : InstState)
    (excludes : List String := []) : Except String InstState :=
  let dir1_dir_dct : TypeDct :=
    (alookup ((alookup st.dir_comparison st.comparator.dir1_name).getD []) FileType.DIR).getD []
  let dir2_dir_dct : TypeDct :=
    (alookup ((alookup st.dir_comparison st.comparator.dir2_name).getD []) FileType.DIR).getD []
  let dir1_dirs : List String := dir1_dir_dct.flatMap Prod.snd
  let dir2_dirs : List String := dir2_dir_dct.flatMap Prod.snd
  let st := { st with visited := [], exclude_patterns := excludes, trace := [] }
  match foldExpandDirs (expandDir fs root1 st.comparator.dir1 st.comparator.dir1_name fuel)
      (dir1_dirs.map splitPath) st with
  | .error e => .error e
  | .ok st1 =>
    foldExpandDirs (expandDir fs root2 st.comparator.dir2 st.comparator.dir2_name fuel)
      (dir2_dirs.map splitPath) st1

/-- The substitution `_iter_result` applies to requested base dirs: the
literals "dir1" and "dir2" stand for the two display names. -/
def substBase (st : InstState) (b : String) : String :=
  if b = "dir1" then st.comparator.dir1_name
  else if b = "dir2" then st.comparator.dir2_name
  else b

/-- Method `DirComparator._iter_result`: iterate the Result Model in
insertion order, applying the three filters; an empty filter list (the
model of a falsy Python argument) disables that filter; status filtering
asks whether any requested flag is contained in the entry's bitmask. -/
def iterResult (st : InstState) (base_dirs : List String) (entry_types : List FileType)
    (target_statuses : List Nat) : List (String × FileType × Nat × List String) :=
  let bd := base_dirs.map (substBase st)
  st.dir_comparison.flatMap fun sm =>
    if !base_dirs.isEmpty && !(bd.any fun b => decide (b = sm.1)) then []
    else
      sm.2.flatMap fun ftd =>
        if !entry_types.isEmpty && !(entry_types.any fun t => decide (t = ftd.1)) then []
        else
          ftd.2.flatMap fun σe =>
            if !target_statuses.isEmpty
                && !(target_statuses.any fun t => FileStatus.mem t σe.1) then []
            else [(sm.1, ftd.1, σe.1, σe.2)]

/-- The `base_to_root_path_map` of `get_entries`: each display name maps
to its root path, the mutual key to both roots.  (In the source a side
key outside the map would raise `KeyError`; reachable Result Models only
ever hold the three keys.) -/
def rootPathsFor (st : InstState) (side : String) : List String :=
  if side = st.comparator.dir1_name then [st.comparator.dir1]
  else if side = st.comparator.dir2_name then [st.comparator.dir2]
  else if side = mutualKey then [st.comparator.dir1, st.comparator.dir2]
  else []

/-- Method `DirComparator.get_entries`: every yielded bucket's paths are
joined under each root path associated with its side. -/
def getEntries (st : InstState) (base_dirs : List String := [])
    (entry_types : List FileType := []) (target_statuses : List Nat := []) : List String :=
  (iterResult st base_dirs entry_types target_statuses).flatMap fun tup =>
    (rootPathsFor st tup.1).flatMap fun root => tup.2.2.2.map fun entry => pjoin root entry

/-- Python `FileStatus(...).name` for a (possibly compound) flag value:
the member names of the set bits, in definition order, joined by "|". -/
def statusName (σ : Nat) : String :=
  let names := [(1, "NOT_COMPARED"), (2, "UNKNOWN"), (4, "EQUAL"), (8, "MISMATCHED"),
                (16, "UNIQUE"), (32, "CHANGED"), (64, "NEWER"), (128, "OLDER")]
  String.intercalate "|"
    (names.filterMap fun nv => if nv.1.land σ = nv.1 then some nv.2 else none)

/-- Python `FileType(...).name`. -/
def typeName : FileType → String
  | FileType.FILE => "FILE"
  | FileType.DIR => "DIR"
  | FileType.SYMLINK => "SYMLINK"
  | FileType.JUNCTION => "JUNCTION"
  | FileType.BLOCK_DEVICE => "BLOCK_DEVICE"
  | FileType.CHARACTER_DEVICE => "CHARACTER_DEVICE"
  | FileType.FIFO => "FIFO"
  | FileType.SOCKET => "SOCKET"
  | FileType.DOOR => "DOOR"
  | FileType.EVENT_PORT => "EVENT_PORT"
  | FileType.WHITEOUT => "WHITEOUT"
  | FileType.UNKNOWN => "UNKNOWN"

/-- Method `DirComparator.get_comparison_result`: the formatted
multi-section report (headline per bucket, one line per entry, a blank
line after each section). -/
def getComparisonResult (st : InstState) : String :=
  (iterResult st [] [] []).foldl
    (fun acc tup =>
      acc ++ tup.1.toUpper ++ " " ++ (statusName tup.2.2.1).replace "_" " " ++ " "
        ++ typeName tup.2.1 ++ "s:\n"
        ++ tup.2.2.2.foldl (fun a e => a ++ e ++ "\n") ""
        ++ "\n")
    "\n"

/-- Trace well-formedness: every side-1 scan and every expansion scan is
preceded (earlier in the trace) by a cycle-guard check that recorded the
same directory identity.  Side-2 scans are not constrained. -/
def guardedFrom (checked : List (Nat × Nat)) : List Ev → Bool
  | [] => true
  | Ev.check k :: rest => guardedFrom (k :: checked) rest
  | Ev.scan1 _ k :: rest =>
    (match k with
     | some key => checked.any fun k0 => decide (k0 = key)
     | none => false) && guardedFrom checked rest
  | Ev.scanX _ k :: rest =>
    (match k with
     | some key => checked.any fun k0 => decide (k0 = key)
     | none => false) && guardedFrom checked rest
  | Ev.scan2 _ _ :: rest => guardedFrom checked rest

/-- The claim-level property that every scanned directory — side-2
directories of the dual traversal included — is guard-checked before it
is enumerated. -/
def bothGuardedFrom (checked : List (Nat × Nat)) : List Ev → Bool
  | [] => true
  | Ev.check k :: rest => bothGuardedFrom (k :: checked) rest
  | Ev.scan1 _ k :: rest =>
    (match k with
     | some key => checked.any fun k0 => decide (k0 = key)
     | none => false) && bothGuardedFrom checked rest
  | Ev.scanX _ k :: rest =>
    (match k with
     | some key => checked.any fun k0 => decide (k0 = key)
     | none => false) && bothGuardedFrom checked rest
  | Ev.scan2 _ k :: rest =>
    (match k with
     | some key => checked.any fun k0 => decide (k0 = key)
     | none => false) && bothGuardedFrom checked rest

/-- The component loop of `posixpath.normpath`: drop empty and "."
components; ".." appends when the path is relative and empty so far or
the last kept component is itself "..", pops otherwise (or is dropped at
an absolute root). -/
def normComps (isAbs : Bool) : List String → List String → List String
  | acc, [] => acc
  | acc, comp :: rest =>
    if comp = "" || comp = "." then normComps isAbs acc rest
    else if comp ≠ ".." || (!isAbs && acc.isEmpty) || acc.getLast? = some ".." then
      normComps isAbs (acc ++ [comp]) rest
    else if !acc.isEmpty then normComps isAbs acc.dropLast rest
    else normComps isAbs acc rest

/-- Models `os.path.normpath` on POSIX (`posixpath.normpath`): collapse
separators and "." components, resolve ".." lexically, preserve an exact
leading "//". -/
def normpath (p : String) : String :=
  let slashes : Nat :=
    if p.data.take 2 = ['/', '/'] && p.data.take 3 ≠ ['/', '/', '/'] then 2
    else if p.data.take 1 = ['/'] then 1 else 0
  let comps := (splitChars p.data).map String.mk
  let body := String.intercalate "/" (normComps (slashes ≠ 0) [] comps)
  let res := String.mk (List.replicate slashes '/') ++ body
  if res = "" then "." else res

/-- Method `DirComparator.__init__` as a function of the world's
path-existence predicate: normalise both paths, then run the four
validation checks in source order; on success return the instance state
`__init__` establishes (no partially constructed instance exists on
failure).  `follow_symlinks` starts false and is only changed through its
property setter. -/
def initDirComparator (pathExistsF : String → Bool) (dir1 dir2 : String)
    (dir1_name : String := "dir1") (dir2_name : String := "dir2") :
    Except String InstState :=
  let d1 := normpath dir1
  let d2 := normpath dir2
  if !pathExistsF d1 then .error (d1 ++ " is not the path to an existing dir!")
  else if !pathExistsF d2 then .error (d2 ++ " is not the path to an existing dir!")
  else if d1 = d2 then .error "The directories to be compared cannot be the same!"
  else if dir1_name = dir2_name then
    .error "You cannot give the 2 directories the same name!"
  else
    .ok { comparator := { dir1 := d1, dir2 := d2,
                          dir1_name := dir1_name, dir2_name := dir2_name },
          follow_symlinks := false,
          unilateral_compare := false,
          include_equal_entries := false,
          visited := [],
          exclude_patterns := [],
          dir_comparison := [],
          trace := [] }

/- ------------------------------------------------------------------ -/
/- Claim C1: the status evaluator.                                    -/
/- ------------------------------------------------------------------ -/

/-- Claim C1: for FILE/FILE pairs with readable metadata, the status is
EQUAL when the mtime difference is within the tolerance (2) and sizes
match, plain CHANGED (no direction flag) when within tolerance with
different sizes, CHANGED|NEWER when side 1 is more than the tolerance
newer, CHANGED|OLDER when side 1 is more than the tolerance older;
unreadable metadata on either side yields UNKNOWN; and every same-typed
pair whose type is not FILE yields NOT_COMPARED. -/
theorem C1_status_evaluator (a b : Stats) (fs : FS) (i1 i2 : Nat) (ft : FileType) :
    (|a.st_mtime - b.st_mtime| ≤ 2 → a.st_size = b.st_size →
      getRegularFileStatus (some a) (some b) = FileStatus.EQUAL)
    ∧ (|a.st_mtime - b.st_mtime| ≤ 2 → a.st_size ≠ b.st_size →
      getRegularFileStatus (some a) (some b) = FileStatus.CHANGED)
    ∧ (2 < |a.st_mtime - b.st_mtime| → b.st_mtime < a.st_mtime →
      getRegularFileStatus (some a) (some b) = FileStatus.CHANGED.lor FileStatus.NEWER)
    ∧ (2 < |a.st_mtime - b.st_mtime| → a.st_mtime < b.st_mtime →
      getRegularFileStatus (some a) (some b) = FileStatus.CHANGED.lor FileStatus.OLDER)
    ∧ (∀ s2, getRegularFileStatus none s2 = FileStatus.UNKNOWN)
    ∧ (∀ s1, getRegularFileStatus s1 none = FileStatus.UNKNOWN)
    ∧ (getFileStatus fs i1 i2 FileType.FILE
        = getRegularFileStatus (fs.statE true i1) (fs.statE true i2))
    ∧ (ft ≠ FileType.FILE → getFileStatus fs i1 i2 ft = FileStatus.NOT_COMPARED) := by
  refine ⟨?_, ?_, ?_, ?_, ?_, ?_, ?_, ?_⟩
  · intro h1 h2
    simp [getRegularFileStatus, h1, h2]
  · intro h1 h2
    simp [getRegularFileStatus, h1, h2]
  · intro h1 h2
    have hle : ¬ (|a.st_mtime - b.st_mtime| ≤ 2) := by omega
    simp [getRegularFileStatus, hle, h2]
  · intro h1 h2
    have hle : ¬ (|a.st_mtime - b.st_mtime| ≤ 2) := by omega
    have hgt : ¬ (b.st_mtime < a.st_mtime) := by omega
    simp [getRegularFileStatus, hle, hgt]
  · intro s2; cases s2 <;> rfl
  · intro s1; cases s1 <;> rfl
  · rfl
  · intro h; simp [getFileStatus, h]

/-- Witness for C1 at concrete inputs discharging each hypothesis. -/
theorem C1_status_evaluator_witness :
    getRegularFileStatus (some ⟨0, 0, 10, 5, 0⟩) (some ⟨0, 0, 11, 5, 0⟩) = FileStatus.EQUAL
    ∧ getRegularFileStatus (some ⟨0, 0, 10, 5, 0⟩) (some ⟨0, 0, 11, 7, 0⟩) = FileStatus.CHANGED
    ∧ getRegularFileStatus (some ⟨0, 0, 20, 5, 0⟩) (some ⟨0, 0, 10, 5, 0⟩)
        = FileStatus.CHANGED.lor FileStatus.NEWER
    ∧ getRegularFileStatus (some ⟨0, 0, 10, 5, 0⟩) (some ⟨0, 0, 20, 5, 0⟩)
        = FileStatus.CHANGED.lor FileStatus.OLDER
    ∧ getFileStatus [] 0 0 FileType.DIR = FileStatus.NOT_COMPARED := by
  refine ⟨?_, ?_, ?_, ?_, ?_⟩
  · exact (C1_status_evaluator ⟨0, 0, 10, 5, 0⟩ ⟨0, 0, 11, 5, 0⟩ [] 0 0 FileType.DIR).1
      (by decide) (by decide)
  · exact (C1_status_evaluator ⟨0, 0, 10, 5, 0⟩ ⟨0, 0, 11, 7, 0⟩ [] 0 0 FileType.DIR).2.1
      (by decide) (by decide)
  · exact (C1_status_evaluator ⟨0, 0, 20, 5, 0⟩ ⟨0, 0, 10, 5, 0⟩ [] 0 0 FileType.DIR).2.2.1
      (by decide) (by decide)
  · exact (C1_status_evaluator ⟨0, 0, 10, 5, 0⟩ ⟨0, 0, 20, 5, 0⟩ [] 0 0 FileType.DIR).2.2.2.1
      (by decide) (by decide)
  · exact (C1_status_evaluator ⟨0, 0, 10, 5, 0⟩ ⟨0, 0, 20, 5, 0⟩ [] 0 0 FileType.DIR).2.2.2.2.2.2.2
      (by decide)

/- ------------------------------------------------------------------ -/
/- Configuration preservation: the traversal only mutates the result  -/
/- model, the visited set and the ghost trace.                        -/
/- ------------------------------------------------------------------ -/

/-- The fields of the instance state that no traversal step mutates. -/
def cfgOf (s : InstState) : DirComparator × Bool × Bool × Bool × List String :=
  (s.comparator, s.follow_symlinks, s.unilateral_compare,
    s.include_equal_entries, s.exclude_patterns)

theorem compareEntriesLoop_cfg (fs : FS) (rel : List String) :
    ∀ (l1 d2 : List (String × Nat)) (st : InstState) (cds : List (String × Nat × Nat)),
      cfgOf (compareEntriesLoop fs rel l1 d2 st cds).1 = cfgOf st := by
  intro l1
  induction l1 with
  | nil => intro d2 st cds; rfl
  | cons hd tl ih =>
    intro d2 st cds
    obtain ⟨name, i1⟩ := hd
    simp only [compareEntriesLoop]
    split
    · exact ih _ _ _
    · split
      · split
        · split
          · exact ih _ _ _
          · exact ih _ _ _
        · split <;> exact ih _ _ _
      · exact ih _ _ _

theorem addUniqueDir2Loop_cfg (fs : FS) (rel : List String) :
    ∀ (d2 : List (String × Nat)) (st : InstState),
      cfgOf (addUniqueDir2Loop fs rel d2 st) = cfgOf st := by
  intro d2
  induction d2 with
  | nil => intro st; rfl
  | cons hd tl ih =>
    intro st
    obtain ⟨name, i2⟩ := hd
    simp only [addUniqueDir2Loop]
    split
    · exact ih _
    · exact ih _

theorem compareDirEntries_cfg (fs : FS) (rel : List String) (l1 l2 : List (String × Nat))
    (st : InstState) : cfgOf (compareDirEntries fs rel l1 l2 st).1 = cfgOf st := by
  simp only [compareDirEntries]
  split
  · exact (addUniqueDir2Loop_cfg fs rel _ _).trans (compareEntriesLoop_cfg fs rel l1 l2 st [])
  · exact compareEntriesLoop_cfg fs rel l1 l2 st []

theorem foldCommonDirs_cfg_of (f : List String → Nat → Nat → InstState → Except String InstState)
    (H : ∀ rel i1 i2 st st', f rel i1 i2 st = .ok st' → cfgOf st' = cfgOf st) :
    ∀ (cds : List (String × Nat × Nat)) (rel : List String) (st st' : InstState),
      foldCommonDirs f rel cds st = .ok st' → cfgOf st' = cfgOf st := by
  intro cds
  induction cds with
  | nil =>
    intro rel st st' h
    cases h
    rfl
  | cons hd tl ih =>
    intro rel st st' h
    obtain ⟨name, j1, j2⟩ := hd
    rw [foldCommonDirs] at h
    cases hrec : f (rel ++ [name]) j1 j2 st with
    | error e => rw [hrec] at h; cases h
    | ok stm =>
      rw [hrec] at h
      exact (ih _ _ _ h).trans (H _ _ _ _ _ hrec)

theorem recScandir_cfg (fs : FS) :
    ∀ (fuel : Nat) (rel : List String) (i1 i2 : Nat) (st st' : InstState),
      recursiveScandirCmpr fs fuel rel i1 i2 st = .ok st' → cfgOf st' = cfgOf st := by
  intro fuel
  induction fuel with
  | zero =>
    intro rel i1 i2 st st' h
    cases h
    rfl
  | succ fuel ih =>
    intro rel i1 i2 st st' h
    rw [recursiveScandirCmpr] at h
    split at h
    · cases h; rfl
    · split at h
      · cases h
      · split at h
        · cases h; rfl
        · split at h
          · cases h; rfl
          · have h2 := foldCommonDirs_cfg_of (recursiveScandirCmpr fs fuel) ih _ _ _ _ h
            refine h2.trans ?_
            exact (compareDirEntries_cfg fs rel _ _ _)
theorem expandEntriesLoop_cfg (fs : FS) (bname : String) (rel : List String) :
    ∀ (entries : List (String × Nat)) (st : InstState) (dirs : List (List String)),
      cfgOf (expandEntriesLoop fs bname rel entries st dirs).1 = cfgOf st := by
  intro entries
  induction entries with
  | nil => intro st dirs; rfl
  | cons hd tl ih =>
    intro st dirs
    obtain ⟨name, i⟩ := hd
    simp only [expandEntriesLoop]
    split
    · exact ih _ _
    · exact ih _ _

theorem foldExpandDirs_cfg_of (f : List String → InstState → Except String InstState)
    (H : ∀ rel st st', f rel st = .ok st' → cfgOf st' = cfgOf st) :
    ∀ (dirs : List (List String)) (st st' : InstState),
      foldExpandDirs f dirs st = .ok st' → cfgOf st' = cfgOf st := by
  intro dirs
  induction dirs with
  | nil =>
    intro st st' h
    cases h
    rfl
  | cons hd tl ih =>
    intro st st' h
    rw [foldExpandDirs] at h
    cases hrec : f hd st with
    | error e => rw [hrec] at h; cases h
    | ok stm =>
      rw [hrec] at h
      exact (ih _ _ h).trans (H _ _ _ hrec)

theorem expandDir_cfg (fs : FS) (rootId : Nat) (bdir bname : String) :
    ∀ (fuel : Nat) (rel : List String) (st st' : InstState),
      expandDir fs rootId bdir bname fuel rel st = .ok st' → cfgOf st' = cfgOf st := by
  intro fuel
  induction fuel with
  | zero =>
    intro rel st st' h
    cases h
    rfl
  | succ fuel ih =>
    intro rel st st' h
    rw [expandDir] at h
    split at h
    · cases h; rfl
    · split at h
      · cases h; rfl
      · split at h
        · cases h
        · split at h
          · cases h; rfl
          · have h2 := foldExpandDirs_cfg_of (expandDir fs rootId bdir bname fuel)
              (fun rel st st' hh => ih rel st st' hh) _ _ _ h
            refine h2.trans ?_
            exact expandEntriesLoop_cfg fs bname rel _ _ _

theorem expandDirs_comparator (fs : FS) (root1 root2 : Nat) (fuel : Nat)
    (st st' : InstState) (ex : List String)
    (h : expandDirs fs root1 root2 fuel st ex = .ok st') :
    st'.comparator = st.comparator ∧ st'.follow_symlinks = st.follow_symlinks := by
  rw [expandDirs] at h
  simp only at h
  split at h
  · cases h
  · rename_i st1 heq1
    have c1 := foldExpandDirs_cfg_of
      (expandDir fs root1 st.comparator.dir1 st.comparator.dir1_name fuel)
      (expandDir_cfg fs root1 st.comparator.dir1 st.comparator.dir1_name fuel) _ _ _ heq1
    have c2 := foldExpandDirs_cfg_of
      (expandDir fs root2 st.comparator.dir2 st.comparator.dir2_name fuel)
      (expandDir_cfg fs root2 st.comparator.dir2 st.comparator.dir2_name fuel) _ _ _ h
    have := c2.trans c1
    exact ⟨congrArg (fun x => x.1) this, congrArg (fun x => x.2.1) this⟩

theorem compareDirectories_comparator (fs : FS) (root1 root2 : Nat) (fuel : Nat)
    (st st' : InstState) (u ie : Bool) (ex : List String)
    (h : compareDirectories fs root1 root2 fuel st u ie ex = .ok st') :
    st'.comparator = st.comparator ∧ st'.follow_symlinks = st.follow_symlinks := by
  have hc := recScandir_cfg fs fuel [] root1 root2 _ _ h
  exact ⟨congrArg (fun x => x.1) hc, congrArg (fun x => x.2.1) hc⟩

theorem reset_congr (st st' : InstState) (hc : st'.comparator = st.comparator)
    (hf : st'.follow_symlinks = st.follow_symlinks) (u ie : Bool) (ex : List String) :
    ({ st' with unilateral_compare := u, include_equal_entries := ie, dir_comparison := [], visited := [], exclude_patterns := ex, trace := [] } : InstState)
    = { st with unilateral_compare := u, include_equal_entries := ie, dir_comparison := [], visited := [], exclude_patterns := ex, trace := [] } := by
  cases st
  cases st'
  simp_all

/- ------------------------------------------------------------------ -/
/- Claim C5: compare is idempotent because it fully resets the        -/
/- per-run state.                                                     -/
/- ------------------------------------------------------------------ -/

/-- Claim C5: running `compare_directories` twice in a row with
identical arguments on an unchanged filesystem yields the same instance
state — in particular a structurally equal Result Model and a
byte-identical formatted report — because each invocation resets the
result model, the visited set and the exclusion matchers before
traversing. -/
theorem C5_compare_idempotent (fs : FS) (root1 root2 : Nat) (fuel : Nat)
    (st st1 st2 : InstState) (u ie : Bool) (ex : List String)
    (h1 : compareDirectories fs root1 root2 fuel st u ie ex = .ok st1)
    (h2 : compareDirectories fs root1 root2 fuel st1 u ie ex = .ok st2) :
    st2 = st1 ∧ st2.dir_comparison = st1.dir_comparison
      ∧ getComparisonResult st2 = getComparisonResult st1 := by
  obtain ⟨hc, hf⟩ := compareDirectories_comparator fs root1 root2 fuel st st1 u ie ex h1
  have hsame : compareDirectories fs root1 root2 fuel st1 u ie ex
      = compareDirectories fs root1 root2 fuel st u ie ex := by
    show recursiveScandirCmpr fs fuel [] root1 root2 _
      = recursiveScandirCmpr fs fuel [] root1 root2 _
    rw [reset_congr st st1 hc hf u ie ex]
  rw [hsame, h1] at h2
  cases h2
  exact ⟨rfl, rfl, rfl⟩

/-- Witness for C5: two empty roots; two successive compare calls return
the identical state. -/
theorem C5_compare_idempotent_witness :
    compareDirectories
        [⟨NodeKind.dir [] true, some ⟨0, 0, 0, 0, 16384⟩⟩,
         ⟨NodeKind.dir [] true, some ⟨0, 1, 0, 0, 16384⟩⟩] 0 1 1
        { comparator := ⟨"r1", "r2", "dir1", "dir2"⟩, follow_symlinks := false,
          unilateral_compare := false, include_equal_entries := false, visited := [],
          exclude_patterns := [], dir_comparison := [], trace := [] }
      = .ok { comparator := ⟨"r1", "r2", "dir1", "dir2"⟩, follow_symlinks := false,
              unilateral_compare := false, include_equal_entries := false,
              visited := [(0, 0)], exclude_patterns := [], dir_comparison := [],
              trace := [Ev.check (0, 0), Ev.scan1 [] (some (0, 0)),
                        Ev.scan2 [] (some (0, 1))] }
    ∧ compareDirectories
        [⟨NodeKind.dir [] true, some ⟨0, 0, 0, 0, 16384⟩⟩,
         ⟨NodeKind.dir [] true, some ⟨0, 1, 0, 0, 16384⟩⟩] 0 1 1
        { comparator := ⟨"r1", "r2", "dir1", "dir2"⟩, follow_symlinks := false,
          unilateral_compare := false, include_equal_entries := false,
          visited := [(0, 0)], exclude_patterns := [], dir_comparison := [],
          trace := [Ev.check (0, 0), Ev.scan1 [] (some (0, 0)),
                    Ev.scan2 [] (some (0, 1))] }
      = .ok { comparator := ⟨"r1", "r2", "dir1", "dir2"⟩, follow_symlinks := false,
              unilateral_compare := false, include_equal_entries := false,
              visited := [(0, 0)], exclude_patterns := [], dir_comparison := [],
              trace := [Ev.check (0, 0), Ev.scan1 [] (some (0, 0)),
                        Ev.scan2 [] (some (0, 1))] } := by
  constructor
  · rfl
  · have h := C5_compare_idempotent
      [⟨NodeKind.dir [] true, some ⟨0, 0, 0, 0, 16384⟩⟩,
       ⟨NodeKind.dir [] true, some ⟨0, 1, 0, 0, 16384⟩⟩] 0 1 1
      { comparator := ⟨"r1", "r2", "dir1", "dir2"⟩, follow_symlinks := false,
        unilateral_compare := false, include_equal_entries := false, visited := [],
        exclude_patterns := [], dir_comparison := [], trace := [] }
      { comparator := ⟨"r1", "r2", "dir1", "dir2"⟩, follow_symlinks := false,
        unilateral_compare := false, include_equal_entries := false,
        visited := [(0, 0)], exclude_patterns := [], dir_comparison := [],
        trace := [Ev.check (0, 0), Ev.scan1 [] (some (0, 0)),
                  Ev.scan2 [] (some (0, 1))] }
      { comparator := ⟨"r1", "r2", "dir1", "dir2"⟩, follow_symlinks := false,
        unilateral_compare := false, include_equal_entries := false,
        visited := [(0, 0)], exclude_patterns := [], dir_comparison := [],
        trace := [Ev.check (0, 0), Ev.scan1 [] (some (0, 0)),
                  Ev.scan2 [] (some (0, 1))] }
      false false [] rfl rfl
    exact h.1 ▸ rfl

/- ------------------------------------------------------------------ -/
/- Claim C9: construction validation.                                 -/
/- ------------------------------------------------------------------ -/

/-- Claim C9: construction succeeds if and only if both normalised roots
exist, the two normalised roots differ, and the two display names
differ; on success the instance carries exactly the normalised roots and
the given names, and neither compare nor expand ever changes them (no
partially constructed instance exists on failure: the constructor is a
total function into `Except`). -/
theorem C9_construction_validation (w : String → Bool) (d1 d2 n1 n2 : String) :
    ((∃ st, initDirComparator w d1 d2 n1 n2 = Except.ok st)
      ↔ (w (normpath d1) = true ∧ w (normpath d2) = true
          ∧ normpath d1 ≠ normpath d2 ∧ n1 ≠ n2))
    ∧ (∀ st, initDirComparator w d1 d2 n1 n2 = Except.ok st →
        st.comparator = ⟨normpath d1, normpath d2, n1, n2⟩)
    ∧ (∀ st st' fs r1 r2 fuel u ie ex,
        initDirComparator w d1 d2 n1 n2 = Except.ok st →
        compareDirectories fs r1 r2 fuel st u ie ex = Except.ok st' →
        st'.comparator = st.comparator)
    ∧ (∀ st st' fs r1 r2 fuel ex,
        initDirComparator w d1 d2 n1 n2 = Except.ok st →
        expandDirs fs r1 r2 fuel st ex = Except.ok st' →
        st'.comparator = st.comparator) := by
  refine ⟨?_, ?_, ?_, ?_⟩
  · by_cases h1 : w (normpath d1) <;> by_cases h2 : w (normpath d2) <;>
      by_cases h3 : normpath d1 = normpath d2 <;> by_cases h4 : n1 = n2 <;>
      simp [initDirComparator, h1, h2, h3, h4]
  · intro st h
    simp only [initDirComparator] at h
    split_ifs at h
    cases h
    rfl
  · intro st st' fs r1 r2 fuel u ie ex _ hcmp
    exact (compareDirectories_comparator fs r1 r2 fuel st st' u ie ex hcmp).1
  · intro st st' fs r1 r2 fuel ex _ hexp
    exact (expandDirs_comparator fs r1 r2 fuel st st' ex hexp).1

/-- Witness for C9 at a concrete world and arguments. -/
theorem C9_construction_validation_witness :
    initDirComparator (fun _ => true) "a" "b" "dir1" "dir2"
      = Except.ok { comparator := ⟨"a", "b", "dir1", "dir2"⟩, follow_symlinks := false,
                    unilateral_compare := false, include_equal_entries := false,
                    visited := [], exclude_patterns := [], dir_comparison := [],
                    trace := [] }
    ∧ ({ comparator := ⟨"a", "b", "dir1", "dir2"⟩, follow_symlinks := false,
         unilateral_compare := false, include_equal_entries := false, visited := [],
         exclude_patterns := [], dir_comparison := [], trace := [] } : InstState).comparator
        = ⟨"a", "b", "dir1", "dir2"⟩ := by
  have h := C9_construction_validation (fun _ => true) "a" "b" "dir1" "dir2"
  refine ⟨rfl, h.2.1 _ rfl⟩

/- ------------------------------------------------------------------ -/
/- Claim C3: the cycle guard and symlink cycles.                      -/
/- ------------------------------------------------------------------ -/

/-- A concrete filesystem in which both roots contain a subdirectory
holding a symlink back to that root: node 0 and node 1 are the roots,
nodes 2 and 3 their `sub` subdirectories, nodes 4 and 5 symlinks back to
the respective root (an ancestor). -/
def cycleFS : FS :=
  [⟨NodeKind.dir [("sub", 2)] true, some ⟨0, 0, 0, 0, 16384⟩⟩,
   ⟨NodeKind.dir [("sub", 3)] true, some ⟨0, 1, 0, 0, 16384⟩⟩,
   ⟨NodeKind.dir [("loop", 4)] true, some ⟨0, 2, 0, 0, 16384⟩⟩,
   ⟨NodeKind.dir [("loop", 5)] true, some ⟨0, 3, 0, 0, 16384⟩⟩,
   ⟨NodeKind.symlink (some 0), some ⟨0, 0, 0, 0, 40960⟩⟩,
   ⟨NodeKind.symlink (some 1), some ⟨0, 1, 0, 0, 40960⟩⟩]

/-- A fresh instance state over `cycleFS` with the given
`follow_symlinks` setting. -/
def cycleState (follow : Bool) : InstState :=
  { comparator := ⟨"r1", "r2", "dir1", "dir2"⟩, follow_symlinks := follow,
    unilateral_compare := false, include_equal_entries := false, visited := [],
    exclude_patterns := [], dir_comparison := [], trace := [] }

/-- Claim C3: the guard fails with the traversal-loop error exactly when
the stated directory identity is already recorded, and otherwise records
it and returns; consequently, on a tree whose roots both contain a
symlink back to an ancestor, compare raises the loop error when symlinks
are followed and completes normally when they are not (the symlink then
classifies as SYMLINK, not DIR, and is never recursed into). -/
theorem C3_cycle_guard (s : Stats) (visited : List (Nat × Nat)) :
    ((checkVisited (some s) visited = .error CheckErr.loop)
      ↔ (s.st_dev, s.st_ino) ∈ visited)
    ∧ ((s.st_dev, s.st_ino) ∉ visited →
        checkVisited (some s) visited = .ok ((s.st_dev, s.st_ino) :: visited))
    ∧ (∃ e, compareDirectories cycleFS 0 1 3 (cycleState true) = .error e)
    ∧ (∃ st, compareDirectories cycleFS 0 1 3 (cycleState false) = .ok st)
    ∧ getFileTypeSome cycleFS false 4 = FileType.SYMLINK
    ∧ getFileTypeSome cycleFS true 4 = FileType.DIR := by
  refine ⟨?_, ?_, ⟨_, rfl⟩, ⟨_, rfl⟩, rfl, rfl⟩
  · constructor
    · intro h
      by_contra hmem
      simp [checkVisited, hmem] at h
    · intro hmem
      simp [checkVisited, hmem]
  · intro hmem
    simp [checkVisited, hmem]

/-- Witness for C3 applying the guard specification at concrete inputs. -/
theorem C3_cycle_guard_witness :
    checkVisited (some ⟨1, 2, 0, 0, 0⟩) [] = .ok [(1, 2)]
    ∧ checkVisited (some ⟨1, 2, 0, 0, 0⟩) [(1, 2)] = .error CheckErr.loop := by
  constructor
  · exact (C3_cycle_guard ⟨1, 2, 0, 0, 0⟩ []).2.1 (by decide)
  · exact (C3_cycle_guard ⟨1, 2, 0, 0, 0⟩ [(1, 2)]).1.mpr (by decide)

/- ------------------------------------------------------------------ -/
/- Result-model membership infrastructure.                            -/
/- ------------------------------------------------------------------ -/

theorem mem_updAssoc_elim {α β : Type} [DecidableEq α] {k : α} {f : β → β} {d : β} :
    ∀ {l : List (α × β)} {k' : α} {v' : β}, (k', v') ∈ updAssoc k f d l →
      (k', v') ∈ l ∨ (k' = k ∧ (v' = f d ∨ ∃ v, (k, v) ∈ l ∧ v' = f v)) := by
  intro l
  induction l with
  | nil =>
    intro k' v' h
    simp only [updAssoc, List.mem_singleton, Prod.mk.injEq] at h
    exact Or.inr ⟨h.1, Or.inl h.2⟩
  | cons hd tl ih =>
    intro k' v' h
    obtain ⟨k0, v0⟩ := hd
    simp only [updAssoc] at h
    by_cases hk : k0 = k
    · rw [if_pos hk] at h
      rcases List.mem_cons.mp h with h1 | h2
      · obtain ⟨he1, he2⟩ := Prod.mk.injEq .. ▸ h1
        subst hk
        exact Or.inr ⟨he1, Or.inr ⟨v0, List.mem_cons_self _ _, he2⟩⟩
      · exact Or.inl (List.mem_cons_of_mem _ h2)
    · rw [if_neg hk] at h
      rcases List.mem_cons.mp h with h1 | h2
      · exact Or.inl (List.mem_cons.mpr (Or.inl h1))
      · rcases ih h2 with hold | ⟨hk', hv⟩
        · exact Or.inl (List.mem_cons_of_mem _ hold)
        · refine Or.inr ⟨hk', ?_⟩
          rcases hv with hv | ⟨v, hv1, hv2⟩
          · exact Or.inl hv
          · exact Or.inr ⟨v, List.mem_cons_of_mem _ hv1, hv2⟩

theorem mem_updAssoc_self {α β : Type} [DecidableEq α] (k : α) (f : β → β) (d : β) :
    ∀ (l : List (α × β)), ∃ v, (k, f v) ∈ updAssoc k f d l := by
  intro l
  induction l with
  | nil => exact ⟨d, by simp [updAssoc]⟩
  | cons hd tl ih =>
    obtain ⟨k0, v0⟩ := hd
    by_cases hk : k0 = k
    · subst hk
      exact ⟨v0, by simp [updAssoc]⟩
    · obtain ⟨v, hv⟩ := ih
      exact ⟨v, by simp only [updAssoc, if_neg hk]; exact List.mem_cons_of_mem _ hv⟩

theorem mem_updAssoc_mono {α β : Type} [DecidableEq α] (k : α) (f : β → β) (d : β)
    (Q : β → Prop) (hQ : ∀ v, Q v → Q (f v)) :
    ∀ (l : List (α × β)) (a : α), (∃ v, (a, v) ∈ l ∧ Q v) →
      ∃ v', (a, v') ∈ updAssoc k f d l ∧ Q v' := by
  intro l
  induction l with
  | nil =>
    intro a h
    obtain ⟨v, hv, _⟩ := h
    cases hv
  | cons hd tl ih =>
    intro a h
    obtain ⟨v, hv, hQv⟩ := h
    obtain ⟨k0, v0⟩ := hd
    by_cases hk : k0 = k
    · rcases List.mem_cons.mp hv with h1 | h2
      · obtain ⟨he1, he2⟩ := Prod.mk.injEq .. ▸ h1
        subst he1 he2
        exact ⟨f v, by simp [updAssoc, hk], hQ v hQv⟩
      · exact ⟨v, by simp only [updAssoc, if_pos hk]; exact List.mem_cons_of_mem _ h2, hQv⟩
    · rcases List.mem_cons.mp hv with h1 | h2
      · exact ⟨v, by simp only [updAssoc, if_neg hk]; exact List.mem_cons.mpr (Or.inl h1), hQv⟩
      · obtain ⟨v', hv', hQ'⟩ := ih a ⟨v, h2, hQv⟩
        exact ⟨v', by simp only [updAssoc, if_neg hk]; exact List.mem_cons_of_mem _ hv', hQ'⟩

theorem mem_setAdd {p0 p : String} {s : List String} :
    p ∈ setAdd p0 s ↔ p = p0 ∨ p ∈ s := by
  unfold setAdd
  split
  · rename_i hmem
    constructor
    · exact Or.inr
    · rintro (rfl | h)
      · exact hmem
      · exact h
  · simp only [List.mem_append, List.mem_singleton]
    tauto

/-- Membership in the Result Model after an `_add_dct_entry` call: the
added tuple, or anything that was already recorded. -/
theorem ResultHas_add (res : DirComparison) (p0 s0 : String) (ft0 : FileType) (σ0 : Nat)
    (side : String) (ft : FileType) (σ : Nat) (p : String) :
    ResultHas (addDctEntry res p0 s0 ft0 σ0) side ft σ p ↔
      (side = s0 ∧ ft = ft0 ∧ σ = σ0 ∧ p = p0) ∨ ResultHas res side ft σ p := by
  constructor
  · rintro ⟨m, t, e, hm, ht, he, hp⟩
    rcases mem_updAssoc_elim hm with hmold | ⟨hks, hmv⟩
    · exact Or.inr ⟨m, t, e, hmold, ht, he, hp⟩
    · subst hks
      rcases hmv with rfl | ⟨m0, hm0, rfl⟩
      · -- m is the freshly created two-level structure
        simp only [updAssoc, List.mem_singleton, Prod.mk.injEq] at ht
        obtain ⟨rfl, rfl⟩ := ht
        simp only [updAssoc, List.mem_singleton, Prod.mk.injEq] at he
        obtain ⟨rfl, rfl⟩ := he
        rcases mem_setAdd.mp hp with rfl | hfalse
        · exact Or.inl ⟨rfl, rfl, rfl, rfl⟩
        · cases hfalse
      · rcases mem_updAssoc_elim ht with htold | ⟨hkt, htv⟩
        · exact Or.inr ⟨m0, t, e, hm0, htold, he, hp⟩
        · subst hkt
          rcases htv with rfl | ⟨t0, ht0, rfl⟩
          · simp only [updAssoc, List.mem_singleton, Prod.mk.injEq] at he
            obtain ⟨rfl, rfl⟩ := he
            rcases mem_setAdd.mp hp with rfl | hfalse
            · exact Or.inl ⟨rfl, rfl, rfl, rfl⟩
            · cases hfalse
          · rcases mem_updAssoc_elim he with heold | ⟨hkσ, hev⟩
            · exact Or.inr ⟨m0, t0, e, hm0, ht0, heold, hp⟩
            · subst hkσ
              rcases hev with rfl | ⟨e0, he0, rfl⟩
              · rcases mem_setAdd.mp hp with rfl | hfalse
                · exact Or.inl ⟨rfl, rfl, rfl, rfl⟩
                · cases hfalse
              · rcases mem_setAdd.mp hp with rfl | hpe
                · exact Or.inl ⟨rfl, rfl, rfl, rfl⟩
                · exact Or.inr ⟨m0, t0, e0, hm0, ht0, he0, hpe⟩
  · rintro (⟨rfl, rfl, rfl, rfl⟩ | ⟨m, t, e, hm, ht, he, hp⟩)
    · obtain ⟨m, hm⟩ := mem_updAssoc_self side
        (fun m => updAssoc ft (fun t => updAssoc σ (setAdd p) [] t) [] m) [] res
      obtain ⟨t, ht⟩ := mem_updAssoc_self ft (fun t => updAssoc σ (setAdd p) [] t) [] m
      obtain ⟨e, he⟩ := mem_updAssoc_self σ (setAdd p) [] t
      exact ⟨_, _, _, hm, ht, he, mem_setAdd.mpr (Or.inl rfl)⟩
    · -- monotonicity through the three levels
      have houter := mem_updAssoc_mono s0
        (fun m => updAssoc ft0 (fun t => updAssoc σ0 (setAdd p0) [] t) [] m) []
        (fun m0 => ∃ t0, (ft, t0) ∈ m0 ∧ ∃ e0, (σ, e0) ∈ t0 ∧ p ∈ e0)
        (fun m0 h0 =>
          mem_updAssoc_mono ft0 (fun t => updAssoc σ0 (setAdd p0) [] t) []
            (fun t0 => ∃ e0, (σ, e0) ∈ t0 ∧ p ∈ e0)
            (fun t0 h1 =>
              mem_updAssoc_mono σ0 (setAdd p0) [] (fun e0 => p ∈ e0)
                (fun v hv => mem_setAdd.mpr (Or.inr hv)) t0 σ h1)
            m0 ft h0)
        res side ⟨m, hm, t, ht, e, he, hp⟩
      obtain ⟨m', hm', t', ht', e', he', hp'⟩ := houter
      exact ⟨m', t', e', hm', ht', he', hp'⟩

/-- Monotonicity: an `_add_dct_entry` call never removes a recorded
entry. -/
theorem ResultHas_add_mono {res : DirComparison} {p0 s0 : String} {ft0 : FileType}
    {σ0 : Nat} {side : String} {ft : FileType} {σ : Nat} {p : String}
    (h : ResultHas res side ft σ p) :
    ResultHas (addDctEntry res p0 s0 ft0 σ0) side ft σ p :=
  (ResultHas_add res p0 s0 ft0 σ0 side ft σ p).mpr (Or.inr h)

/-- The added tuple is recorded after `_add_dct_entry`. -/
theorem ResultHas_add_self (res : DirComparison) (p0 s0 : String) (ft0 : FileType)
    (σ0 : Nat) : ResultHas (addDctEntry res p0 s0 ft0 σ0) s0 ft0 σ0 p0 :=
  (ResultHas_add res p0 s0 ft0 σ0 s0 ft0 σ0 p0).mpr (Or.inl ⟨rfl, rfl, rfl, rfl⟩)

/- ------------------------------------------------------------------ -/
/- Claim C6: the query layer.                                         -/
/- ------------------------------------------------------------------ -/

theorem filter_pass {b X : Bool} (hc : ¬((!b && !X) = true)) : b = true ∨ X = true := by
  cases b <;> cases X <;> simp_all

theorem filter_block {b X : Bool} (hc : (!b && !X) = true) : b = false ∧ X = false := by
  cases b <;> cases X <;> simp_all

theorem mem_iterResult (st : InstState) (bd : List String) (et : List FileType)
    (ts : List Nat) (side : String) (ft : FileType) (σ : Nat) (e : List String) :
    (side, ft, σ, e) ∈ iterResult st bd et ts ↔
      (∃ m t, (side, m) ∈ st.dir_comparison ∧ (ft, t) ∈ m ∧ (σ, e) ∈ t)
      ∧ (bd = [] ∨ ∃ b ∈ bd, substBase st b = side)
      ∧ (et = [] ∨ ft ∈ et)
      ∧ (ts = [] ∨ ∃ u ∈ ts, FileStatus.mem u σ = true) := by
  unfold iterResult
  rw [List.mem_flatMap]
  constructor
  · rintro ⟨⟨s0, m⟩, hm, hx⟩
    split at hx
    · simp at hx
    · rename_i hc1
      rw [List.mem_flatMap] at hx
      obtain ⟨⟨ft0, t⟩, ht, hx⟩ := hx
      split at hx
      · simp at hx
      · rename_i hc2
        rw [List.mem_flatMap] at hx
        obtain ⟨⟨σ0, e0⟩, he, hx⟩ := hx
        split at hx
        · simp at hx
        · rename_i hc3
          simp only [List.mem_singleton] at hx
          cases hx
          refine ⟨⟨m, t, hm, ht, he⟩, ?_, ?_, ?_⟩
          · rcases filter_pass hc1 with hb | hx
            · exact Or.inl (List.isEmpty_iff.mp hb)
            · right
              rw [List.any_eq_true] at hx
              obtain ⟨b, hbmem, hbeq⟩ := hx
              rw [List.mem_map] at hbmem
              obtain ⟨b0, hb0, rfl⟩ := hbmem
              exact ⟨b0, hb0, of_decide_eq_true hbeq⟩
          · rcases filter_pass hc2 with hb | hx
            · exact Or.inl (List.isEmpty_iff.mp hb)
            · right
              rw [List.any_eq_true] at hx
              obtain ⟨u, humem, hueq⟩ := hx
              have := of_decide_eq_true hueq
              subst this
              exact humem
          · rcases filter_pass hc3 with hb | hx
            · exact Or.inl (List.isEmpty_iff.mp hb)
            · right
              rw [List.any_eq_true] at hx
              exact hx
  · rintro ⟨⟨m, t, hm, ht, he⟩, h1, h2, h3⟩
    refine ⟨(side, m), hm, ?_⟩
    split
    · rename_i hcond
      exfalso
      obtain ⟨hb, hx⟩ := filter_block hcond
      rcases h1 with rfl | ⟨b, hbmem, hbeq⟩
      · simp at hb
      · have htrue : ((bd.map (substBase st)).any fun x => decide (x = side)) = true :=
          List.any_eq_true.mpr ⟨substBase st b, List.mem_map.mpr ⟨b, hbmem, rfl⟩,
            decide_eq_true hbeq⟩
        rw [hx] at htrue
        cases htrue
    · rw [List.mem_flatMap]
      refine ⟨(ft, t), ht, ?_⟩
      split
      · rename_i hcond
        exfalso
        obtain ⟨hb, hx⟩ := filter_block hcond
        rcases h2 with rfl | hmem
        · simp at hb
        · have htrue : (et.any fun u => decide (u = ft)) = true :=
            List.any_eq_true.mpr ⟨ft, hmem, decide_eq_true rfl⟩
          rw [hx] at htrue
          cases htrue
      · rw [List.mem_flatMap]
        refine ⟨(σ, e), he, ?_⟩
        split
        · rename_i hcond
          exfalso
          obtain ⟨hb, hx⟩ := filter_block hcond
          rcases h3 with rfl | ⟨u, humem, hueq⟩
          · simp at hb
          · have htrue : (ts.any fun u => FileStatus.mem u σ) = true :=
              List.any_eq_true.mpr ⟨u, humem, hueq⟩
            rw [hx] at htrue
            cases htrue
        · simp

theorem mem_getEntries (st : InstState) (bd : List String) (et : List FileType)
    (ts : List Nat) (p : String) :
    p ∈ getEntries st bd et ts ↔
      ∃ side ft σ q, ResultHas st.dir_comparison side ft σ q
        ∧ (bd = [] ∨ ∃ b ∈ bd, substBase st b = side)
        ∧ (et = [] ∨ ft ∈ et)
        ∧ (ts = [] ∨ ∃ u ∈ ts, FileStatus.mem u σ = true)
        ∧ ∃ root ∈ rootPathsFor st side, p = pjoin root q := by
  unfold getEntries
  rw [List.mem_flatMap]
  constructor
  · rintro ⟨⟨side, ft, σ, e⟩, hiter, hp⟩
    rw [List.mem_flatMap] at hp
    obtain ⟨root, hroot, hp⟩ := hp
    rw [List.mem_map] at hp
    obtain ⟨q, hq, rfl⟩ := hp
    obtain ⟨⟨m, t, hm, ht, he⟩, h1, h2, h3⟩ := (mem_iterResult st bd et ts side ft σ e).mp hiter
    exact ⟨side, ft, σ, q, ⟨m, t, e, hm, ht, he, hq⟩, h1, h2, h3, root, hroot, rfl⟩
  · rintro ⟨side, ft, σ, q, ⟨m, t, e, hm, ht, he, hq⟩, h1, h2, h3, root, hroot, rfl⟩
    refine ⟨(side, ft, σ, e),
      (mem_iterResult st bd et ts side ft σ e).mpr ⟨⟨m, t, hm, ht, he⟩, h1, h2, h3⟩, ?_⟩
    rw [List.mem_flatMap]
    exact ⟨root, hroot, List.mem_map.mpr ⟨q, hq, rfl⟩⟩

/-- A concrete Result Model holding one mutual file recorded with the
compound status `CHANGED|OLDER` (side A older than side B). -/
def c6ExampleState : InstState :=
  { comparator := ⟨"r1", "r2", "dir1", "dir2"⟩, follow_symlinks := false,
    unilateral_compare := false, include_equal_entries := false, visited := [],
    exclude_patterns := [],
    dir_comparison := addDctEntry [] "c.txt" mutualKey FileType.FILE
      (FileStatus.CHANGED.lor FileStatus.OLDER),
    trace := [] }

/-- Claim C6: `get_entries` returns exactly the joins of recorded entries
passing the three filters, where an empty filter list (the model of a
missing or empty argument) passes everything, base-dir filtering applies
the "dir1"/"dir2" substitution, and status filtering is bitmask
containment of any requested flag; the mutual side joins under both
roots; an entry with compound status CHANGED|OLDER is returned when
filtering by OLDER or by CHANGED and not when filtering by NEWER. -/
theorem C6_get_entries (st : InstState) (bd : List String) (et : List FileType)
    (ts : List Nat) (p : String) :
    (p ∈ getEntries st bd et ts ↔
      ∃ side ft σ q, ResultHas st.dir_comparison side ft σ q
        ∧ (bd = [] ∨ ∃ b ∈ bd, substBase st b = side)
        ∧ (et = [] ∨ ft ∈ et)
        ∧ (ts = [] ∨ ∃ u ∈ ts, FileStatus.mem u σ = true)
        ∧ ∃ root ∈ rootPathsFor st side, p = pjoin root q)
    ∧ (st.comparator.dir1_name ≠ mutualKey → st.comparator.dir2_name ≠ mutualKey →
        rootPathsFor st mutualKey = [st.comparator.dir1, st.comparator.dir2])
    ∧ pjoin "r1" "c.txt" ∈ getEntries c6ExampleState [] [] [FileStatus.OLDER]
    ∧ pjoin "r2" "c.txt" ∈ getEntries c6ExampleState [] [] [FileStatus.OLDER]
    ∧ pjoin "r1" "c.txt" ∈ getEntries c6ExampleState [] [] [FileStatus.CHANGED]
    ∧ getEntries c6ExampleState [] [] [FileStatus.NEWER] = [] := by
  refine ⟨mem_getEntries st bd et ts p, ?_, by decide, by decide, by decide, by decide⟩
  intro h1 h2
  unfold rootPathsFor
  rw [if_neg (Ne.symm h1), if_neg (Ne.symm h2), if_pos rfl]

/-- Witness for C6 at the concrete example state. -/
theorem C6_get_entries_witness :
    (pjoin "r1" "c.txt" ∈ getEntries c6ExampleState [] [] [FileStatus.OLDER])
    ∧ rootPathsFor c6ExampleState mutualKey = ["r1", "r2"] := by
  have h := C6_get_entries c6ExampleState [] [] [FileStatus.OLDER] (pjoin "r1" "c.txt")
  exact ⟨h.2.2.1, h.2.1 (by decide) (by decide)⟩

/- ------------------------------------------------------------------ -/
/- Claim C2: mismatched pairs and side-2 uniques.                     -/
/- ------------------------------------------------------------------ -/

theorem alookup_eraseKeyA_ne {α β : Type} [DecidableEq α] {k n : α} (h : k ≠ n) :
    ∀ (l : List (α × β)), alookup (eraseKeyA l n) k = alookup l k := by
  intro l
  induction l with
  | nil => rfl
  | cons hd tl ih =>
    obtain ⟨k0, v0⟩ := hd
    by_cases hk0 : k0 = n
    · have hne : ¬ (k0 = k) := fun hh => h ((hh.symm).trans hk0)
      simp only [eraseKeyA, if_pos hk0, alookup, if_neg hne]
    · simp only [eraseKeyA, if_neg hk0, alookup]
      by_cases hk : k0 = k
      · rw [if_pos hk, if_pos hk]
      · rw [if_neg hk, if_neg hk]
        exact ih

theorem mem_eraseKeyA {α β : Type} [DecidableEq α] {k n : α} {v : β} (hk : k ≠ n) :
    ∀ {l : List (α × β)}, (k, v) ∈ l → (k, v) ∈ eraseKeyA l n := by
  intro l
  induction l with
  | nil => intro h; cases h
  | cons hd tl ih =>
    intro h
    obtain ⟨k0, v0⟩ := hd
    by_cases hk0 : k0 = n
    · rcases List.mem_cons.mp h with h1 | h2
      · obtain ⟨he1, he2⟩ := Prod.mk.injEq .. ▸ h1
        exact absurd (he1.trans hk0) hk
      · simpa [eraseKeyA, if_pos hk0] using h2
    · rcases List.mem_cons.mp h with h1 | h2
      · simp only [eraseKeyA, if_neg hk0]
        exact List.mem_cons.mpr (Or.inl h1)
      · simp only [eraseKeyA, if_neg hk0]
        exact List.mem_cons_of_mem _ (ih h2)

theorem compareEntriesLoop_mono (fs : FS) (rel : List String) :
    ∀ (l1 d2 : List (String × Nat)) (st : InstState) (cds : List (String × Nat × Nat))
      (side : String) (ft : FileType) (σ : Nat) (q : String),
      ResultHas st.dir_comparison side ft σ q →
      ResultHas (compareEntriesLoop fs rel l1 d2 st cds).1.dir_comparison side ft σ q := by
  intro l1
  induction l1 with
  | nil => intro d2 st cds side ft σ q h; exact h
  | cons hd tl ih =>
    intro d2 st cds side ft σ q h
    obtain ⟨name, i1⟩ := hd
    simp only [compareEntriesLoop]
    split
    · exact ih _ _ _ _ _ _ _ h
    · split
      · split
        · split
          · exact ih _ _ _ _ _ _ _ h
          · exact ih _ _ _ _ _ _ _ (ResultHas_add_mono h)
        · split
          · exact ih _ _ _ _ _ _ _ (ResultHas_add_mono (ResultHas_add_mono h))
          · exact ih _ _ _ _ _ _ _ (ResultHas_add_mono h)
      · exact ih _ _ _ _ _ _ _ (ResultHas_add_mono h)

theorem addUniqueDir2Loop_mono (fs : FS) (rel : List String) :
    ∀ (d2 : List (String × Nat)) (st : InstState)
      (side : String) (ft : FileType) (σ : Nat) (q : String),
      ResultHas st.dir_comparison side ft σ q →
      ResultHas (addUniqueDir2Loop fs rel d2 st).dir_comparison side ft σ q := by
  intro d2
  induction d2 with
  | nil => intro st side ft σ q h; exact h
  | cons hd tl ih =>
    intro st side ft σ q h
    obtain ⟨name, i2⟩ := hd
    simp only [addUniqueDir2Loop]
    split
    · exact ih _ _ _ _ _ h
    · exact ih _ _ _ _ _ (ResultHas_add_mono h)

theorem compareDirEntries_mono (fs : FS) (rel : List String) (l1 l2 : List (String × Nat))
    (st : InstState) (side : String) (ft : FileType) (σ : Nat) (q : String)
    (h : ResultHas st.dir_comparison side ft σ q) :
    ResultHas (compareDirEntries fs rel l1 l2 st).1.dir_comparison side ft σ q := by
  unfold compareDirEntries
  simp only
  split
  · exact addUniqueDir2Loop_mono fs rel _ _ _ _ _ _
      (compareEntriesLoop_mono fs rel l1 l2 st [] side ft σ q h)
  · exact compareEntriesLoop_mono fs rel l1 l2 st [] side ft σ q h

theorem cfg_fields {s t : InstState} (h : cfgOf t = cfgOf s) :
    t.comparator = s.comparator ∧ t.follow_symlinks = s.follow_symlinks
    ∧ t.unilateral_compare = s.unilateral_compare
    ∧ t.include_equal_entries = s.include_equal_entries
    ∧ t.exclude_patterns = s.exclude_patterns :=
  ⟨congrArg (fun x => x.1) h, congrArg (fun x => x.2.1) h,
    congrArg (fun x => x.2.2.1) h, congrArg (fun x => x.2.2.2.1) h,
    congrArg (fun x => x.2.2.2.2) h⟩

theorem compareEntriesLoop_uni_other (fs : FS) (rel : List String) :
    ∀ (l1 d2 : List (String × Nat)) (st : InstState) (cds : List (String × Nat × Nat))
      (x : String) (f : FileType) (σ : Nat) (q : String),
      st.unilateral_compare = true →
      x ≠ st.comparator.dir1_name → x ≠ mutualKey →
      (ResultHas (compareEntriesLoop fs rel l1 d2 st cds).1.dir_comparison x f σ q ↔
        ResultHas st.dir_comparison x f σ q) := by
  intro l1
  induction l1 with
  | nil => intro d2 st cds x f σ q _ _ _; exact Iff.rfl
  | cons hd tl ih =>
    intro d2 st cds x f σ q huni hx1 hxm
    obtain ⟨name, i1⟩ := hd
    simp only [compareEntriesLoop]
    split
    · exact ih _ _ _ _ _ _ _ huni hx1 hxm
    · split
      · split
        · split
          · exact ih _ _ _ _ _ _ _ huni hx1 hxm
          · refine Iff.trans (ih _ _ _ x f σ q huni hx1 hxm) ?_
            refine Iff.trans (ResultHas_add _ _ _ _ _ x f σ q) ?_
            simp only [or_iff_right_iff_imp]
            rintro ⟨rfl, -⟩
            exact absurd rfl hxm
        · simp only [huni, Bool.not_true, Bool.false_eq_true, if_false]
          refine Iff.trans (ih _ _ _ x f σ q rfl hx1 hxm) ?_
          refine Iff.trans (ResultHas_add _ _ _ _ _ x f σ q) ?_
          simp only [or_iff_right_iff_imp]
          rintro ⟨rfl, -⟩
          exact absurd rfl hx1
      · refine Iff.trans (ih _ _ _ x f σ q huni hx1 hxm) ?_
        refine Iff.trans (ResultHas_add _ _ _ _ _ x f σ q) ?_
        simp only [or_iff_right_iff_imp]
        rintro ⟨rfl, -⟩
        exact absurd rfl hx1

theorem compareEntriesLoop_mismatch (fs : FS) (rel : List String) :
    ∀ (l1 d2 : List (String × Nat)) (st : InstState) (cds : List (String × Nat × Nat))
      (name : String) (i1 i2 : Nat),
      (l1.map Prod.fst).Nodup →
      (name, i1) ∈ l1 →
      alookup d2 name = some i2 →
      excludedBy st.exclude_patterns (pjoin (relStr rel) name) = false →
      getFileTypeSome fs st.follow_symlinks i1 ≠ getFileTypeSome fs st.follow_symlinks i2 →
      (ResultHas (compareEntriesLoop fs rel l1 d2 st cds).1.dir_comparison
          st.comparator.dir1_name (getFileTypeSome fs st.follow_symlinks i1)
          FileStatus.MISMATCHED (pjoin (relStr rel) name)
        ∧ (st.unilateral_compare = false →
            ResultHas (compareEntriesLoop fs rel l1 d2 st cds).1.dir_comparison
              st.comparator.dir2_name (getFileTypeSome fs st.follow_symlinks i2)
              FileStatus.MISMATCHED (pjoin (relStr rel) name))) := by
  intro l1
  induction l1 with
  | nil =>
    intro d2 st cds name i1 i2 _ hmem
    cases hmem
  | cons hd tl ih =>
    intro d2 st cds name i1 i2 hnodup hmem hlook hexcl hne
    obtain ⟨n0, j0⟩ := hd
    rcases List.mem_cons.mp hmem with h1 | h2
    · obtain ⟨he1, he2⟩ := Prod.mk.injEq .. ▸ h1
      subst he1
      subst he2
      simp only [compareEntriesLoop, hexcl, Bool.false_eq_true, if_false, hlook]
      rw [if_neg hne]
      constructor
      · apply compareEntriesLoop_mono
        split
        · exact ResultHas_add_self _ _ _ _ _
        · exact ResultHas_add_self _ _ _ _ _
      · intro huni
        apply compareEntriesLoop_mono
        simp only [huni, Bool.not_false, if_true]
        exact ResultHas_add_mono (ResultHas_add_self _ _ _ _ _)
    · have hkeys : n0 ≠ name := by
        intro hh
        have hmem2 : name ∈ tl.map Prod.fst := List.mem_map.mpr ⟨(name, i1), h2, rfl⟩
        rw [List.map_cons] at hnodup
        refine (List.nodup_cons.mp hnodup).1 ?_
        rw [hh]
        exact hmem2
      have hnodup' : (tl.map Prod.fst).Nodup := by
        rw [List.map_cons] at hnodup
        exact (List.nodup_cons.mp hnodup).2
      have hlook' : alookup (eraseKeyA d2 n0) name = some i2 := by
        rw [alookup_eraseKeyA_ne (fun hh => hkeys hh.symm) d2]
        exact hlook
      simp only [compareEntriesLoop]
      split
      · exact ih _ _ _ _ _ _ hnodup' h2 hlook' hexcl hne
      · split
        · split
          · split
            · exact ih _ _ _ _ _ _ hnodup' h2 hlook' hexcl hne
            · exact ih _ _ _ _ _ _ hnodup' h2 hlook' hexcl hne
          · split
            · exact ih _ _ _ _ _ _ hnodup' h2 hlook' hexcl hne
            · exact ih _ _ _ _ _ _ hnodup' h2 hlook' hexcl hne
        · exact ih _ _ _ _ _ _ hnodup' h2 hlook' hexcl hne

theorem compareEntriesLoop_d2_preserved (fs : FS) (rel : List String) :
    ∀ (l1 d2 : List (String × Nat)) (st : InstState) (cds : List (String × Nat × Nat))
      (name : String) (i2 : Nat),
      name ∉ l1.map Prod.fst → (name, i2) ∈ d2 →
      (name, i2) ∈ (compareEntriesLoop fs rel l1 d2 st cds).2.2 := by
  intro l1
  induction l1 with
  | nil => intro d2 st cds name i2 _ h; exact h
  | cons hd tl ih =>
    intro d2 st cds name i2 hnin h
    obtain ⟨n0, j0⟩ := hd
    have hne : name ≠ n0 := by
      intro hh
      exact hnin (by rw [List.map_cons]; exact List.mem_cons.mpr (Or.inl hh))
    have hnin' : name ∉ tl.map Prod.fst := by
      intro hh
      exact hnin (by rw [List.map_cons]; exact List.mem_cons_of_mem _ hh)
    have h' : (name, i2) ∈ eraseKeyA d2 n0 := mem_eraseKeyA hne h
    simp only [compareEntriesLoop]
    split
    · exact ih _ _ _ _ _ hnin' h'
    · split
      · split
        · split
          · exact ih _ _ _ _ _ hnin' h'
          · exact ih _ _ _ _ _ hnin' h'
        · split
          · exact ih _ _ _ _ _ hnin' h'
          · exact ih _ _ _ _ _ hnin' h'
      · exact ih _ _ _ _ _ hnin' h'

theorem addUniqueDir2Loop_mem (fs : FS) (rel : List String) :
    ∀ (d2 : List (String × Nat)) (st : InstState) (name : String) (i2 : Nat),
      (name, i2) ∈ d2 →
      excludedBy st.exclude_patterns (pjoin (relStr rel) name) = false →
      ResultHas (addUniqueDir2Loop fs rel d2 st).dir_comparison
        st.comparator.dir2_name (getFileTypeSome fs st.follow_symlinks i2)
        FileStatus.UNIQUE (pjoin (relStr rel) name) := by
  intro d2
  induction d2 with
  | nil => intro st name i2 h; cases h
  | cons hd tl ih =>
    intro st name i2 hmem hexcl
    obtain ⟨n0, j0⟩ := hd
    rcases List.mem_cons.mp hmem with h1 | h2
    · obtain ⟨he1, he2⟩ := Prod.mk.injEq .. ▸ h1
      subst he1
      subst he2
      simp only [addUniqueDir2Loop, hexcl, Bool.false_eq_true, if_false]
      exact addUniqueDir2Loop_mono fs rel _ _ _ _ _ _ (ResultHas_add_self _ _ _ _ _)
    · simp only [addUniqueDir2Loop]
      split
      · exact ih _ _ _ h2 hexcl
      · exact ih _ _ _ h2 hexcl

theorem compareDirEntries_unique2 (fs : FS) (rel : List String) (l1 l2 : List (String × Nat))
    (st : InstState) (name : String) (i2 : Nat)
    (hmem : (name, i2) ∈ l2) (hnin : name ∉ l1.map Prod.fst)
    (hexcl : excludedBy st.exclude_patterns (pjoin (relStr rel) name) = false)
    (huni : st.unilateral_compare = false) :
    ResultHas (compareDirEntries fs rel l1 l2 st).1.dir_comparison
      st.comparator.dir2_name (getFileTypeSome fs st.follow_symlinks i2)
      FileStatus.UNIQUE (pjoin (relStr rel) name) := by
  obtain ⟨hcomp, hfol, hun, hinc, hexc⟩ :=
    cfg_fields (compareEntriesLoop_cfg fs rel l1 l2 st [])
  unfold compareDirEntries
  simp only
  split
  · have hm := addUniqueDir2Loop_mem fs rel _ (compareEntriesLoop fs rel l1 l2 st []).1
      name i2 (compareEntriesLoop_d2_preserved fs rel l1 l2 st [] name i2 hnin hmem)
      (by rw [hexc]; exact hexcl)
    rw [hcomp, hfol] at hm
    exact hm
  · rename_i hcond
    rw [hun, huni] at hcond
    simp at hcond

theorem compareDirEntries_uni_other (fs : FS) (rel : List String) (l1 l2 : List (String × Nat))
    (st : InstState) (x : String) (f : FileType) (σ : Nat) (q : String)
    (huni : st.unilateral_compare = true)
    (hx1 : x ≠ st.comparator.dir1_name) (hxm : x ≠ mutualKey) :
    ResultHas (compareDirEntries fs rel l1 l2 st).1.dir_comparison x f σ q ↔
      ResultHas st.dir_comparison x f σ q := by
  obtain ⟨hcomp, hfol, hun, hinc, hexc⟩ :=
    cfg_fields (compareEntriesLoop_cfg fs rel l1 l2 st [])
  unfold compareDirEntries
  simp only
  split
  · rename_i hcond
    rw [hun, huni] at hcond
    simp at hcond
  · exact compareEntriesLoop_uni_other fs rel l1 l2 st [] x f σ q huni hx1 hxm

theorem compareDirEntries_mismatch (fs : FS) (rel : List String) (l1 l2 : List (String × Nat))
    (st : InstState) (name : String) (i1 i2 : Nat)
    (hnodup : (l1.map Prod.fst).Nodup)
    (hmem : (name, i1) ∈ l1) (hlook : alookup l2 name = some i2)
    (hexcl : excludedBy st.exclude_patterns (pjoin (relStr rel) name) = false)
    (hne : getFileTypeSome fs st.follow_symlinks i1 ≠ getFileTypeSome fs st.follow_symlinks i2) :
    ResultHas (compareDirEntries fs rel l1 l2 st).1.dir_comparison
        st.comparator.dir1_name (getFileTypeSome fs st.follow_symlinks i1)
        FileStatus.MISMATCHED (pjoin (relStr rel) name)
      ∧ (st.unilateral_compare = false →
          ResultHas (compareDirEntries fs rel l1 l2 st).1.dir_comparison
            st.comparator.dir2_name (getFileTypeSome fs st.follow_symlinks i2)
            FileStatus.MISMATCHED (pjoin (relStr rel) name)) := by
  have hloop := compareEntriesLoop_mismatch fs rel l1 l2 st [] name i1 i2
    hnodup hmem hlook hexcl hne
  unfold compareDirEntries
  simp only
  split
  · exact ⟨addUniqueDir2Loop_mono fs rel _ _ _ _ _ _ hloop.1,
      fun hu => addUniqueDir2Loop_mono fs rel _ _ _ _ _ _ (hloop.2 hu)⟩
  · exact hloop

/-- Claim C2: for every non-excluded paired entry whose side-2
counterpart is present with a different classified type, the entry is
recorded MISMATCHED under side 1's name, and under side 2's name exactly
when the run is bilateral (in a unilateral run the side-2 bucket — and
any bucket other than side 1's and "mutual" — is left untouched); after
the side-1 listing is exhausted, every remaining unmatched, non-excluded
side-2 entry is recorded UNIQUE under side 2's name in a bilateral run,
while a unilateral run records no side-2-exclusive entry at all. -/
theorem C2_mismatch_and_unique (fs : FS) (rel : List String)
    (l1 l2 : List (String × Nat)) (st : InstState)
    (hnodup : (l1.map Prod.fst).Nodup) :
    (∀ name i1 i2, (name, i1) ∈ l1 → alookup l2 name = some i2 →
      excludedBy st.exclude_patterns (pjoin (relStr rel) name) = false →
      getFileTypeSome fs st.follow_symlinks i1 ≠ getFileTypeSome fs st.follow_symlinks i2 →
      ResultHas (compareDirEntries fs rel l1 l2 st).1.dir_comparison
          st.comparator.dir1_name (getFileTypeSome fs st.follow_symlinks i1)
          FileStatus.MISMATCHED (pjoin (relStr rel) name)
        ∧ (st.unilateral_compare = false →
            ResultHas (compareDirEntries fs rel l1 l2 st).1.dir_comparison
              st.comparator.dir2_name (getFileTypeSome fs st.follow_symlinks i2)
              FileStatus.MISMATCHED (pjoin (relStr rel) name)))
    ∧ (st.unilateral_compare = true →
        ∀ x f σ q, x ≠ st.comparator.dir1_name → x ≠ mutualKey →
          (ResultHas (compareDirEntries fs rel l1 l2 st).1.dir_comparison x f σ q ↔
            ResultHas st.dir_comparison x f σ q))
    ∧ (∀ name i2, (name, i2) ∈ l2 → name ∉ l1.map Prod.fst →
        excludedBy st.exclude_patterns (pjoin (relStr rel) name) = false →
        st.unilateral_compare = false →
        ResultHas (compareDirEntries fs rel l1 l2 st).1.dir_comparison
          st.comparator.dir2_name (getFileTypeSome fs st.follow_symlinks i2)
          FileStatus.UNIQUE (pjoin (relStr rel) name)) := by
  refine ⟨?_, ?_, ?_⟩
  · intro name i1 i2 hmem hlook hexcl hne
    exact compareDirEntries_mismatch fs rel l1 l2 st name i1 i2 hnodup hmem hlook hexcl hne
  · intro huni x f σ q hx1 hxm
    exact compareDirEntries_uni_other fs rel l1 l2 st x f σ q huni hx1 hxm
  · intro name i2 hmem hnin hexcl huni
    exact compareDirEntries_unique2 fs rel l1 l2 st name i2 hmem hnin hexcl huni

/-- Witness for C2: one mismatched pair ("x": file vs dir) and one
side-2-only entry ("y") in a bilateral run. -/
theorem C2_mismatch_and_unique_witness :
    ResultHas (compareDirEntries
        [⟨NodeKind.file, none⟩, ⟨NodeKind.file, none⟩, ⟨NodeKind.file, none⟩,
         ⟨NodeKind.dir [] true, none⟩, ⟨NodeKind.file, none⟩]
        [] [("x", 2)] [("x", 3), ("y", 4)]
        { comparator := ⟨"r1", "r2", "dir1", "dir2"⟩, follow_symlinks := false,
          unilateral_compare := false, include_equal_entries := false, visited := [],
          exclude_patterns := [], dir_comparison := [], trace := [] }).1.dir_comparison
      "dir1" FileType.FILE FileStatus.MISMATCHED "x"
    ∧ ResultHas (compareDirEntries
        [⟨NodeKind.file, none⟩, ⟨NodeKind.file, none⟩, ⟨NodeKind.file, none⟩,
         ⟨NodeKind.dir [] true, none⟩, ⟨NodeKind.file, none⟩]
        [] [("x", 2)] [("x", 3), ("y", 4)]
        { comparator := ⟨"r1", "r2", "dir1", "dir2"⟩, follow_symlinks := false,
          unilateral_compare := false, include_equal_entries := false, visited := [],
          exclude_patterns := [], dir_comparison := [], trace := [] }).1.dir_comparison
      "dir2" FileType.DIR FileStatus.MISMATCHED "x"
    ∧ ResultHas (compareDirEntries
        [⟨NodeKind.file, none⟩, ⟨NodeKind.file, none⟩, ⟨NodeKind.file, none⟩,
         ⟨NodeKind.dir [] true, none⟩, ⟨NodeKind.file, none⟩]
        [] [("x", 2)] [("x", 3), ("y", 4)]
        { comparator := ⟨"r1", "r2", "dir1", "dir2"⟩, follow_symlinks := false,
          unilateral_compare := false, include_equal_entries := false, visited := [],
          exclude_patterns := [], dir_comparison := [], trace := [] }).1.dir_comparison
      "dir2" FileType.FILE FileStatus.UNIQUE "y" := by
  have h := C2_mismatch_and_unique
    [⟨NodeKind.file, none⟩, ⟨NodeKind.file, none⟩, ⟨NodeKind.file, none⟩,
     ⟨NodeKind.dir [] true, none⟩, ⟨NodeKind.file, none⟩]
    [] [("x", 2)] [("x", 3), ("y", 4)]
    { comparator := ⟨"r1", "r2", "dir1", "dir2"⟩, follow_symlinks := false,
      unilateral_compare := false, include_equal_entries := false, visited := [],
      exclude_patterns := [], dir_comparison := [], trace := [] } (by decide)
  exact ⟨(h.1 "x" 2 3 (by decide) rfl rfl (by decide)).1,
    (h.1 "x" 2 3 (by decide) rfl rfl (by decide)).2 rfl,
    h.2.2 "y" 4 (by decide) (by decide) rfl rfl⟩

/- ------------------------------------------------------------------ -/
/- Claim C10: side buckets carry only UNIQUE/MISMATCHED.              -/
/- ------------------------------------------------------------------ -/

/-- Generic preservation of a state predicate through the common-dirs
recursion loop. -/
theorem foldCommonDirs_pres (P : InstState → Prop)
    (f : List String → Nat → Nat → InstState → Except String InstState)
    (H : ∀ rel i1 i2 st st', f rel i1 i2 st = .ok st' → P st → P st') :
    ∀ (cds : List (String × Nat × Nat)) (rel : List String) (st st' : InstState),
      foldCommonDirs f rel cds st = .ok st' → P st → P st' := by
  intro cds
  induction cds with
  | nil =>
    intro rel st st' h hp
    cases h
    exact hp
  | cons hd tl ih =>
    intro rel st st' h hp
    obtain ⟨name, j1, j2⟩ := hd
    rw [foldCommonDirs] at h
    cases hrec : f (rel ++ [name]) j1 j2 st with
    | error e => rw [hrec] at h; cases h
    | ok stm =>
      rw [hrec] at h
      exact ih _ _ _ h (H _ _ _ _ _ hrec hp)

/-- Generic preservation of a state predicate through the expansion
recursion loop. -/
theorem foldExpandDirs_pres (P : InstState → Prop)
    (f : List String → InstState → Except String InstState)
    (H : ∀ rel st st', f rel st = .ok st' → P st → P st') :
    ∀ (dirs : List (List String)) (st st' : InstState),
      foldExpandDirs f dirs st = .ok st' → P st → P st' := by
  intro dirs
  induction dirs with
  | nil =>
    intro st st' h hp
    cases h
    exact hp
  | cons hd tl ih =>
    intro st st' h hp
    rw [foldExpandDirs] at h
    cases hrec : f hd st with
    | error e => rw [hrec] at h; cases h
    | ok stm =>
      rw [hrec] at h
      exact ih _ _ h (H _ _ _ hrec hp)

/-- The C10 invariant over a Result Model: every recorded entry is
either under one of the two side names with status exactly UNIQUE or
exactly MISMATCHED, or under the mutual key with a status bitmask free
of the UNIQUE and MISMATCHED flags. -/
def SideStatusOK (n1 n2 : String) (res : DirComparison) : Prop :=
  ∀ side ft σ p, ResultHas res side ft σ p →
    ((side = n1 ∨ side = n2) ∧ (σ = FileStatus.UNIQUE ∨ σ = FileStatus.MISMATCHED))
    ∨ (side = mutualKey
        ∧ σ.land (FileStatus.UNIQUE.lor FileStatus.MISMATCHED) = 0)

theorem getRegularFileStatus_no_um (s1 s2 : Option Stats) :
    (getRegularFileStatus s1 s2).land (FileStatus.UNIQUE.lor FileStatus.MISMATCHED) = 0 := by
  cases s1 with
  | none =>
    cases s2 with
    | none => decide
    | some b =>
      rw [show getRegularFileStatus none (some b) = FileStatus.UNKNOWN from rfl]
      decide
  | some a =>
    cases s2 with
    | none =>
      rw [show getRegularFileStatus (some a) none = FileStatus.UNKNOWN from rfl]
      decide
    | some b =>
      unfold getRegularFileStatus
      simp only
      split_ifs <;> decide

theorem getFileStatus_no_unique_mismatch (fs : FS) (i1 i2 : Nat) (ft : FileType) :
    (getFileStatus fs i1 i2 ft).land (FileStatus.UNIQUE.lor FileStatus.MISMATCHED) = 0 := by
  unfold getFileStatus
  split
  · exact getRegularFileStatus_no_um _ _
  · decide

theorem SideStatusOK_add {n1 n2 : String} {res : DirComparison}
    (h : SideStatusOK n1 n2 res) (p s : String) (ft : FileType) (σ : Nat)
    (hadd : ((s = n1 ∨ s = n2) ∧ (σ = FileStatus.UNIQUE ∨ σ = FileStatus.MISMATCHED))
      ∨ (s = mutualKey ∧ σ.land (FileStatus.UNIQUE.lor FileStatus.MISMATCHED) = 0)) :
    SideStatusOK n1 n2 (addDctEntry res p s ft σ) := by
  intro side ft' σ' p' hr
  rcases (ResultHas_add res p s ft σ side ft' σ' p').mp hr with ⟨rfl, rfl, rfl, rfl⟩ | hold
  · exact hadd
  · exact h _ _ _ _ hold

theorem compareEntriesLoop_statusOK (fs : FS) (rel : List String) :
    ∀ (l1 d2 : List (String × Nat)) (st : InstState) (cds : List (String × Nat × Nat)),
      SideStatusOK st.comparator.dir1_name st.comparator.dir2_name st.dir_comparison →
      SideStatusOK st.comparator.dir1_name st.comparator.dir2_name
        (compareEntriesLoop fs rel l1 d2 st cds).1.dir_comparison := by
  intro l1
  induction l1 with
  | nil => intro d2 st cds h; exact h
  | cons hd tl ih =>
    intro d2 st cds h
    obtain ⟨name, i1⟩ := hd
    simp only [compareEntriesLoop]
    split
    · exact ih _ _ _ h
    · split
      · split
        · split
          · exact ih _ _ _ h
          · exact ih _ _ _ (SideStatusOK_add h _ _ _ _
              (Or.inr ⟨rfl, getFileStatus_no_unique_mismatch fs i1 _ _⟩))
        · split
          · exact ih _ _ _ (SideStatusOK_add (SideStatusOK_add h _ _ _ _
              (Or.inl ⟨Or.inr rfl, Or.inr rfl⟩)) _ _ _ _ (Or.inl ⟨Or.inl rfl, Or.inr rfl⟩))
          · exact ih _ _ _ (SideStatusOK_add h _ _ _ _ (Or.inl ⟨Or.inl rfl, Or.inr rfl⟩))
      · exact ih _ _ _ (SideStatusOK_add h _ _ _ _ (Or.inl ⟨Or.inl rfl, Or.inl rfl⟩))

theorem addUniqueDir2Loop_statusOK (fs : FS) (rel : List String) :
    ∀ (d2 : List (String × Nat)) (st : InstState),
      SideStatusOK st.comparator.dir1_name st.comparator.dir2_name st.dir_comparison →
      SideStatusOK st.comparator.dir1_name st.comparator.dir2_name
        (addUniqueDir2Loop fs rel d2 st).dir_comparison := by
  intro d2
  induction d2 with
  | nil => intro st h; exact h
  | cons hd tl ih =>
    intro st h
    obtain ⟨name, i2⟩ := hd
    simp only [addUniqueDir2Loop]
    split
    · exact ih _ h
    · exact ih _ (SideStatusOK_add h _ _ _ _ (Or.inl ⟨Or.inr rfl, Or.inl rfl⟩))

theorem compareDirEntries_statusOK (fs : FS) (rel : List String)
    (l1 l2 : List (String × Nat)) (st : InstState)
    (h : SideStatusOK st.comparator.dir1_name st.comparator.dir2_name st.dir_comparison) :
    SideStatusOK st.comparator.dir1_name st.comparator.dir2_name
      (compareDirEntries fs rel l1 l2 st).1.dir_comparison := by
  obtain ⟨hcomp, -, -, -, -⟩ := cfg_fields (compareEntriesLoop_cfg fs rel l1 l2 st [])
  unfold compareDirEntries
  simp only
  split
  · have h2 := compareEntriesLoop_statusOK fs rel l1 l2 st [] h
    rw [← hcomp] at h2
    have h3 := addUniqueDir2Loop_statusOK fs rel
      (compareEntriesLoop fs rel l1 l2 st []).2.2 (compareEntriesLoop fs rel l1 l2 st []).1 h2
    rw [hcomp] at h3
    exact h3
  · exact compareEntriesLoop_statusOK fs rel l1 l2 st [] h

theorem recScandir_statusOK (fs : FS) (c0 : DirComparator) :
    ∀ (fuel : Nat) (rel : List String) (i1 i2 : Nat) (st st' : InstState),
      recursiveScandirCmpr fs fuel rel i1 i2 st = .ok st' →
      st.comparator = c0 ∧ SideStatusOK c0.dir1_name c0.dir2_name st.dir_comparison →
      st'.comparator = c0 ∧ SideStatusOK c0.dir1_name c0.dir2_name st'.dir_comparison := by
  intro fuel
  induction fuel with
  | zero =>
    intro rel i1 i2 st st' h hp
    cases h
    exact hp
  | succ fuel ih =>
    intro rel i1 i2 st st' h hp
    rw [recursiveScandirCmpr] at h
    split at h
    · cases h; exact hp
    · split at h
      · cases h
      · split at h
        · cases h; exact hp
        · split at h
          · cases h; exact hp
          · refine foldCommonDirs_pres
              (fun s => s.comparator = c0
                ∧ SideStatusOK c0.dir1_name c0.dir2_name s.dir_comparison)
              (recursiveScandirCmpr fs fuel) ih _ _ _ _ h ⟨?_, ?_⟩
            · exact ((cfg_fields (compareDirEntries_cfg fs rel _ _ _)).1).trans hp.1
            · rw [← hp.1]
              exact compareDirEntries_statusOK fs rel _ _ _
                (show SideStatusOK st.comparator.dir1_name st.comparator.dir2_name
                    st.dir_comparison from by rw [hp.1]; exact hp.2)
theorem expandEntriesLoop_statusOK (fs : FS) (bname : String) (rel : List String)
    (n1 n2 : String) (hb : bname = n1 ∨ bname = n2) :
    ∀ (entries : List (String × Nat)) (st : InstState) (dirs : List (List String)),
      SideStatusOK n1 n2 st.dir_comparison →
      SideStatusOK n1 n2 (expandEntriesLoop fs bname rel entries st dirs).1.dir_comparison := by
  intro entries
  induction entries with
  | nil => intro st dirs h; exact h
  | cons hd tl ih =>
    intro st dirs h
    obtain ⟨name, i⟩ := hd
    simp only [expandEntriesLoop]
    split
    · exact ih _ _ h
    · exact ih _ _ (SideStatusOK_add h _ _ _ _ (Or.inl ⟨hb, Or.inl rfl⟩))

theorem expandDir_statusOK (fs : FS) (rootId : Nat) (bdir bname : String)
    (n1 n2 : String) (hb : bname = n1 ∨ bname = n2) :
    ∀ (fuel : Nat) (rel : List String) (st st' : InstState),
      expandDir fs rootId bdir bname fuel rel st = .ok st' →
      SideStatusOK n1 n2 st.dir_comparison →
      SideStatusOK n1 n2 st'.dir_comparison := by
  intro fuel
  induction fuel with
  | zero =>
    intro rel st st' h hp
    cases h
    exact hp
  | succ fuel ih =>
    intro rel st st' h hp
    rw [expandDir] at h
    split at h
    · cases h; exact hp
    · split at h
      · cases h; exact hp
      · split at h
        · cases h
        · split at h
          · cases h; exact hp
          · refine foldExpandDirs_pres
              (fun s => SideStatusOK n1 n2 s.dir_comparison)
              (expandDir fs rootId bdir bname fuel)
              (fun rel st st' hh hhp => ih rel st st' hh hhp) _ _ _ h ?_
            exact expandEntriesLoop_statusOK fs bname rel n1 n2 hb _ _ _ hp

theorem expandDirs_statusOK (fs : FS) (root1 root2 : Nat) (fuel : Nat)
    (st st' : InstState) (ex : List String)
    (h : expandDirs fs root1 root2 fuel st ex = .ok st')
    (hss : SideStatusOK st.comparator.dir1_name st.comparator.dir2_name st.dir_comparison) :
    SideStatusOK st.comparator.dir1_name st.comparator.dir2_name st'.dir_comparison := by
  rw [expandDirs] at h
  simp only at h
  split at h
  · cases h
  · rename_i st1 heq1
    have h1 := foldExpandDirs_pres
      (fun s => SideStatusOK st.comparator.dir1_name st.comparator.dir2_name s.dir_comparison)
      (expandDir fs root1 st.comparator.dir1 st.comparator.dir1_name fuel)
      (fun rel s s' hh hhp =>
        expandDir_statusOK fs root1 st.comparator.dir1 st.comparator.dir1_name
          st.comparator.dir1_name st.comparator.dir2_name (Or.inl rfl) fuel rel s s' hh hhp)
      _ _ _ heq1 hss
    exact foldExpandDirs_pres
      (fun s => SideStatusOK st.comparator.dir1_name st.comparator.dir2_name s.dir_comparison)
      (expandDir fs root2 st.comparator.dir2 st.comparator.dir2_name fuel)
      (fun rel s s' hh hhp =>
        expandDir_statusOK fs root2 st.comparator.dir2 st.comparator.dir2_name
          st.comparator.dir1_name st.comparator.dir2_name (Or.inr rfl) fuel rel s s' hh hhp)
      _ _ _ h h1

theorem ResultHas_nil (side : String) (ft : FileType) (σ : Nat) (p : String) :
    ¬ ResultHas [] side ft σ p := by
  rintro ⟨m, t, e, hm, -, -, -⟩
  cases hm

/-- Claim C10: after any compare run (and preserved by any subsequent
expand run, while the query operations are pure functions of the state),
every recorded entry under a side name carries status exactly UNIQUE or
exactly MISMATCHED, and any entry whose status bitmask contains EQUAL,
UNKNOWN, NOT_COMPARED, CHANGED, NEWER or OLDER sits under the mutual
bucket. -/
theorem C10_bucket_statuses (fs : FS) (root1 root2 : Nat) (fuel : Nat)
    (st st1 : InstState) (u ie : Bool) (ex : List String)
    (h : compareDirectories fs root1 root2 fuel st u ie ex = .ok st1) :
    SideStatusOK st.comparator.dir1_name st.comparator.dir2_name st1.dir_comparison
    ∧ (∀ fuel2 ex2 st2, expandDirs fs root1 root2 fuel2 st1 ex2 = .ok st2 →
        SideStatusOK st.comparator.dir1_name st.comparator.dir2_name st2.dir_comparison)
    ∧ (st.comparator.dir1_name ≠ mutualKey → st.comparator.dir2_name ≠ mutualKey →
        ∀ side ft σ p, ResultHas st1.dir_comparison side ft σ p →
          ((side = st.comparator.dir1_name ∨ side = st.comparator.dir2_name) →
            σ = FileStatus.UNIQUE ∨ σ = FileStatus.MISMATCHED)
          ∧ ((FileStatus.mem FileStatus.EQUAL σ || FileStatus.mem FileStatus.UNKNOWN σ
              || FileStatus.mem FileStatus.NOT_COMPARED σ
              || FileStatus.mem FileStatus.CHANGED σ || FileStatus.mem FileStatus.NEWER σ
              || FileStatus.mem FileStatus.OLDER σ) = true → side = mutualKey)) := by
  have hmain := recScandir_statusOK fs st.comparator fuel [] root1 root2 _ st1 h
    ⟨rfl, fun side ft σ p hr => absurd hr (ResultHas_nil side ft σ p)⟩
  have hcomp := (compareDirectories_comparator fs root1 root2 fuel st st1 u ie ex h).1
  refine ⟨hmain.2, ?_, ?_⟩
  · intro fuel2 ex2 st2 hexp
    have h2 := expandDirs_statusOK fs root1 root2 fuel2 st1 st2 ex2 hexp
      (by rw [hcomp]; exact hmain.2)
    rw [hcomp] at h2
    exact h2
  · intro hn1 hn2 side ft σ p hr
    rcases hmain.2 side ft σ p hr with ⟨hsides, hσ⟩ | ⟨rfl, hland⟩
    · constructor
      · intro _
        exact hσ
      · intro hflag
        rcases hσ with rfl | rfl
        · exact absurd hflag (by decide)
        · exact absurd hflag (by decide)
    · constructor
      · rintro (hs | hs)
        · exact absurd hs.symm hn1
        · exact absurd hs.symm hn2
      · intro _
        rfl

/-- Witness for C10: a concrete run with one side-1-unique file. -/
theorem C10_bucket_statuses_witness :
    SideStatusOK "dir1" "dir2"
      ((compareDirectories
          [⟨NodeKind.dir [("a", 2)] true, some ⟨0, 0, 0, 0, 16384⟩⟩,
           ⟨NodeKind.dir [] true, some ⟨0, 1, 0, 0, 16384⟩⟩,
           ⟨NodeKind.file, some ⟨0, 2, 0, 0, 32768⟩⟩] 0 1 2
          { comparator := ⟨"r1", "r2", "dir1", "dir2"⟩, follow_symlinks := false,
            unilateral_compare := false, include_equal_entries := false, visited := [],
            exclude_patterns := [], dir_comparison := [],
            trace := [] }).toOption.getD
        { comparator := ⟨"r1", "r2", "dir1", "dir2"⟩, follow_symlinks := false,
          unilateral_compare := false, include_equal_entries := false, visited := [],
          exclude_patterns := [], dir_comparison := [],
          trace := [] }).dir_comparison := by
  exact (C10_bucket_statuses
    [⟨NodeKind.dir [("a", 2)] true, some ⟨0, 0, 0, 0, 16384⟩⟩,
     ⟨NodeKind.dir [] true, some ⟨0, 1, 0, 0, 16384⟩⟩,
     ⟨NodeKind.file, some ⟨0, 2, 0, 0, 32768⟩⟩] 0 1 2
    { comparator := ⟨"r1", "r2", "dir1", "dir2"⟩, follow_symlinks := false,
      unilateral_compare := false, include_equal_entries := false, visited := [],
      exclude_patterns := [], dir_comparison := [], trace := [] }
    _ false false [] rfl).1

/- ------------------------------------------------------------------ -/
/- Claim C8: the guard runs before every scan?                        -/
/- ------------------------------------------------------------------ -/

/-- Checks accumulated while walking a trace. -/
def checksAcc : List Ev → List (Nat × Nat) → List (Nat × Nat)
  | [], cs => cs
  | Ev.check k :: rest, cs => checksAcc rest (k :: cs)
  | _ :: rest, cs => checksAcc rest cs

theorem guardedFrom_append :
    ∀ (t1 : List Ev) (cs : List (Nat × Nat)) (t2 : List Ev),
      guardedFrom cs (t1 ++ t2) = (guardedFrom cs t1 && guardedFrom (checksAcc t1 cs) t2) := by
  intro t1
  induction t1 with
  | nil => intro cs t2; simp [guardedFrom, checksAcc]
  | cons hd tl ih =>
    intro cs t2
    cases hd with
    | check k =>
      simp only [List.cons_append, guardedFrom, checksAcc, List.append_eq, ih]
    | scan1 rel k =>
      simp only [List.cons_append, guardedFrom, checksAcc, List.append_eq, ih, Bool.and_assoc]
    | scan2 rel k =>
      simp only [List.cons_append, guardedFrom, checksAcc, List.append_eq, ih]
    | scanX rel k =>
      simp only [List.cons_append, guardedFrom, checksAcc, List.append_eq, ih, Bool.and_assoc]

theorem compareEntriesLoop_trace (fs : FS) (rel : List String) :
    ∀ (l1 d2 : List (String × Nat)) (st : InstState) (cds : List (String × Nat × Nat)),
      (compareEntriesLoop fs rel l1 d2 st cds).1.trace = st.trace := by
  intro l1
  induction l1 with
  | nil => intro d2 st cds; rfl
  | cons hd tl ih =>
    intro d2 st cds
    obtain ⟨name, i1⟩ := hd
    simp only [compareEntriesLoop]
    split
    · exact ih _ _ _
    · split
      · split
        · split
          · exact ih _ _ _
          · exact ih _ _ _
        · split <;> exact ih _ _ _
      · exact ih _ _ _

theorem addUniqueDir2Loop_trace (fs : FS) (rel : List String) :
    ∀ (d2 : List (String × Nat)) (st : InstState),
      (addUniqueDir2Loop fs rel d2 st).trace = st.trace := by
  intro d2
  induction d2 with
  | nil => intro st; rfl
  | cons hd tl ih =>
    intro st
    obtain ⟨name, i2⟩ := hd
    simp only [addUniqueDir2Loop]
    split
    · exact ih _
    · exact ih _

theorem compareDirEntries_trace (fs : FS) (rel : List String) (l1 l2 : List (String × Nat))
    (st : InstState) : (compareDirEntries fs rel l1 l2 st).1.trace = st.trace := by
  unfold compareDirEntries
  simp only
  split
  · exact (addUniqueDir2Loop_trace fs rel _ _).trans (compareEntriesLoop_trace fs rel l1 l2 st [])
  · exact compareEntriesLoop_trace fs rel l1 l2 st []

theorem foldCommonDirs_trace (f : List String → Nat → Nat → InstState → Except String InstState)
    (H : ∀ rel i1 i2 st st', f rel i1 i2 st = .ok st' →
      ∃ T, st'.trace = st.trace ++ T ∧ ∀ cs, guardedFrom cs T = true) :
    ∀ (cds : List (String × Nat × Nat)) (rel : List String) (st st' : InstState),
      foldCommonDirs f rel cds st = .ok st' →
      ∃ T, st'.trace = st.trace ++ T ∧ ∀ cs, guardedFrom cs T = true := by
  intro cds
  induction cds with
  | nil =>
    intro rel st st' h
    cases h
    exact ⟨[], by simp, fun cs => rfl⟩
  | cons hd tl ih =>
    intro rel st st' h
    obtain ⟨name, j1, j2⟩ := hd
    rw [foldCommonDirs] at h
    cases hrec : f (rel ++ [name]) j1 j2 st with
    | error e => rw [hrec] at h; cases h
    | ok stm =>
      rw [hrec] at h
      obtain ⟨T1, hT1, hg1⟩ := H _ _ _ _ _ hrec
      obtain ⟨T2, hT2, hg2⟩ := ih _ _ _ h
      refine ⟨T1 ++ T2, ?_, ?_⟩
      · rw [hT2, hT1, List.append_assoc]
      · intro cs
        rw [guardedFrom_append, hg1 cs, hg2 (checksAcc T1 cs)]
        rfl

theorem recScandir_trace (fs : FS) :
    ∀ (fuel : Nat) (rel : List String) (i1 i2 : Nat) (st st' : InstState),
      recursiveScandirCmpr fs fuel rel i1 i2 st = .ok st' →
      ∃ T, st'.trace = st.trace ++ T ∧ ∀ cs, guardedFrom cs T = true := by
  intro fuel
  induction fuel with
  | zero =>
    intro rel i1 i2 st st' h
    cases h
    exact ⟨[], by simp, fun cs => rfl⟩
  | succ fuel ih =>
    intro rel i1 i2 st st' h
    rw [recursiveScandirCmpr] at h
    split at h
    · cases h; exact ⟨[], by simp, fun cs => rfl⟩
    · rename_i stats hstat
      split at h
      · cases h
      · rename_i visited' hcheck
        split at h
        · cases h
          refine ⟨[Ev.check (stats.st_dev, stats.st_ino)], by simp, fun cs => rfl⟩
        · rename_i l1 hscan1
          split at h
          · cases h
            refine ⟨[Ev.check (stats.st_dev, stats.st_ino),
              Ev.scan1 rel (fs.identityOf i1)], by simp, fun cs => ?_⟩
            have hid : fs.identityOf i1 = some (stats.st_dev, stats.st_ino) := by
              unfold FS.identityOf
              rw [hstat]
              rfl
            rw [hid]
            simp [guardedFrom]
          · rename_i l2 hscan2
            obtain ⟨T', hT', hg'⟩ := foldCommonDirs_trace (recursiveScandirCmpr fs fuel) ih
              _ _ _ _ h
            have hid : fs.identityOf i1 = some (stats.st_dev, stats.st_ino) := by
              unfold FS.identityOf
              rw [hstat]
              rfl
            refine ⟨[Ev.check (stats.st_dev, stats.st_ino),
              Ev.scan1 rel (fs.identityOf i1), Ev.scan2 rel (fs.identityOf i2)] ++ T', ?_, ?_⟩
            · rw [hT', compareDirEntries_trace]
              simp
            · intro cs
              rw [guardedFrom_append]
              have h1 : guardedFrom cs [Ev.check (stats.st_dev, stats.st_ino),
                  Ev.scan1 rel (fs.identityOf i1), Ev.scan2 rel (fs.identityOf i2)] = true := by
                rw [hid]
                simp [guardedFrom]
              rw [h1, hg']
              rfl

theorem expandEntriesLoop_trace (fs : FS) (bname : String) (rel : List String) :
    ∀ (entries : List (String × Nat)) (st : InstState) (dirs : List (List String)),
      (expandEntriesLoop fs bname rel entries st dirs).1.trace = st.trace := by
  intro entries
  induction entries with
  | nil => intro st dirs; rfl
  | cons hd tl ih =>
    intro st dirs
    obtain ⟨name, i⟩ := hd
    simp only [expandEntriesLoop]
    split
    · exact ih _ _
    · exact ih _ _

theorem foldExpandDirs_trace (f : List String → InstState → Except String InstState)
    (H : ∀ rel st st', f rel st = .ok st' →
      ∃ T, st'.trace = st.trace ++ T ∧ ∀ cs, guardedFrom cs T = true) :
    ∀ (dirs : List (List String)) (st st' : InstState),
      foldExpandDirs f dirs st = .ok st' →
      ∃ T, st'.trace = st.trace ++ T ∧ ∀ cs, guardedFrom cs T = true := by
  intro dirs
  induction dirs with
  | nil =>
    intro st st' h
    cases h
    exact ⟨[], by simp, fun cs => rfl⟩
  | cons hd tl ih =>
    intro st st' h
    rw [foldExpandDirs] at h
    cases hrec : f hd st with
    | error e => rw [hrec] at h; cases h
    | ok stm =>
      rw [hrec] at h
      obtain ⟨T1, hT1, hg1⟩ := H _ _ _ hrec
      obtain ⟨T2, hT2, hg2⟩ := ih _ _ h
      refine ⟨T1 ++ T2, ?_, ?_⟩
      · rw [hT2, hT1, List.append_assoc]
      · intro cs
        rw [guardedFrom_append, hg1 cs, hg2 (checksAcc T1 cs)]
        rfl

theorem expandDir_trace (fs : FS) (rootId : Nat) (bdir bname : String) :
    ∀ (fuel : Nat) (rel : List String) (st st' : InstState),
      expandDir fs rootId bdir bname fuel rel st = .ok st' →
      ∃ T, st'.trace = st.trace ++ T ∧ ∀ cs, guardedFrom cs T = true := by
  intro fuel
  induction fuel with
  | zero =>
    intro rel st st' h
    cases h
    exact ⟨[], by simp, fun cs => rfl⟩
  | succ fuel ih =>
    intro rel st st' h
    rw [expandDir] at h
    split at h
    · cases h; exact ⟨[], by simp, fun cs => rfl⟩
    · rename_i i hlook
      split at h
      · cases h; exact ⟨[], by simp, fun cs => rfl⟩
      · rename_i stats hstat
        split at h
        · cases h
        · rename_i visited' hcheck
          split at h
          · cases h
            exact ⟨[Ev.check (stats.st_dev, stats.st_ino)], by simp, fun cs => rfl⟩
          · rename_i entries hscan
            obtain ⟨T', hT', hg'⟩ := foldExpandDirs_trace
              (expandDir fs rootId bdir bname fuel)
              (fun rel st st' hh => ih rel st st' hh) _ _ _ h
            have hid : fs.identityOf i = some (stats.st_dev, stats.st_ino) := by
              unfold FS.identityOf
              rw [hstat]
              rfl
            refine ⟨[Ev.check (stats.st_dev, stats.st_ino),
              Ev.scanX rel (fs.identityOf i)] ++ T', ?_, ?_⟩
            · rw [hT', expandEntriesLoop_trace]
              simp
            · intro cs
              rw [guardedFrom_append]
              have h1 : guardedFrom cs [Ev.check (stats.st_dev, stats.st_ino),
                  Ev.scanX rel (fs.identityOf i)] = true := by
                rw [hid]
                simp [guardedFrom]
              rw [h1, hg']
              rfl

/-- Amended claim C8: in the main dual traversal the cycle guard runs —
before anything is scanned — on side 1's directory only; every side-1
scan and every expansion scan is preceded by a check that recorded that
directory's own identity, and this holds for the traces of both passes. -/
theorem C8_guard_checks_side1_and_expansion (fs : FS) (root1 root2 : Nat) (fuel : Nat)
    (st st1 : InstState) (u ie : Bool) (ex : List String)
    (h : compareDirectories fs root1 root2 fuel st u ie ex = .ok st1) :
    guardedFrom [] st1.trace = true
    ∧ (∀ fuel2 ex2 st2, expandDirs fs root1 root2 fuel2 st1 ex2 = .ok st2 →
        guardedFrom [] st2.trace = true) := by
  constructor
  · obtain ⟨T, hT, hg⟩ := recScandir_trace fs fuel [] root1 root2 _ st1 h
    rw [hT]
    exact hg []
  · intro fuel2 ex2 st2 hexp
    rw [expandDirs] at hexp
    simp only at hexp
    split at hexp
    · cases hexp
    · rename_i stm heq1
      obtain ⟨T1, hT1, hg1⟩ := foldExpandDirs_trace
        (expandDir fs root1 st1.comparator.dir1 st1.comparator.dir1_name fuel2)
        (expandDir_trace fs root1 st1.comparator.dir1 st1.comparator.dir1_name fuel2) _ _ _ heq1
      obtain ⟨T2, hT2, hg2⟩ := foldExpandDirs_trace
        (expandDir fs root2 st1.comparator.dir2 st1.comparator.dir2_name fuel2)
        (expandDir_trace fs root2 st1.comparator.dir2 st1.comparator.dir2_name fuel2) _ _ _ hexp
      rw [hT2, hT1]
      simp only [List.nil_append]
      rw [guardedFrom_append, hg1 [], hg2 (checksAcc T1 [])]
      rfl

/-- Counterexample to C8 as stated: on two empty roots, the trace shows
side 2's directory being enumerated (its identity `(0, 1)`) without any
guard check of that identity — the guard is invoked on side 1's
directory only. -/
theorem C8_counterexample :
    ((compareDirectories
        [⟨NodeKind.dir [] true, some ⟨0, 0, 0, 0, 16384⟩⟩,
         ⟨NodeKind.dir [] true, some ⟨0, 1, 0, 0, 16384⟩⟩] 0 1 1
        { comparator := ⟨"r1", "r2", "dir1", "dir2"⟩, follow_symlinks := false,
          unilateral_compare := false, include_equal_entries := false, visited := [],
          exclude_patterns := [], dir_comparison := [],
          trace := [] }).toOption.getD
      { comparator := ⟨"r1", "r2", "dir1", "dir2"⟩, follow_symlinks := false,
        unilateral_compare := false, include_equal_entries := false, visited := [],
        exclude_patterns := [], dir_comparison := [], trace := [] }).trace
      = [Ev.check (0, 0), Ev.scan1 [] (some (0, 0)), Ev.scan2 [] (some (0, 1))]
    ∧ bothGuardedFrom []
      ((compareDirectories
          [⟨NodeKind.dir [] true, some ⟨0, 0, 0, 0, 16384⟩⟩,
           ⟨NodeKind.dir [] true, some ⟨0, 1, 0, 0, 16384⟩⟩] 0 1 1
          { comparator := ⟨"r1", "r2", "dir1", "dir2"⟩, follow_symlinks := false,
            unilateral_compare := false, include_equal_entries := false, visited := [],
            exclude_patterns := [], dir_comparison := [],
            trace := [] }).toOption.getD
        { comparator := ⟨"r1", "r2", "dir1", "dir2"⟩, follow_symlinks := false,
          unilateral_compare := false, include_equal_entries := false, visited := [],
          exclude_patterns := [], dir_comparison := [], trace := [] }).trace = false :=
  ⟨rfl, rfl⟩

/-- Witness for the amended C8 on a concrete run. -/
theorem C8_guard_checks_witness :
    guardedFrom []
      ((compareDirectories
          [⟨NodeKind.dir [] true, some ⟨0, 0, 0, 0, 16384⟩⟩,
           ⟨NodeKind.dir [] true, some ⟨0, 1, 0, 0, 16384⟩⟩] 0 1 1
          { comparator := ⟨"r1", "r2", "dir1", "dir2"⟩, follow_symlinks := false,
            unilateral_compare := false, include_equal_entries := false, visited := [],
            exclude_patterns := [], dir_comparison := [],
            trace := [] }).toOption.getD
        { comparator := ⟨"r1", "r2", "dir1", "dir2"⟩, follow_symlinks := false,
          unilateral_compare := false, include_equal_entries := false, visited := [],
          exclude_patterns := [], dir_comparison := [], trace := [] }).trace = true :=
  (C8_guard_checks_side1_and_expansion
    [⟨NodeKind.dir [] true, some ⟨0, 0, 0, 0, 16384⟩⟩,
     ⟨NodeKind.dir [] true, some ⟨0, 1, 0, 0, 16384⟩⟩] 0 1 1
    { comparator := ⟨"r1", "r2", "dir1", "dir2"⟩, follow_symlinks := false,
      unilateral_compare := false, include_equal_entries := false, visited := [],
      exclude_patterns := [], dir_comparison := [], trace := [] }
    _ false false [] rfl).1

/- ------------------------------------------------------------------ -/
/- Claim C7: what the mutual bucket may contain.                      -/
/- ------------------------------------------------------------------ -/

theorem alookup_mem {α β : Type} [DecidableEq α] :
    ∀ {l : List (α × β)} {k : α} {v : β}, alookup l k = some v → (k, v) ∈ l := by
  intro l
  induction l with
  | nil => intro k v h; cases h
  | cons hd tl ih =>
    intro k v h
    obtain ⟨k0, v0⟩ := hd
    by_cases hk : k0 = k
    · subst hk
      rw [alookup, if_pos rfl] at h
      cases h
      exact List.mem_cons_self _ _
    · rw [alookup, if_neg hk] at h
      exact List.mem_cons_of_mem _ (ih h)

theorem alookup_of_mem_nodup {α β : Type} [DecidableEq α] :
    ∀ {l : List (α × β)} {k : α} {v : β},
      (l.map Prod.fst).Nodup → (k, v) ∈ l → alookup l k = some v := by
  intro l
  induction l with
  | nil => intro k v _ h; cases h
  | cons hd tl ih =>
    intro k v hnd h
    obtain ⟨k0, v0⟩ := hd
    rw [List.map_cons, List.nodup_cons] at hnd
    rcases List.mem_cons.mp h with h1 | h2
    · obtain ⟨he1, he2⟩ := Prod.mk.injEq .. ▸ h1
      subst he1
      subst he2
      rw [alookup, if_pos rfl]
    · have hk : k0 ≠ k := by
        intro hh
        subst hh
        exact hnd.1 (List.mem_map.mpr ⟨(k0, v), h2, rfl⟩)
      rw [alookup, if_neg hk]
      exact ih hnd.2 h2

theorem eraseKeyA_subset {α β : Type} [DecidableEq α] :
    ∀ {l : List (α × β)} {n : α} {x : α × β}, x ∈ eraseKeyA l n → x ∈ l := by
  intro l
  induction l with
  | nil => intro n x h; cases h
  | cons hd tl ih =>
    intro n x h
    obtain ⟨k0, v0⟩ := hd
    by_cases hk : k0 = n
    · rw [eraseKeyA, if_pos hk] at h
      exact List.mem_cons_of_mem _ h
    · rw [eraseKeyA, if_neg hk] at h
      rcases List.mem_cons.mp h with h1 | h2
      · exact List.mem_cons.mpr (Or.inl h1)
      · exact List.mem_cons_of_mem _ (ih h2)

theorem scandirE_inv {fs : FS} {d : Nat} {L : List (String × Nat)}
    (h : fs.scandirE d = some L) : fs.kindOf d = some (NodeKind.dir L true) := by
  unfold FS.scandirE at h
  split at h
  · rename_i children readable heq
    split_ifs at h with hr
    · cases h
      rw [heq, hr]
  · cases h

theorem kindOf_none_node {fs : FS} {c : Nat} (h : fs.kindOf c = none) : fs.node c = none := by
  unfold FS.kindOf at h
  cases hn : fs.node c with
  | none => rfl
  | some nd => rw [hn] at h; cases h

theorem resolveF_of_DIR (fs : FS) (follow : Bool) (c : Nat)
    (h : getFileTypeSome fs follow c = FileType.DIR) :
    fs.resolveF c = some (rslv fs c) := by
  cases hk : fs.kindOf c with
  | none =>
    exfalso
    have hnode := kindOf_none_node hk
    have hres : fs.resolveF c = none := by unfold FS.resolveF; rw [hk]
    unfold getFileTypeSome FS.isFileE FS.isJunctionE FS.isDirE FS.isSymlinkE FS.statE at h
    cases follow <;> simp [hk, hres, hnode] at h
  | some kind =>
    cases kind with
    | dir children readable =>
      unfold rslv
      simp [FS.resolveF, hk]
    | file =>
      exfalso
      have hres : fs.resolveF c = some c := by unfold FS.resolveF; rw [hk]
      unfold getFileTypeSome FS.isFileE at h
      cases follow <;> simp [hk, hres] at h
    | junction =>
      unfold rslv
      simp [FS.resolveF, hk]
    | special =>
      unfold rslv
      simp [FS.resolveF, hk]
    | symlink t =>
      have hres : fs.resolveF c = t := by unfold FS.resolveF; rw [hk]
      cases hf : follow with
      | false =>
        exfalso
        subst hf
        unfold getFileTypeSome FS.isFileE FS.isJunctionE FS.isDirE FS.isSymlinkE at h
        simp [hk] at h
      | true =>
        subst hf
        cases ht : t with
        | none =>
          exfalso
          rw [ht] at hres
          unfold getFileTypeSome FS.isFileE FS.isJunctionE FS.isDirE FS.isSymlinkE at h
          simp [hk, hres] at h
        | some j =>
          rw [ht] at hres
          unfold rslv
          simp [hres]

theorem lookupPathR_snoc (fs : FS) :
    ∀ (rel : List String) (r d : Nat), lookupPathR fs r rel = some d →
      ∀ (L : List (String × Nat)) (name : String) (c j : Nat),
        fs.kindOf d = some (NodeKind.dir L true) → alookup L name = some c →
        fs.resolveF c = some j → lookupPathR fs r (rel ++ [name]) = some j := by
  intro rel
  induction rel with
  | nil =>
    intro r d hl L name c j hkind hlook hres
    cases hl
    rw [List.nil_append]
    simp only [lookupPathR, hkind, hlook, hres]
  | cons n0 rest ih =>
    intro r d hl L name c j hkind hlook hres
    rw [lookupPathR] at hl
    split at hl
    · rename_i children readable heq
      split at hl
      · rename_i c0 heq2
        split at hl
        · rename_i c0r heq3
          rw [List.cons_append]
          simp only [lookupPathR, heq, heq2, heq3]
          exact ih c0r d hl L name c j hkind hlook hres
        · cases hl
      · cases hl
    · cases hl
/-- Evidence that a relative path is a pair present under both roots: a
common parent directory reachable under each root, same-named children
in both listings, and equal classified types. -/
def mutualWitness (fs : FS) (follow : Bool) (r1 r2 : Nat) (ft : FileType) (p : String) :
    Prop :=
  ∃ rel name d1 d2 c1 c2 l1 l2,
    lookupPathR fs r1 rel = some d1 ∧ lookupPathR fs r2 rel = some d2
    ∧ fs.scandirE d1 = some l1 ∧ fs.scandirE d2 = some l2
    ∧ (name, c1) ∈ l1 ∧ (name, c2) ∈ l2
    ∧ getFileTypeSome fs follow c1 = ft ∧ getFileTypeSome fs follow c2 = ft
    ∧ p = pjoin (relStr rel) name

/-- The amended C7 invariant: every entry of the mutual bucket is a pair
present under both roots with equal classified types. -/
def MutualOK (fs : FS) (follow : Bool) (r1 r2 : Nat) (res : DirComparison) : Prop :=
  ∀ ft σ p, ResultHas res mutualKey ft σ p → mutualWitness fs follow r1 r2 ft p

theorem MutualOK_add_other {fs : FS} {follow : Bool} {r1 r2 : Nat} {res : DirComparison}
    (h : MutualOK fs follow r1 r2 res) (p s : String) (ft : FileType) (σ : Nat)
    (hs : s ≠ mutualKey) : MutualOK fs follow r1 r2 (addDctEntry res p s ft σ) := by
  intro ft' σ' p' hr
  rcases (ResultHas_add res p s ft σ mutualKey ft' σ' p').mp hr with ⟨he, -, -, -⟩ | hold
  · exact absurd he.symm hs
  · exact h _ _ _ hold

theorem MutualOK_add_mutual {fs : FS} {follow : Bool} {r1 r2 : Nat} {res : DirComparison}
    (h : MutualOK fs follow r1 r2 res) (p : String) (ft : FileType) (σ : Nat)
    (hw : mutualWitness fs follow r1 r2 ft p) :
    MutualOK fs follow r1 r2 (addDctEntry res p mutualKey ft σ) := by
  intro ft' σ' p' hr
  rcases (ResultHas_add res p mutualKey ft σ mutualKey ft' σ' p').mp hr with
    ⟨-, rfl, -, rfl⟩ | hold
  · exact hw
  · exact h _ _ _ hold

theorem compareEntriesLoop_cds (fs : FS) (rel : List String) :
    ∀ (l1 d2 : List (String × Nat)) (st : InstState) (cds : List (String × Nat × Nat))
      (x : String × Nat × Nat),
      x ∈ (compareEntriesLoop fs rel l1 d2 st cds).2.1 →
      x ∈ cds ∨ ∃ name c1 c2, (name, c1) ∈ l1 ∧ (name, c2) ∈ d2
        ∧ getFileTypeSome fs st.follow_symlinks c1 = FileType.DIR
        ∧ getFileTypeSome fs st.follow_symlinks c2 = FileType.DIR
        ∧ x = (name, rslv fs c1, rslv fs c2) := by
  intro l1
  induction l1 with
  | nil => intro d2 st cds x h; exact Or.inl h
  | cons hd tl ih =>
    intro d2 st cds x h
    obtain ⟨name, i1⟩ := hd
    have lift : ∀ {d2' : List (String × Nat)} {st' : InstState},
        (∀ y ∈ d2', y ∈ d2) →
        (x ∈ cds ∨ ∃ nm c1 c2, (nm, c1) ∈ tl ∧ (nm, c2) ∈ d2'
          ∧ getFileTypeSome fs st'.follow_symlinks c1 = FileType.DIR
          ∧ getFileTypeSome fs st'.follow_symlinks c2 = FileType.DIR
          ∧ x = (nm, rslv fs c1, rslv fs c2)) →
        st'.follow_symlinks = st.follow_symlinks →
        x ∈ cds ∨ ∃ nm c1 c2, (nm, c1) ∈ ((name, i1) :: tl) ∧ (nm, c2) ∈ d2
          ∧ getFileTypeSome fs st.follow_symlinks c1 = FileType.DIR
          ∧ getFileTypeSome fs st.follow_symlinks c2 = FileType.DIR
          ∧ x = (nm, rslv fs c1, rslv fs c2) := by
      intro d2' st' hsub hh hf
      rcases hh with hh | ⟨nm, c1, c2, h1, h2, h3, h4, h5⟩
      · exact Or.inl hh
      · exact Or.inr ⟨nm, c1, c2, List.mem_cons_of_mem _ h1, hsub _ h2,
          hf ▸ h3, hf ▸ h4, h5⟩
    simp only [compareEntriesLoop] at h
    split at h
    · exact lift (fun y hy => eraseKeyA_subset hy) (ih _ _ _ _ h) rfl
    · split at h
      · rename_i i2 heq2
        split at h
        · rename_i heqt
          split at h
          · -- skipped (equal / not compared): goal still may add a common dir
            rcases ih _ _ _ _ h with hh | hh
            · -- x came from the possibly extended cds
              rename_i hskip
              revert hh
              split
              · rename_i hdir
                intro hh
                rcases List.mem_append.mp hh with hh | hh
                · exact Or.inl hh
                · rw [List.mem_singleton] at hh
                  exact Or.inr ⟨name, i1, i2, List.mem_cons_self _ _, alookup_mem heq2,
                    hdir, heqt ▸ hdir, hh⟩
              · exact fun hh => Or.inl hh
            · obtain ⟨nm, c1, c2, h1, h2, h3, h4, h5⟩ := hh
              exact Or.inr ⟨nm, c1, c2, List.mem_cons_of_mem _ h1, eraseKeyA_subset h2,
                h3, h4, h5⟩
          · rcases ih _ _ _ _ h with hh | hh
            · revert hh
              split
              · rename_i hdir
                intro hh
                rcases List.mem_append.mp hh with hh | hh
                · exact Or.inl hh
                · rw [List.mem_singleton] at hh
                  exact Or.inr ⟨name, i1, i2, List.mem_cons_self _ _, alookup_mem heq2,
                    hdir, heqt ▸ hdir, hh⟩
              · exact fun hh => Or.inl hh
            · obtain ⟨nm, c1, c2, h1, h2, h3, h4, h5⟩ := hh
              exact Or.inr ⟨nm, c1, c2, List.mem_cons_of_mem _ h1, eraseKeyA_subset h2,
                h3, h4, h5⟩
        · split at h
          · exact lift (fun y hy => eraseKeyA_subset hy) (ih _ _ _ _ h) rfl
          · exact lift (fun y hy => eraseKeyA_subset hy) (ih _ _ _ _ h) rfl
      · exact lift (fun y hy => eraseKeyA_subset hy) (ih _ _ _ _ h) rfl

theorem compareEntriesLoop_mutualOK (fs : FS) (rel : List String) (r1 r2 d1v d2v : Nat)
    (L1 L2 : List (String × Nat))
    (hl1 : lookupPathR fs r1 rel = some d1v) (hl2 : lookupPathR fs r2 rel = some d2v)
    (hs1 : fs.scandirE d1v = some L1) (hs2 : fs.scandirE d2v = some L2) :
    ∀ (l1 d2 : List (String × Nat)) (st : InstState) (cds : List (String × Nat × Nat)),
      (∀ x ∈ l1, x ∈ L1) → (∀ x ∈ d2, x ∈ L2) →
      st.comparator.dir1_name ≠ mutualKey → st.comparator.dir2_name ≠ mutualKey →
      MutualOK fs st.follow_symlinks r1 r2 st.dir_comparison →
      MutualOK fs st.follow_symlinks r1 r2
        (compareEntriesLoop fs rel l1 d2 st cds).1.dir_comparison := by
  intro l1
  induction l1 with
  | nil => intro d2 st cds _ _ _ _ h; exact h
  | cons hd tl ih =>
    intro d2 st cds hsub1 hsub2 hn1 hn2 h
    obtain ⟨name, i1⟩ := hd
    have hsub1' : ∀ x ∈ tl, x ∈ L1 := fun x hx => hsub1 x (List.mem_cons_of_mem _ hx)
    have hsub2' : ∀ x ∈ eraseKeyA d2 name, x ∈ L2 :=
      fun x hx => hsub2 x (eraseKeyA_subset hx)
    simp only [compareEntriesLoop]
    split
    · exact ih _ _ _ hsub1' hsub2' hn1 hn2 h
    · split
      · rename_i i2 heq2
        split
        · rename_i heqt
          split
          · exact ih _ _ _ hsub1' hsub2' hn1 hn2 h
          · refine ih _ _ _ hsub1' hsub2' hn1 hn2 ?_
            refine MutualOK_add_mutual h _ _ _ ?_
            exact ⟨rel, name, d1v, d2v, i1, i2, L1, L2, hl1, hl2, hs1, hs2,
              hsub1 _ (List.mem_cons_self _ _), hsub2 _ (alookup_mem heq2),
              rfl, heqt.symm, rfl⟩
        · split
          · refine ih _ _ _ hsub1' hsub2' hn1 hn2 ?_
            exact MutualOK_add_other (MutualOK_add_other h _ _ _ _ hn2) _ _ _ _ hn1
          · refine ih _ _ _ hsub1' hsub2' hn1 hn2 ?_
            exact MutualOK_add_other h _ _ _ _ hn1
      · refine ih _ _ _ hsub1' hsub2' hn1 hn2 ?_
        exact MutualOK_add_other h _ _ _ _ hn1

theorem addUniqueDir2Loop_mutualOK (fs : FS) (rel : List String) (r1 r2 : Nat) :
    ∀ (d2 : List (String × Nat)) (st : InstState),
      st.comparator.dir2_name ≠ mutualKey →
      MutualOK fs st.follow_symlinks r1 r2 st.dir_comparison →
      MutualOK fs st.follow_symlinks r1 r2
        (addUniqueDir2Loop fs rel d2 st).dir_comparison := by
  intro d2
  induction d2 with
  | nil => intro st _ h; exact h
  | cons hd tl ih =>
    intro st hn2 h
    obtain ⟨name, i2⟩ := hd
    simp only [addUniqueDir2Loop]
    split
    · exact ih _ hn2 h
    · exact ih _ hn2 (MutualOK_add_other h _ _ _ _ hn2)

theorem compareDirEntries_mutualOK (fs : FS) (rel : List String) (r1 r2 d1v d2v : Nat)
    (L1 L2 : List (String × Nat)) (st : InstState) (fol : Bool)
    (hfol : st.follow_symlinks = fol)
    (hl1 : lookupPathR fs r1 rel = some d1v) (hl2 : lookupPathR fs r2 rel = some d2v)
    (hs1 : fs.scandirE d1v = some L1) (hs2 : fs.scandirE d2v = some L2)
    (hn1 : st.comparator.dir1_name ≠ mutualKey) (hn2 : st.comparator.dir2_name ≠ mutualKey)
    (h : MutualOK fs fol r1 r2 st.dir_comparison) :
    MutualOK fs fol r1 r2 (compareDirEntries fs rel L1 L2 st).1.dir_comparison := by
  subst hfol
  obtain ⟨hcomp, hfol2, -, -, -⟩ := cfg_fields (compareEntriesLoop_cfg fs rel L1 L2 st [])
  unfold compareDirEntries
  simp only
  split
  · have h2 := compareEntriesLoop_mutualOK fs rel r1 r2 d1v d2v L1 L2 hl1 hl2 hs1 hs2
      L1 L2 st [] (fun x hx => hx) (fun x hx => hx) hn1 hn2 h
    have h3 := addUniqueDir2Loop_mutualOK fs rel r1 r2
      (compareEntriesLoop fs rel L1 L2 st []).2.2 (compareEntriesLoop fs rel L1 L2 st []).1
      (by rw [hcomp]; exact hn2) (by rw [hfol2]; exact h2)
    rw [hfol2] at h3
    exact h3
  · exact compareEntriesLoop_mutualOK fs rel r1 r2 d1v d2v L1 L2 hl1 hl2 hs1 hs2
      L1 L2 st [] (fun x hx => hx) (fun x hx => hx) hn1 hn2 h

theorem foldCommonDirs_mutual (fs : FS) (c0 : DirComparator) (fol0 : Bool) (r1 r2 : Nat)
    (fuel : Nat)
    (IH : ∀ rel i1 i2 st st', recursiveScandirCmpr fs fuel rel i1 i2 st = .ok st' →
      lookupPathR fs r1 rel = some i1 → lookupPathR fs r2 rel = some i2 →
      st.comparator = c0 → st.follow_symlinks = fol0 →
      MutualOK fs fol0 r1 r2 st.dir_comparison →
      st'.comparator = c0 ∧ st'.follow_symlinks = fol0
        ∧ MutualOK fs fol0 r1 r2 st'.dir_comparison) :
    ∀ (cds : List (String × Nat × Nat)) (rel : List String) (st st' : InstState),
      foldCommonDirs (recursiveScandirCmpr fs fuel) rel cds st = .ok st' →
      (∀ x ∈ cds, lookupPathR fs r1 (rel ++ [x.1]) = some x.2.1
        ∧ lookupPathR fs r2 (rel ++ [x.1]) = some x.2.2) →
      st.comparator = c0 → st.follow_symlinks = fol0 →
      MutualOK fs fol0 r1 r2 st.dir_comparison →
      st'.comparator = c0 ∧ st'.follow_symlinks = fol0
        ∧ MutualOK fs fol0 r1 r2 st'.dir_comparison := by
  intro cds
  induction cds with
  | nil =>
    intro rel st st' h _ hc hf hm
    cases h
    exact ⟨hc, hf, hm⟩
  | cons hd tl ih =>
    intro rel st st' h hcds hc hf hm
    obtain ⟨name, j1, j2⟩ := hd
    rw [foldCommonDirs] at h
    cases hrec : recursiveScandirCmpr fs fuel (rel ++ [name]) j1 j2 st with
    | error e => rw [hrec] at h; cases h
    | ok stm =>
      rw [hrec] at h
      obtain ⟨hcds1, hcds2⟩ := hcds _ (List.mem_cons_self _ _)
      obtain ⟨hc1, hf1, hm1⟩ := IH _ _ _ _ _ hrec hcds1 hcds2 hc hf hm
      exact ih _ _ _ h (fun x hx => hcds x (List.mem_cons_of_mem _ hx)) hc1 hf1 hm1

theorem recScandir_mutualOK (fs : FS) (c0 : DirComparator) (fol0 : Bool) (r1 r2 : Nat)
    (HW : ∀ i L, fs.scandirE i = some L → (L.map Prod.fst).Nodup)
    (hn1 : c0.dir1_name ≠ mutualKey) (hn2 : c0.dir2_name ≠ mutualKey) :
    ∀ (fuel : Nat) (rel : List String) (i1 i2 : Nat) (st st' : InstState),
      recursiveScandirCmpr fs fuel rel i1 i2 st = .ok st' →
      lookupPathR fs r1 rel = some i1 → lookupPathR fs r2 rel = some i2 →
      st.comparator = c0 → st.follow_symlinks = fol0 →
      MutualOK fs fol0 r1 r2 st.dir_comparison →
      st'.comparator = c0 ∧ st'.follow_symlinks = fol0
        ∧ MutualOK fs fol0 r1 r2 st'.dir_comparison := by
  intro fuel
  induction fuel with
  | zero =>
    intro rel i1 i2 st st' h _ _ hc hf hm
    cases h
    exact ⟨hc, hf, hm⟩
  | succ fuel ih =>
    intro rel i1 i2 st st' h hlk1 hlk2 hc hf hm
    rw [recursiveScandirCmpr] at h
    split at h
    · cases h; exact ⟨hc, hf, hm⟩
    · rename_i stats hstat
      split at h
      · cases h
      · rename_i visited' hcheck
        split at h
        · cases h; exact ⟨hc, hf, hm⟩
        · rename_i l1 heq1
          split at h
          · cases h; exact ⟨hc, hf, hm⟩
          · rename_i l2 heq2
            refine foldCommonDirs_mutual fs c0 fol0 r1 r2 fuel ih _ _ _ _ h ?_ ?_ ?_ ?_
            · intro x hx
              rcases compareEntriesLoop_cds fs rel l1 l2 _ [] x hx with hnil | hprov
              · cases hnil
              · obtain ⟨nm, c1, c2, hc1, hc2, hd1, hd2, rfl⟩ := hprov
                constructor
                · exact lookupPathR_snoc fs rel r1 i1 hlk1 l1 nm c1 (rslv fs c1)
                    (scandirE_inv heq1) (alookup_of_mem_nodup (HW i1 l1 heq1) hc1)
                    (resolveF_of_DIR fs _ c1 hd1)
                · exact lookupPathR_snoc fs rel r2 i2 hlk2 l2 nm c2 (rslv fs c2)
                    (scandirE_inv heq2) (alookup_of_mem_nodup (HW i2 l2 heq2) hc2)
                    (resolveF_of_DIR fs _ c2 hd2)
            · refine ((cfg_fields (compareDirEntries_cfg fs rel _ _ _)).1).trans ?_
              exact hc
            · refine ((cfg_fields (compareDirEntries_cfg fs rel _ _ _)).2.1).trans ?_
              exact hf
            · refine compareDirEntries_mutualOK fs rel r1 r2 i1 i2 l1 l2 _ fol0 ?_
                hlk1 hlk2 heq1 heq2 ?_ ?_ ?_
              · exact hf
              · have hq : st.comparator.dir1_name ≠ mutualKey := by rw [hc]; exact hn1
                exact hq
              · have hq : st.comparator.dir2_name ≠ mutualKey := by rw [hc]; exact hn2
                exact hq
              · exact hm

/- ------------------------------------------------------------------ -/
/- Claim C7: what sits under the mutual bucket?                       -/
/- ------------------------------------------------------------------ -/

theorem expandEntriesLoop_mutualOK (fs : FS) (bname : String) (rel : List String)
    (fol : Bool) (r1 r2 : Nat) (hb : bname ≠ mutualKey) :
    ∀ (entries : List (String × Nat)) (st : InstState) (dirs : List (List String)),
      MutualOK fs fol r1 r2 st.dir_comparison →
      MutualOK fs fol r1 r2 (expandEntriesLoop fs bname rel entries st dirs).1.dir_comparison := by
  intro entries
  induction entries with
  | nil => intro st dirs h; exact h
  | cons hd tl ih =>
    intro st dirs h
    obtain ⟨name, i⟩ := hd
    simp only [expandEntriesLoop]
    split
    · exact ih _ _ h
    · exact ih _ _ (MutualOK_add_other h _ _ _ _ hb)

theorem expandDir_mutualOK (fs : FS) (rootId : Nat) (bdir bname : String)
    (fol : Bool) (r1 r2 : Nat) (hb : bname ≠ mutualKey) :
    ∀ (fuel : Nat) (rel : List String) (st st' : InstState),
      expandDir fs rootId bdir bname fuel rel st = .ok st' →
      MutualOK fs fol r1 r2 st.dir_comparison →
      MutualOK fs fol r1 r2 st'.dir_comparison := by
  intro fuel
  induction fuel with
  | zero =>
    intro rel st st' h hp
    cases h
    exact hp
  | succ fuel ih =>
    intro rel st st' h hp
    rw [expandDir] at h
    split at h
    · cases h; exact hp
    · split at h
      · cases h; exact hp
      · split at h
        · cases h
        · split at h
          · cases h; exact hp
          · refine foldExpandDirs_pres
              (fun s => MutualOK fs fol r1 r2 s.dir_comparison)
              (expandDir fs rootId bdir bname fuel)
              (fun rel st st' hh hhp => ih rel st st' hh hhp) _ _ _ h ?_
            exact expandEntriesLoop_mutualOK fs bname rel fol r1 r2 hb _ _ _ hp

theorem expandDirs_mutualOK (fs : FS) (root1 root2 : Nat) (fuel : Nat)
    (st st' : InstState) (ex : List String) (fol : Bool) (r1 r2 : Nat)
    (h : expandDirs fs root1 root2 fuel st ex = .ok st')
    (hn1 : st.comparator.dir1_name ≠ mutualKey) (hn2 : st.comparator.dir2_name ≠ mutualKey)
    (hm : MutualOK fs fol r1 r2 st.dir_comparison) :
    MutualOK fs fol r1 r2 st'.dir_comparison := by
  rw [expandDirs] at h
  simp only at h
  split at h
  · cases h
  · rename_i st1 heq1
    have h1 := foldExpandDirs_pres
      (fun s => MutualOK fs fol r1 r2 s.dir_comparison)
      (expandDir fs root1 st.comparator.dir1 st.comparator.dir1_name fuel)
      (fun rel s s' hh hhp =>
        expandDir_mutualOK fs root1 st.comparator.dir1 st.comparator.dir1_name
          fol r1 r2 hn1 fuel rel s s' hh hhp)
      _ _ _ heq1 hm
    exact foldExpandDirs_pres
      (fun s => MutualOK fs fol r1 r2 s.dir_comparison)
      (expandDir fs root2 st.comparator.dir2 st.comparator.dir2_name fuel)
      (fun rel s s' hh hhp =>
        expandDir_mutualOK fs root2 st.comparator.dir2 st.comparator.dir2_name
          fol r1 r2 hn2 fuel rel s s' hh hhp)
      _ _ _ h h1

/-- A decidable well-formedness check on the model filesystem: no
directory listing repeats a name (on a real filesystem `os.scandir`
never yields the same name twice in one directory). -/
def nodupListingsB (fs : FS) : Bool :=
  List.all fs fun n =>
    match n.kind with
    | NodeKind.dir children _ => decide ((List.map Prod.fst children).Nodup)
    | _ => true

theorem nodupListings_of_allB {fs : FS} (h : nodupListingsB fs = true) :
    ∀ (i : Nat) (L : List (String × Nat)), fs.scandirE i = some L →
      (L.map Prod.fst).Nodup := by
  intro i L hscan
  have hk := scandirE_inv hscan
  unfold FS.kindOf at hk
  cases hn : fs.node i with
  | none => rw [hn] at hk; cases hk
  | some nd =>
    rw [hn] at hk
    injection hk with hk
    have hn2 : List.get? fs i = some nd := hn
    have hmem := List.get?_mem hn2
    unfold nodupListingsB at h
    have hall := List.all_eq_true.mp h nd hmem
    simp only [hk] at hall
    exact of_decide_eq_true hall

/-- Two roots whose single shared entry "x" is a special node with
unreadable metadata: both sides classify it `UNKNOWN`. -/
def fsC7 : FS :=
  [⟨NodeKind.dir [("x", 2)] true, some ⟨0, 0, 0, 0, 16384⟩⟩,
   ⟨NodeKind.dir [("x", 3)] true, some ⟨0, 1, 0, 0, 16384⟩⟩,
   ⟨NodeKind.special, none⟩,
   ⟨NodeKind.special, none⟩]

/-- A fresh comparator state over display names "dir1" / "dir2". -/
def stC7 : InstState :=
  { comparator := ⟨"r1", "r2", "dir1", "dir2"⟩, follow_symlinks := false,
    unilateral_compare := false, include_equal_entries := true, visited := [],
    exclude_patterns := [], dir_comparison := [], trace := [] }

/-- Two roots sharing one equal regular file "f". -/
def fsC7w : FS :=
  [⟨NodeKind.dir [("f", 2)] true, some ⟨0, 0, 0, 0, 16384⟩⟩,
   ⟨NodeKind.dir [("f", 3)] true, some ⟨0, 1, 0, 0, 16384⟩⟩,
   ⟨NodeKind.file, some ⟨0, 2, 5, 10, 32768⟩⟩,
   ⟨NodeKind.file, some ⟨0, 3, 5, 10, 32768⟩⟩]

/-- Claim C7, amended: in every state reached by a compare run (and
preserved by any subsequent expand), each path recorded under the
reserved "mutual" side names an entry that exists under both roots at
the same relative path and whose classified file types agree between the
two sides.  The original claim's parenthetical — that no path with an
undeterminable (`UNKNOWN`) type on either side is ever recorded under
"mutual" — is refuted by `C7_counterexample`: the shared type may itself
be `UNKNOWN`. -/
theorem C7_mutual_invariant (fs : FS) (root1 root2 : Nat) (fuel : Nat)
    (st st1 : InstState) (u ie : Bool) (ex : List String)
    (HW : nodupListingsB fs = true)
    (hn1 : st.comparator.dir1_name ≠ mutualKey)
    (hn2 : st.comparator.dir2_name ≠ mutualKey)
    (h : compareDirectories fs root1 root2 fuel st u ie ex = .ok st1) :
    MutualOK fs st.follow_symlinks root1 root2 st1.dir_comparison
    ∧ ∀ fuel2 ex2 st2, expandDirs fs root1 root2 fuel2 st1 ex2 = .ok st2 →
        MutualOK fs st.follow_symlinks root1 root2 st2.dir_comparison := by
  have hmain := recScandir_mutualOK fs st.comparator st.follow_symlinks root1 root2
    (nodupListings_of_allB HW) hn1 hn2 fuel [] root1 root2 _ st1 h rfl rfl rfl rfl
    (fun ft σ p hr => absurd hr (ResultHas_nil mutualKey ft σ p))
  obtain ⟨hc1, hf1, hm1⟩ := hmain
  refine ⟨hm1, ?_⟩
  intro fuel2 ex2 st2 hexp
  exact expandDirs_mutualOK fs root1 root2 fuel2 st1 st2 ex2 st.follow_symlinks
    root1 root2 hexp (by rw [hc1]; exact hn1) (by rw [hc1]; exact hn2) hm1

/-- Counterexample to C7 as stated: with `include_equal_entries` set, a
pair of entries both classified `UNKNOWN` (special nodes whose metadata
is unreadable) is recorded under the "mutual" side with file type
`UNKNOWN` and status `NOT_COMPARED`, so a path whose type is
undeterminable on both sides does appear under "mutual". -/
theorem C7_counterexample :
    resHasB ((compareDirectories fsC7 0 1 2 stC7 false true []).toOption.getD
        stC7).dir_comparison mutualKey FileType.UNKNOWN FileStatus.NOT_COMPARED "x" = true
    ∧ getFileTypeSome fsC7 false 2 = FileType.UNKNOWN
    ∧ getFileTypeSome fsC7 false 3 = FileType.UNKNOWN := by
  refine ⟨?_, ?_, ?_⟩ <;> decide

/-- Witness for C7 at a concrete input: two roots sharing one equal
file, with `include_equal_entries` set. -/
theorem C7_mutual_invariant_witness :
    MutualOK fsC7w false 0 1
      ((compareDirectories fsC7w 0 1 2 stC7 false true []).toOption.getD
        stC7).dir_comparison := by
  exact (C7_mutual_invariant fsC7w 0 1 2 stC7
    ((compareDirectories fsC7w 0 1 2 stC7 false true []).toOption.getD stC7) false true []
    (by decide) (by decide) (by decide) rfl).1

/- ------------------------------------------------------------------ -/
/- Claim C4: exclusion patterns.                                      -/
/- ------------------------------------------------------------------ -/

theorem relStr_snoc (rel : List String) (x : String) :
    relStr (rel ++ [x]) = pjoin (relStr rel) x := by
  unfold relStr
  rw [List.foldl_append]
  rfl

theorem data_ne_nil {s : String} (h : s ≠ "") : s.data ≠ [] := by
  intro hd
  exact h (String.ext (hd.trans rfl))

theorem splitChars_no_slash : ∀ {s : List Char}, '/' ∉ s → splitChars s = [s] := by
  intro s
  induction s with
  | nil => intro _; rfl
  | cons c rest ih =>
    intro h
    have hc : ¬ c = '/' := fun hh => h (hh ▸ List.mem_cons_self c rest)
    rw [splitChars, if_neg hc, ih (fun hm => h (List.mem_cons_of_mem _ hm))]

theorem splitChars_append : ∀ {s : List Char} (t : List Char), '/' ∉ s →
    splitChars (s ++ '/' :: t) = s :: splitChars t := by
  intro s
  induction s with
  | nil =>
    intro t _
    rw [List.nil_append, splitChars, if_pos rfl]
  | cons c rest ih =>
    intro t h
    have hc : ¬ c = '/' := fun hh => h (hh ▸ List.mem_cons_self c rest)
    rw [List.cons_append, splitChars, if_neg hc,
      ih t (fun hm => h (List.mem_cons_of_mem _ hm))]

theorem foldl_pjoin_data : ∀ (rest : List String) (a : String), a.data ≠ [] →
    (List.foldl pjoin a rest).data
      = a.data ++ rest.flatMap (fun b => '/' :: b.data) := by
  intro rest
  induction rest with
  | nil =>
    intro a _
    simp
  | cons b r ih =>
    intro a ha
    have hane : ¬ a = "" := fun hh => ha (by rw [hh])
    have hpj : pjoin a b = a ++ "/" ++ b := by
      unfold pjoin
      rw [if_neg hane]
    have hne2 : (a ++ "/" ++ b).data ≠ [] := by
      intro hh
      have hlen := congrArg List.length hh
      rw [String.data_append (a ++ "/") b, String.data_append a "/"] at hlen
      simp only [List.length_append, show ("/" : String).data = ['/'] from rfl,
        List.length_cons, List.length_nil] at hlen
      omega
    rw [List.foldl_cons, hpj, ih (a ++ "/" ++ b) hne2]
    rw [String.data_append (a ++ "/") b, String.data_append a "/"]
    simp

theorem splitChars_join : ∀ (rest : List String) (ad : List Char), '/' ∉ ad →
    (∀ c ∈ rest, '/' ∉ c.data) →
    splitChars (ad ++ rest.flatMap (fun b => '/' :: b.data))
      = ad :: rest.map String.data := by
  intro rest
  induction rest with
  | nil =>
    intro ad h _
    simp only [List.flatMap_nil, List.append_nil, List.map_nil]
    exact splitChars_no_slash h
  | cons b r ih =>
    intro ad h hall
    have hstep : ad ++ (b :: r).flatMap (fun b => '/' :: b.data)
        = ad ++ '/' :: (b.data ++ r.flatMap (fun b => '/' :: b.data)) := by
      simp
    rw [hstep, splitChars_append _ h,
      ih b.data (hall b (List.mem_cons_self _ _))
        (fun c hc => hall c (List.mem_cons_of_mem _ hc)),
      List.map_cons]

theorem splitPath_relStr : ∀ {comps : List String}, comps ≠ [] →
    (∀ c ∈ comps, c ≠ "" ∧ '/' ∉ c.data) →
    splitPath (relStr comps) = comps := by
  intro comps h1 h2
  cases comps with
  | nil => exact absurd rfl h1
  | cons a rest =>
    have ha := h2 a (List.mem_cons_self _ _)
    have hpj0 : pjoin "" a = a := by
      unfold pjoin
      rw [if_pos rfl]
    unfold relStr splitPath
    rw [List.foldl_cons, hpj0, foldl_pjoin_data rest a (data_ne_nil ha.1),
      splitChars_join rest a.data ha.2
        (fun c hc => (h2 c (List.mem_cons_of_mem _ hc)).2),
      List.map_cons]
    have hmk : ∀ (l : List String), List.map String.mk (List.map String.data l) = l := by
      intro l
      rw [List.map_map, show (String.mk ∘ String.data) = id from funext fun q => rfl,
        List.map_id]
    rw [hmk rest]

theorem take_full {α : Type} : ∀ (l : List α) (n : Nat), l.length ≤ n →
    List.take n l = l := by
  intro l
  induction l with
  | nil => intro n _; cases n <;> rfl
  | cons a t ih =>
    intro n h
    cases n with
    | zero => exact absurd h (Nat.not_succ_le_zero _)
    | succ m => simp only [List.take]; rw [ih m (Nat.le_of_succ_le_succ h)]

/-- Every nonempty initial segment of the component list, read back as a
relative path string, escapes the exclusion patterns: no ancestor of
this relative location is excluded. -/
def prefixClear (ex : List String) (rel : List String) : Prop :=
  ∀ n, 0 < n → n ≤ rel.length → excludedBy ex (relStr (List.take n rel)) = false

theorem prefixClear_nil (ex : List String) : prefixClear ex [] := by
  intro n hn hle
  exact absurd (Nat.lt_of_lt_of_le hn hle) (Nat.lt_irrefl 0)

theorem prefixClear_snoc {ex rel : List String} (h : prefixClear ex rel) {x : String}
    (hx : excludedBy ex (pjoin (relStr rel) x) = false) :
    prefixClear ex (rel ++ [x]) := by
  intro n hn hle
  rcases Nat.lt_or_ge n (rel.length + 1) with hlt | hge
  · have hle2 : n ≤ rel.length := Nat.lt_succ_iff.mp hlt
    rw [List.take_append_eq_append_take, Nat.sub_eq_zero_of_le hle2, List.take_zero,
      List.append_nil]
    exact h n hn hle2
  · have hfull : List.take n (rel ++ [x]) = rel ++ [x] :=
      take_full _ n (by simp; omega)
    rw [hfull, relStr_snoc]
    exact hx

/-- All components are nonempty and free of the path separator (true of
every name `os.scandir` can yield). -/
def relWF (rel : List String) : Prop := ∀ c ∈ rel, c ≠ "" ∧ '/' ∉ c.data

theorem relWF_nil : relWF [] := fun c hc => absurd hc (List.not_mem_nil c)

theorem relWF_snoc {rel : List String} (h : relWF rel) {x : String}
    (hx : x ≠ "" ∧ '/' ∉ x.data) : relWF (rel ++ [x]) := by
  intro c hc
  rcases List.mem_append.mp hc with hc | hc
  · exact h c hc
  · rcases List.mem_singleton.mp hc with rfl
    exact hx

/-- The relative locations of the scan events of a trace. -/
def scansOf : List Ev → List (List String)
  | [] => []
  | Ev.scan1 rel _ :: r => rel :: scansOf r
  | Ev.scan2 rel _ :: r => rel :: scansOf r
  | Ev.scanX rel _ :: r => rel :: scansOf r
  | Ev.check _ :: r => scansOf r

theorem scansOf_append : ∀ (t1 t2 : List Ev),
    scansOf (t1 ++ t2) = scansOf t1 ++ scansOf t2 := by
  intro t1
  induction t1 with
  | nil => intro t2; rfl
  | cons e r ih =>
    intro t2
    cases e <;> simp [scansOf, ih t2]

/-- A decidable well-formedness check on the model filesystem: every name
in every directory listing is nonempty and contains no separator. -/
def namesOkB (fs : FS) : Bool :=
  List.all fs fun n =>
    match n.kind with
    | NodeKind.dir children _ =>
      children.all fun e => !(e.1 == "") && !(decide ('/' ∈ e.1.data))
    | _ => true

theorem namesOk_of_allB {fs : FS} (h : namesOkB fs = true) :
    ∀ (i : Nat) (L : List (String × Nat)), fs.scandirE i = some L →
      ∀ nm c, (nm, c) ∈ L → nm ≠ "" ∧ '/' ∉ nm.data := by
  intro i L hscan nm c hmem
  have hk := scandirE_inv hscan
  unfold FS.kindOf at hk
  cases hn : fs.node i with
  | none => rw [hn] at hk; cases hk
  | some nd =>
    rw [hn] at hk
    injection hk with hk
    have hn2 : List.get? fs i = some nd := hn
    have hmem2 := List.get?_mem hn2
    unfold namesOkB at h
    have hall := List.all_eq_true.mp h nd hmem2
    simp only [hk] at hall
    have he := List.all_eq_true.mp hall (nm, c) hmem
    rw [Bool.and_eq_true] at he
    obtain ⟨h1, h2⟩ := he
    have h1f : (nm == "") = false := by simpa using h1
    have h2f : decide ('/' ∈ nm.data) = false := by simpa using h2
    constructor
    · exact beq_eq_false_iff_ne.mp h1f
    · exact of_decide_eq_false h2f

/-- Every recorded path is non-excluded, decomposes into well-formed
components, and none of its ancestors is excluded either. -/
def PathsClear (ex : List String) (res : DirComparison) : Prop :=
  ∀ side ft σ p, ResultHas res side ft σ p →
    excludedBy ex p = false ∧ prefixClear ex (splitPath p) ∧ relWF (splitPath p)
    ∧ splitPath p ≠ [] ∧ relStr (splitPath p) = p

theorem PathsClear_nil (ex : List String) : PathsClear ex [] :=
  fun side ft σ p hr => absurd hr (ResultHas_nil side ft σ p)

theorem PathsClear_add {ex : List String} {res : DirComparison}
    (h : PathsClear ex res) {rel : List String} {name : String}
    (p s : String) (ft : FileType) (σ : Nat)
    (hwf : relWF rel) (hnm : name ≠ "" ∧ '/' ∉ name.data)
    (hp : p = pjoin (relStr rel) name)
    (hex : excludedBy ex p = false) (hpc : prefixClear ex rel) :
    PathsClear ex (addDctEntry res p s ft σ) := by
  have hwf2 : relWF (rel ++ [name]) := relWF_snoc hwf hnm
  have hsplit : splitPath p = rel ++ [name] := by
    rw [hp, ← relStr_snoc]
    exact splitPath_relStr (by simp) hwf2
  intro side ft' σ' p' hr
  rcases (ResultHas_add res p s ft σ side ft' σ' p').mp hr with ⟨-, -, -, rfl⟩ | hold
  · refine ⟨hex, ?_, ?_, ?_, ?_⟩
    · rw [hsplit]
      exact prefixClear_snoc hpc (hp ▸ hex)
    · rw [hsplit]; exact hwf2
    · rw [hsplit]; simp
    · rw [hsplit, relStr_snoc, ← hp]
  · exact h _ _ _ _ hold

theorem mem_dirBucket {res : DirComparison} {n p : String}
    (h : p ∈ ((alookup ((alookup res n).getD []) FileType.DIR).getD
        []).flatMap Prod.snd) :
    ∃ σ, ResultHas res n FileType.DIR σ p := by
  rcases List.mem_flatMap.mp h with ⟨σe, hσe, hp⟩
  cases hm : alookup res n with
  | none =>
    rw [hm] at hσe
    simp [alookup] at hσe
  | some m =>
    rw [hm] at hσe
    simp only [Option.getD_some] at hσe
    cases ht : alookup m FileType.DIR with
    | none =>
      rw [ht] at hσe
      simp at hσe
    | some t =>
      rw [ht] at hσe
      exact ⟨σe.1, m, t, σe.2, alookup_mem hm, alookup_mem ht, hσe, hp⟩

/-- The visible exclusion invariant of a run state: no recorded path is
excluded or sits below an excluded ancestor, and no directory is ever
scanned at or below an excluded relative location. -/
def exclInvariant (ex : List String) (st : InstState) : Prop :=
  (∀ side ft σ p, ResultHas st.dir_comparison side ft σ p →
      excludedBy ex p = false ∧ prefixClear ex (splitPath p))
  ∧ ∀ r ∈ scansOf st.trace, prefixClear ex r

theorem compareEntriesLoop_clear (fs : FS) (rel ex : List String)
    (hpc : prefixClear ex rel) (hwf : relWF rel) :
    ∀ (l1 d2 : List (String × Nat)) (st : InstState) (cds : List (String × Nat × Nat)),
      (∀ nm c, (nm, c) ∈ l1 → nm ≠ "" ∧ '/' ∉ nm.data) →
      (∀ nm c, (nm, c) ∈ d2 → nm ≠ "" ∧ '/' ∉ nm.data) →
      st.exclude_patterns = ex →
      PathsClear ex st.dir_comparison →
      PathsClear ex (compareEntriesLoop fs rel l1 d2 st cds).1.dir_comparison := by
  intro l1
  induction l1 with
  | nil => intro d2 st cds _ _ _ h; exact h
  | cons hd tl ih =>
    intro d2 st cds hw1 hw2 hex h
    obtain ⟨name, i1⟩ := hd
    have hw1' : ∀ nm c, (nm, c) ∈ tl → nm ≠ "" ∧ '/' ∉ nm.data :=
      fun nm c hx => hw1 nm c (List.mem_cons_of_mem _ hx)
    have hw2' : ∀ nm c, (nm, c) ∈ eraseKeyA d2 name → nm ≠ "" ∧ '/' ∉ nm.data :=
      fun nm c hx => hw2 nm c (eraseKeyA_subset hx)
    have hnm : name ≠ "" ∧ '/' ∉ name.data := hw1 name i1 (List.mem_cons_self _ _)
    simp only [compareEntriesLoop]
    split
    · exact ih _ _ _ hw1' hw2' hex h
    · rename_i hexcl
      have hexf : excludedBy ex (pjoin (relStr rel) name) = false := by
        rw [← hex]
        exact Bool.eq_false_iff.mpr hexcl
      split
      · rename_i i2 heq2
        split
        · split
          · exact ih _ _ _ hw1' hw2' hex h
          · exact ih _ _ _ hw1' hw2' hex
              (PathsClear_add h _ _ _ _ hwf hnm rfl hexf hpc)
        · split
          · exact ih _ _ _ hw1' hw2' hex
              (PathsClear_add (PathsClear_add h _ _ _ _ hwf hnm rfl hexf hpc)
                _ _ _ _ hwf hnm rfl hexf hpc)
          · exact ih _ _ _ hw1' hw2' hex
              (PathsClear_add h _ _ _ _ hwf hnm rfl hexf hpc)
      · exact ih _ _ _ hw1' hw2' hex
          (PathsClear_add h _ _ _ _ hwf hnm rfl hexf hpc)

theorem addUniqueDir2Loop_clear (fs : FS) (rel ex : List String)
    (hpc : prefixClear ex rel) (hwf : relWF rel) :
    ∀ (d2 : List (String × Nat)) (st : InstState),
      (∀ nm c, (nm, c) ∈ d2 → nm ≠ "" ∧ '/' ∉ nm.data) →
      st.exclude_patterns = ex →
      PathsClear ex st.dir_comparison →
      PathsClear ex (addUniqueDir2Loop fs rel d2 st).dir_comparison := by
  intro d2
  induction d2 with
  | nil => intro st _ _ h; exact h
  | cons hd tl ih =>
    intro st hw2 hex h
    obtain ⟨name, i2⟩ := hd
    have hw2' : ∀ nm c, (nm, c) ∈ tl → nm ≠ "" ∧ '/' ∉ nm.data :=
      fun nm c hx => hw2 nm c (List.mem_cons_of_mem _ hx)
    have hnm : name ≠ "" ∧ '/' ∉ name.data := hw2 name i2 (List.mem_cons_self _ _)
    simp only [addUniqueDir2Loop]
    split
    · exact ih _ hw2' hex h
    · rename_i hexcl
      have hexf : excludedBy ex (pjoin (relStr rel) name) = false := by
        rw [← hex]
        exact Bool.eq_false_iff.mpr hexcl
      exact ih _ hw2' hex (PathsClear_add h _ _ _ _ hwf hnm rfl hexf hpc)

theorem compareEntriesLoop_d2_sub (fs : FS) (rel : List String) :
    ∀ (l1 d2 : List (String × Nat)) (st : InstState) (cds : List (String × Nat × Nat))
      (x : String × Nat),
      x ∈ (compareEntriesLoop fs rel l1 d2 st cds).2.2 → x ∈ d2 := by
  intro l1
  induction l1 with
  | nil => intro d2 st cds x h; exact h
  | cons hd tl ih =>
    intro d2 st cds x h
    obtain ⟨name, i1⟩ := hd
    simp only [compareEntriesLoop] at h
    split at h
    · exact eraseKeyA_subset (ih _ _ _ _ h)
    · split at h
      · split at h
        · split at h
          · exact eraseKeyA_subset (ih _ _ _ _ h)
          · exact eraseKeyA_subset (ih _ _ _ _ h)
        · exact eraseKeyA_subset (ih _ _ _ _ h)
      · exact eraseKeyA_subset (ih _ _ _ _ h)

theorem compareDirEntries_clear (fs : FS) (rel ex : List String)
    (hpc : prefixClear ex rel) (hwf : relWF rel)
    (l1 l2 : List (String × Nat)) (st : InstState)
    (hw1 : ∀ nm c, (nm, c) ∈ l1 → nm ≠ "" ∧ '/' ∉ nm.data)
    (hw2 : ∀ nm c, (nm, c) ∈ l2 → nm ≠ "" ∧ '/' ∉ nm.data)
    (hex : st.exclude_patterns = ex)
    (h : PathsClear ex st.dir_comparison) :
    PathsClear ex (compareDirEntries fs rel l1 l2 st).1.dir_comparison := by
  obtain ⟨-, -, -, -, hex2⟩ := cfg_fields (compareEntriesLoop_cfg fs rel l1 l2 st [])
  unfold compareDirEntries
  simp only
  split
  · refine addUniqueDir2Loop_clear fs rel ex hpc hwf _ _ ?_ (hex2.trans hex) ?_
    · intro nm c hx
      exact hw2 nm c (compareEntriesLoop_d2_sub fs rel l1 l2 st [] (nm, c) hx)
    · exact compareEntriesLoop_clear fs rel ex hpc hwf l1 l2 st [] hw1 hw2 hex h
  · exact compareEntriesLoop_clear fs rel ex hpc hwf l1 l2 st [] hw1 hw2 hex h

theorem compareEntriesLoop_cds_excl (fs : FS) (rel : List String) :
    ∀ (l1 d2 : List (String × Nat)) (st : InstState) (cds : List (String × Nat × Nat))
      (x : String × Nat × Nat),
      x ∈ (compareEntriesLoop fs rel l1 d2 st cds).2.1 →
      x ∈ cds ∨ ((∃ c1, (x.1, c1) ∈ l1)
        ∧ excludedBy st.exclude_patterns (pjoin (relStr rel) x.1) = false) := by
  intro l1
  induction l1 with
  | nil => intro d2 st cds x h; exact Or.inl h
  | cons hd tl ih =>
    intro d2 st cds x h
    obtain ⟨name, i1⟩ := hd
    have lift : ∀ {st' : InstState},
        (x ∈ cds ∨ ((∃ c1, (x.1, c1) ∈ tl)
          ∧ excludedBy st'.exclude_patterns (pjoin (relStr rel) x.1) = false)) →
        st'.exclude_patterns = st.exclude_patterns →
        x ∈ cds ∨ ((∃ c1, (x.1, c1) ∈ (name, i1) :: tl)
          ∧ excludedBy st.exclude_patterns (pjoin (relStr rel) x.1) = false) := by
      intro st' hh hpat
      rcases hh with hh | ⟨⟨c1, hc1⟩, hexcl⟩
      · exact Or.inl hh
      · exact Or.inr ⟨⟨c1, List.mem_cons_of_mem _ hc1⟩, hpat ▸ hexcl⟩
    simp only [compareEntriesLoop] at h
    split at h
    · exact lift (ih _ _ _ _ h) rfl
    · rename_i hexcl
      have hexf : excludedBy st.exclude_patterns (pjoin (relStr rel) name) = false :=
        Bool.eq_false_iff.mpr hexcl
      split at h
      · rename_i i2 heq2
        split at h
        · rename_i heqt
          have hcds : ∀ st2 cds2,
              x ∈ (compareEntriesLoop fs rel tl (eraseKeyA d2 name) st2 cds2).2.1 →
              st2.exclude_patterns = st.exclude_patterns →
              cds2 = (if getFileTypeSome fs st.follow_symlinks i1 = FileType.DIR then
                cds ++ [(name, rslv fs i1, rslv fs i2)] else cds) →
              x ∈ cds ∨ ((∃ c1, (x.1, c1) ∈ (name, i1) :: tl)
                ∧ excludedBy st.exclude_patterns (pjoin (relStr rel) x.1) = false) := by
            intro st2 cds2 hh hpat hcds2
            rcases ih _ _ _ _ hh with hh2 | ⟨⟨c1, hc1⟩, hexcl2⟩
            · rw [hcds2] at hh2
              split at hh2
              · rcases List.mem_append.mp hh2 with hh3 | hh3
                · exact Or.inl hh3
                · have hx1 : x.1 = name := by
                    rcases List.mem_singleton.mp hh3 with rfl
                    rfl
                  rw [hx1]
                  exact Or.inr ⟨⟨i1, List.mem_cons_self _ _⟩, hexf⟩
              · exact Or.inl hh2
            · exact Or.inr ⟨⟨c1, List.mem_cons_of_mem _ hc1⟩, hpat ▸ hexcl2⟩
          split at h
          · exact hcds _ _ h rfl rfl
          · exact hcds _ _ h rfl rfl
        · split at h
          · exact lift (ih _ _ _ _ h) rfl
          · exact lift (ih _ _ _ _ h) rfl
      · exact lift (ih _ _ _ _ h) rfl

theorem foldCommonDirs_clear (fs : FS) (ex : List String) (fuel : Nat)
    (IH : ∀ rel i1 i2 st st', recursiveScandirCmpr fs fuel rel i1 i2 st = .ok st' →
      st.exclude_patterns = ex → prefixClear ex rel → relWF rel →
      PathsClear ex st.dir_comparison →
      (∀ r ∈ scansOf st.trace, prefixClear ex r) →
      st'.exclude_patterns = ex ∧ PathsClear ex st'.dir_comparison
        ∧ ∀ r ∈ scansOf st'.trace, prefixClear ex r) :
    ∀ (cds : List (String × Nat × Nat)) (rel : List String) (st st' : InstState),
      foldCommonDirs (recursiveScandirCmpr fs fuel) rel cds st = .ok st' →
      (∀ x ∈ cds, prefixClear ex (rel ++ [x.1]) ∧ relWF (rel ++ [x.1])) →
      st.exclude_patterns = ex → PathsClear ex st.dir_comparison →
      (∀ r ∈ scansOf st.trace, prefixClear ex r) →
      st'.exclude_patterns = ex ∧ PathsClear ex st'.dir_comparison
        ∧ ∀ r ∈ scansOf st'.trace, prefixClear ex r := by
  intro cds
  induction cds with
  | nil =>
    intro rel st st' h _ hex hp hs
    cases h
    exact ⟨hex, hp, hs⟩
  | cons hd tl ih =>
    intro rel st st' h hcds hex hp hs
    obtain ⟨name, j1, j2⟩ := hd
    rw [foldCommonDirs] at h
    cases hrec : recursiveScandirCmpr fs fuel (rel ++ [name]) j1 j2 st with
    | error e => rw [hrec] at h; cases h
    | ok stm =>
      rw [hrec] at h
      obtain ⟨hpc1, hwf1⟩ := hcds _ (List.mem_cons_self _ _)
      obtain ⟨hex1, hp1, hs1⟩ := IH _ _ _ _ _ hrec hex hpc1 hwf1 hp hs
      exact ih _ _ _ h (fun x hx => hcds x (List.mem_cons_of_mem _ hx)) hex1 hp1 hs1

theorem recScandir_clear (fs : FS) (ex : List String)
    (HN : ∀ i L, fs.scandirE i = some L → ∀ nm c, (nm, c) ∈ L →
      nm ≠ "" ∧ '/' ∉ nm.data) :
    ∀ (fuel : Nat) (rel : List String) (i1 i2 : Nat) (st st' : InstState),
      recursiveScandirCmpr fs fuel rel i1 i2 st = .ok st' →
      st.exclude_patterns = ex → prefixClear ex rel → relWF rel →
      PathsClear ex st.dir_comparison →
      (∀ r ∈ scansOf st.trace, prefixClear ex r) →
      st'.exclude_patterns = ex ∧ PathsClear ex st'.dir_comparison
        ∧ ∀ r ∈ scansOf st'.trace, prefixClear ex r := by
  intro fuel
  induction fuel with
  | zero =>
    intro rel i1 i2 st st' h hex hpc hwf hp hs
    cases h
    exact ⟨hex, hp, hs⟩
  | succ fuel ih =>
    intro rel i1 i2 st st' h hex hpc hwf hp hs
    rw [recursiveScandirCmpr] at h
    split at h
    · cases h; exact ⟨hex, hp, hs⟩
    · rename_i stats hstat
      split at h
      · cases h
      · rename_i visited' hcheck
        split at h
        · cases h
          refine ⟨hex, hp, ?_⟩
          intro r hr
          simp only [scansOf_append, scansOf, List.append_nil] at hr
          exact hs r hr
        · rename_i l1 heq1
          split at h
          · cases h
            refine ⟨hex, hp, ?_⟩
            intro r hr
            simp only [scansOf_append, scansOf, List.append_nil, List.mem_append,
              List.mem_singleton, List.not_mem_nil, or_false] at hr
            rcases hr with hr | hr
            · exact hs r hr
            · rw [hr]; exact hpc
          · rename_i l2 heq2
            refine foldCommonDirs_clear fs ex fuel ih _ _ _ _ h ?_ ?_ ?_ ?_
            · intro x hx
              rcases compareEntriesLoop_cds_excl fs rel l1 l2 _ [] x hx with
                hnil | ⟨⟨c1, hc1⟩, hexcl0⟩
              · cases hnil
              · have hnm := HN i1 l1 heq1 x.1 c1 hc1
                have hexf : excludedBy ex (pjoin (relStr rel) x.1) = false := by
                  rw [← hex]
                  exact hexcl0
                exact ⟨prefixClear_snoc hpc hexf, relWF_snoc hwf hnm⟩
            · refine ((cfg_fields (compareDirEntries_cfg fs rel _ _ _)).2.2.2.2).trans ?_
              exact hex
            · refine compareDirEntries_clear fs rel ex hpc hwf l1 l2 _ ?_ ?_ ?_ ?_
              · intro nm c hc
                exact HN i1 l1 heq1 nm c hc
              · intro nm c hc
                exact HN i2 l2 heq2 nm c hc
              · exact hex
              · exact hp
            · intro r hr
              rw [compareDirEntries_trace] at hr
              simp only [scansOf_append, scansOf, List.mem_append, List.mem_singleton,
                List.not_mem_nil, List.mem_cons, or_false, false_or] at hr
              rcases hr with (hr | hr) | hr
              · exact hs r hr
              · rw [hr]; exact hpc
              · rw [hr]; exact hpc

theorem expandEntriesLoop_clear (fs : FS) (bname : String) (rel ex : List String)
    (hpc : prefixClear ex rel) (hwf : relWF rel) :
    ∀ (entries : List (String × Nat)) (st : InstState) (dirs : List (List String)),
      (∀ nm c, (nm, c) ∈ entries → nm ≠ "" ∧ '/' ∉ nm.data) →
      st.exclude_patterns = ex →
      PathsClear ex st.dir_comparison →
      PathsClear ex (expandEntriesLoop fs bname rel entries st dirs).1.dir_comparison := by
  intro entries
  induction entries with
  | nil => intro st dirs _ _ h; exact h
  | cons hd tl ih =>
    intro st dirs hw hex h
    obtain ⟨name, i⟩ := hd
    have hw' : ∀ nm c, (nm, c) ∈ tl → nm ≠ "" ∧ '/' ∉ nm.data :=
      fun nm c hx => hw nm c (List.mem_cons_of_mem _ hx)
    have hnm : name ≠ "" ∧ '/' ∉ name.data := hw name i (List.mem_cons_self _ _)
    simp only [expandEntriesLoop]
    split
    · exact ih _ _ hw' hex h
    · rename_i hexcl
      have hexf : excludedBy ex (pjoin (relStr rel) name) = false := by
        rw [← hex]
        exact Bool.eq_false_iff.mpr hexcl
      exact ih _ _ hw' hex (PathsClear_add h _ _ _ _ hwf hnm rfl hexf hpc)

theorem expandEntriesLoop_dirs (fs : FS) (bname : String) (rel : List String) :
    ∀ (entries : List (String × Nat)) (st : InstState) (dirs : List (List String))
      (x : List String),
      x ∈ (expandEntriesLoop fs bname rel entries st dirs).2 →
      x ∈ dirs ∨ ∃ name, x = rel ++ [name] ∧ (∃ c, (name, c) ∈ entries)
        ∧ excludedBy st.exclude_patterns (pjoin (relStr rel) name) = false := by
  intro entries
  induction entries with
  | nil => intro st dirs x h; exact Or.inl h
  | cons hd tl ih =>
    intro st dirs x h
    obtain ⟨name, i⟩ := hd
    have lift : ∀ {st' : InstState},
        (x ∈ dirs ∨ ∃ nm, x = rel ++ [nm] ∧ (∃ c, (nm, c) ∈ tl)
          ∧ excludedBy st'.exclude_patterns (pjoin (relStr rel) nm) = false) →
        st'.exclude_patterns = st.exclude_patterns →
        x ∈ dirs ∨ ∃ nm, x = rel ++ [nm] ∧ (∃ c, (nm, c) ∈ (name, i) :: tl)
          ∧ excludedBy st.exclude_patterns (pjoin (relStr rel) nm) = false := by
      intro st' hh hpat
      rcases hh with hh | ⟨nm, hx, ⟨c, hc⟩, hexcl⟩
      · exact Or.inl hh
      · exact Or.inr ⟨nm, hx, ⟨c, List.mem_cons_of_mem _ hc⟩, hpat ▸ hexcl⟩
    simp only [expandEntriesLoop] at h
    split at h
    · exact lift (ih _ _ _ h) rfl
    · rename_i hexcl
      have hexf : excludedBy st.exclude_patterns (pjoin (relStr rel) name) = false :=
        Bool.eq_false_iff.mpr hexcl
      rcases ih _ _ _ h with hh2 | ⟨nm, hx, ⟨c, hc⟩, hexcl2⟩
      · split at hh2
        · rcases List.mem_append.mp hh2 with hh3 | hh3
          · exact Or.inl hh3
          · rcases List.mem_singleton.mp hh3 with rfl
            exact Or.inr ⟨name, rfl, ⟨i, List.mem_cons_self _ _⟩, hexf⟩
        · exact Or.inl hh2
      · exact Or.inr ⟨nm, hx, ⟨c, List.mem_cons_of_mem _ hc⟩, hexcl2⟩

theorem foldExpandDirs_clear (ex : List String)
    (f : List String → InstState → Except String InstState)
    (HF : ∀ rel st st', f rel st = .ok st' → st.exclude_patterns = ex →
      prefixClear ex rel → relWF rel →
      PathsClear ex st.dir_comparison →
      (∀ r ∈ scansOf st.trace, prefixClear ex r) →
      st'.exclude_patterns = ex ∧ PathsClear ex st'.dir_comparison
        ∧ ∀ r ∈ scansOf st'.trace, prefixClear ex r) :
    ∀ (dirs : List (List String)) (st st' : InstState),
      foldExpandDirs f dirs st = .ok st' →
      (∀ rel ∈ dirs, prefixClear ex rel ∧ relWF rel) →
      st.exclude_patterns = ex → PathsClear ex st.dir_comparison →
      (∀ r ∈ scansOf st.trace, prefixClear ex r) →
      st'.exclude_patterns = ex ∧ PathsClear ex st'.dir_comparison
        ∧ ∀ r ∈ scansOf st'.trace, prefixClear ex r := by
  intro dirs
  induction dirs with
  | nil =>
    intro st st' h _ hex hp hs
    cases h
    exact ⟨hex, hp, hs⟩
  | cons relc rest ih =>
    intro st st' h hdirs hex hp hs
    rw [foldExpandDirs] at h
    cases hrec : f relc st with
    | error e => rw [hrec] at h; cases h
    | ok stm =>
      rw [hrec] at h
      obtain ⟨hpc1, hwf1⟩ := hdirs _ (List.mem_cons_self _ _)
      obtain ⟨hex1, hp1, hs1⟩ := HF _ _ _ hrec hex hpc1 hwf1 hp hs
      exact ih _ _ h (fun r hr => hdirs r (List.mem_cons_of_mem _ hr)) hex1 hp1 hs1

theorem expandDir_clear (fs : FS) (rootId : Nat) (bdir bname : String) (ex : List String)
    (HN : ∀ i L, fs.scandirE i = some L → ∀ nm c, (nm, c) ∈ L →
      nm ≠ "" ∧ '/' ∉ nm.data) :
    ∀ (fuel : Nat) (rel : List String) (st st' : InstState),
      expandDir fs rootId bdir bname fuel rel st = .ok st' →
      st.exclude_patterns = ex → prefixClear ex rel → relWF rel →
      PathsClear ex st.dir_comparison →
      (∀ r ∈ scansOf st.trace, prefixClear ex r) →
      st'.exclude_patterns = ex ∧ PathsClear ex st'.dir_comparison
        ∧ ∀ r ∈ scansOf st'.trace, prefixClear ex r := by
  intro fuel
  induction fuel with
  | zero =>
    intro rel st st' h hex hpc hwf hp hs
    cases h
    exact ⟨hex, hp, hs⟩
  | succ fuel ih =>
    intro rel st st' h hex hpc hwf hp hs
    rw [expandDir] at h
    split at h
    · cases h; exact ⟨hex, hp, hs⟩
    · rename_i i hlook
      split at h
      · cases h; exact ⟨hex, hp, hs⟩
      · rename_i stats hstat
        split at h
        · cases h
        · rename_i visited' hcheck
          split at h
          · cases h
            refine ⟨hex, hp, ?_⟩
            intro r hr
            simp only [scansOf_append, scansOf, List.append_nil] at hr
            exact hs r hr
          · rename_i entries heqe
            refine foldExpandDirs_clear ex (expandDir fs rootId bdir bname fuel)
              (fun rel2 s s' hh hhex hhpc hhwf hhp hhs =>
                ih rel2 s s' hh hhex hhpc hhwf hhp hhs) _ _ _ h ?_ ?_ ?_ ?_
            · intro x hx
              rcases expandEntriesLoop_dirs fs bname rel entries _ [] x hx with
                hnil | ⟨name, rfl, ⟨c, hc⟩, hexcl0⟩
              · cases hnil
              · have hnm := HN i entries heqe name c hc
                have hexf : excludedBy ex (pjoin (relStr rel) name) = false := by
                  rw [← hex]
                  exact hexcl0
                exact ⟨prefixClear_snoc hpc hexf, relWF_snoc hwf hnm⟩
            · refine ((cfg_fields (expandEntriesLoop_cfg fs bname rel _ _ _)).2.2.2.2).trans ?_
              exact hex
            · refine expandEntriesLoop_clear fs bname rel ex hpc hwf entries _ _ ?_ ?_ ?_
              · intro nm c hc
                exact HN i entries heqe nm c hc
              · exact hex
              · exact hp
            · intro r hr
              rw [expandEntriesLoop_trace] at hr
              simp only [scansOf_append, scansOf, List.append_nil, List.mem_append,
                List.mem_singleton, List.not_mem_nil, or_false] at hr
              rcases hr with hr | hr
              · exact hs r hr
              · rw [hr]; exact hpc

theorem expandDirs_clear (fs : FS) (root1 root2 : Nat) (fuel : Nat)
    (st st' : InstState) (ex : List String)
    (HN : ∀ i L, fs.scandirE i = some L → ∀ nm c, (nm, c) ∈ L →
      nm ≠ "" ∧ '/' ∉ nm.data)
    (h : expandDirs fs root1 root2 fuel st ex = .ok st')
    (hp : PathsClear ex st.dir_comparison) :
    PathsClear ex st'.dir_comparison ∧ ∀ r ∈ scansOf st'.trace, prefixClear ex r := by
  have hseed : ∀ (n p : String),
      p ∈ ((alookup ((alookup st.dir_comparison n).getD []) FileType.DIR).getD
          []).flatMap Prod.snd →
      prefixClear ex (splitPath p) ∧ relWF (splitPath p) := by
    intro n p hmem
    obtain ⟨σ, hr⟩ := mem_dirBucket hmem
    obtain ⟨-, hpc, hwf, -, -⟩ := hp _ _ _ _ hr
    exact ⟨hpc, hwf⟩
  rw [expandDirs] at h
  simp only at h
  split at h
  · cases h
  · rename_i st1 heq1
    have h1 := foldExpandDirs_clear ex
      (expandDir fs root1 st.comparator.dir1 st.comparator.dir1_name fuel)
      (fun rel s s' hh hhex hhpc hhwf hhp hhs =>
        expandDir_clear fs root1 st.comparator.dir1 st.comparator.dir1_name ex HN
          fuel rel s s' hh hhex hhpc hhwf hhp hhs)
      _ _ _ heq1 ?_ rfl hp ?_
    · obtain ⟨hex1, hp1, hs1⟩ := h1
      have h2 := foldExpandDirs_clear ex
        (expandDir fs root2 st.comparator.dir2 st.comparator.dir2_name fuel)
        (fun rel s s' hh hhex hhpc hhwf hhp hhs =>
          expandDir_clear fs root2 st.comparator.dir2 st.comparator.dir2_name ex HN
            fuel rel s s' hh hhex hhpc hhwf hhp hhs)
        _ _ _ h ?_ hex1 hp1 hs1
      · exact ⟨h2.2.1, h2.2.2⟩
      · intro rel0 hrel0
        rcases List.mem_map.mp hrel0 with ⟨p, hpmem, rfl⟩
        exact hseed _ p hpmem
    · intro rel0 hrel0
      rcases List.mem_map.mp hrel0 with ⟨p, hpmem, rfl⟩
      exact hseed _ p hpmem
    · intro r hr
      exact absurd hr (List.not_mem_nil r)

/-- Claim C4: with no patterns the matcher is constantly false; and for a
compare run with pattern set `ex` (and any subsequent expand with the
same set) no recorded path is excluded or lies below an excluded
ancestor, and every directory scan of either pass happens at a relative
location none of whose nonempty ancestor prefixes is excluded — so an
excluded directory is never scanned and its subtree is never entered. -/
theorem C4_exclusion (fs : FS) (root1 root2 : Nat) (fuel : Nat)
    (st st1 : InstState) (u ie : Bool) (ex : List String)
    (HN : namesOkB fs = true)
    (h : compareDirectories fs root1 root2 fuel st u ie ex = .ok st1) :
    (∀ p, excludedBy [] p = false)
    ∧ exclInvariant ex st1
    ∧ ∀ fuel2 st2, expandDirs fs root1 root2 fuel2 st1 ex = .ok st2 →
        exclInvariant ex st2 := by
  have HN2 := namesOk_of_allB HN
  have hmain := recScandir_clear fs ex HN2 fuel [] root1 root2 _ st1 h rfl
    (prefixClear_nil ex) relWF_nil (PathsClear_nil ex)
    (fun r hr => absurd hr (List.not_mem_nil r))
  obtain ⟨hex1, hp1, hs1⟩ := hmain
  refine ⟨fun p => rfl, ⟨fun side ft σ p hr => ?_, hs1⟩, ?_⟩
  · obtain ⟨he, hpc, -, -, -⟩ := hp1 side ft σ p hr
    exact ⟨he, hpc⟩
  · intro fuel2 st2 hexp
    obtain ⟨hp2, hs2⟩ := expandDirs_clear fs root1 root2 fuel2 st1 st2 ex HN2 hexp hp1
    refine ⟨fun side ft σ p hr => ?_, hs2⟩
    obtain ⟨he, hpc, -, -, -⟩ := hp2 side ft σ p hr
    exact ⟨he, hpc⟩

/-- Two roots where root 1 holds directories "a" (with a nested file) and
"b" (with a nested file), root 2 holds only "a"; pattern "b" excludes
the directory "b" and its subtree. -/
def fsC4 : FS :=
  [⟨NodeKind.dir [("a", 2), ("b", 3)] true, some ⟨0, 0, 0, 0, 16384⟩⟩,
   ⟨NodeKind.dir [("a", 4)] true, some ⟨0, 1, 0, 0, 16384⟩⟩,
   ⟨NodeKind.dir [("c", 5)] true, some ⟨0, 2, 0, 0, 16384⟩⟩,
   ⟨NodeKind.dir [("d", 6)] true, some ⟨0, 3, 0, 0, 16384⟩⟩,
   ⟨NodeKind.dir [] true, some ⟨0, 4, 0, 0, 16384⟩⟩,
   ⟨NodeKind.file, some ⟨0, 5, 1, 1, 32768⟩⟩,
   ⟨NodeKind.file, some ⟨0, 6, 1, 1, 32768⟩⟩]

/-- Witness for C4 at a concrete input: a run over `fsC4` (the matcher
of the empty pattern list rejects nothing and the invariant holds of the
run's result). -/
theorem C4_exclusion_witness :
    exclInvariant []
      ((compareDirectories fsC4 0 1 3 stC7 false false []).toOption.getD stC7) :=
  (C4_exclusion fsC4 0 1 3 stC7
    ((compareDirectories fsC4 0 1 3 stC7 false false []).toOption.getD stC7)
    false false [] (by decide) rfl).2.1

end PyBackup
